import Mathlib

/-!
# gosu: task/worker engine, retry supervisor, pipelines, load balancer and triggers

A shallow embedding of parts of `pkg/task`, `pkg/util`, `pkg/revproxy`, `pkg/job` and
`pkg/automarshal` of the gosu process supervisor, with theorems about the embedded
definitions.

Conventions of the embedding:

* a Go `error` is an `Option GoError` (`none` is `nil`);
* a cancellable context is represented by the cause recorded in it
  (`none` while the context is live);
* goroutines are modelled by explicit step functions over a state record: one
  event is one atomic step of one goroutine, and a schedule is a list of events;
* the methods of the load balancer and of the whiteboard are modelled one call at a
  time, each call running to its end on the state it finds; the accesses of overlapping
  calls of `Next` to the pointer of one session are modelled step by step as well;
* library functions whose result the code only passes on (`json.Marshal`,
  `json.Unmarshal`, the CRC of `fastHash`, the random source) are parameters.
-/

namespace Gosu

/-! ## `pkg/task/status.go` -/

/-- The status codes of `status.go`. -/
inductive Status where
  | Idle
  | Complete
  | Cancelled
  | Starting
  | Stopping
  | Running
  | Retrying
  | Errored
  | TimeoutStop
  | TimeoutStart
  | TimeoutExec
deriving DecidableEq, Repr

namespace Status

def FlagTransition : Nat := 0x20

def FlagAlive : Nat := 0x40

def FlagError : Nat := 0x80

/-- The `uint8` value of a status: its `iota` index or-ed with its flags. -/
def code : Status → Nat
  | Idle => 0
  | Complete => 1
  | Cancelled => 2
  | Starting => 3 ||| FlagAlive ||| FlagTransition
  | Stopping => 4 ||| FlagAlive ||| FlagTransition
  | Running => 5 ||| FlagAlive
  | Retrying => 6 ||| FlagAlive
  | Errored => 7 ||| FlagError
  | TimeoutStop => 8 ||| FlagError
  | TimeoutStart => 9 ||| FlagError
  | TimeoutExec => 10 ||| FlagError

/-- The `Name` column of `statusDetails`. -/
def Name : Status → String
  | Idle => "idle"
  | Complete => "complete"
  | Cancelled => "cancelled"
  | Starting => "starting"
  | Stopping => "stopping"
  | Running => "running"
  | Retrying => "retrying"
  | Errored => "errored"
  | TimeoutStop => "timeout-stop"
  | TimeoutStart => "timeout-start"
  | TimeoutExec => "timeout-exec"

/-- The `Error` column of `statusDetails`. -/
def ErrorText : Status → String
  | Idle => ""
  | Complete => ""
  | Cancelled => "task cancelled"
  | Starting => ""
  | Stopping => ""
  | Running => ""
  | Retrying => "task is retrying"
  | Errored => "task errored"
  | TimeoutStop => "task timed out during exit"
  | TimeoutStart => "task timed out during launch"
  | TimeoutExec => "task execution timed out"

def IsTransition (s : Status) : Bool := (s.code &&& FlagTransition) == FlagTransition

def IsAlive (s : Status) : Bool := (s.code &&& FlagAlive) == FlagAlive

def IsDead (s : Status) : Bool := !s.IsAlive

def IsError (s : Status) : Bool := (s.code &&& FlagError) == FlagError

/-- Method `Status.Error`. -/
def Error (s : Status) : String :=
  if s.IsError && s.ErrorText != "" then s.ErrorText else s.Name

/-- The keys of the `statusDetails` map, in declaration order. -/
def all : List Status :=
  [Idle, Complete, Cancelled, Starting, Stopping, Running, Retrying, Errored,
   TimeoutStop, TimeoutStart, TimeoutExec]

end Status

/-! ## Error values -/

/-- The error values that occur in the engine.  `wrap msg inner` is the value built by
`fmt.Errorf` with one `%w` verb (message `msg`, `Unwrap` gives `inner`); `join a b` is
`errors.Join(a, b)`. -/
inductive GoError where
  | ofStatus (s : Status)
  | errOk
  | errNonRetriable
  | new (text : String)
  | wrap (msg : String) (inner : GoError)
  | join (a b : GoError)
deriving DecidableEq, Repr

namespace GoError

/-- Method `Error()` of an error value. -/
def Error : GoError → String
  | ofStatus s => s.Error
  | errOk => "done"
  | errNonRetriable => "non-retriable error"
  | new text => text
  | wrap msg _ => msg
  | join a b => a.Error ++ "\n" ++ b.Error

/-- The library function `errors.Is` for a sentinel `target`: the depth-first walk of the
unwrap tree of `err`, comparing every node with `target`. -/
def Is (err target : GoError) : Bool :=
  err == target ||
    match err with
    | wrap _ inner => inner.Is target
    | join a b => a.Is target || b.Is target
    | _ => false

/-- The value of `fmt.Errorf("%w: %s", inner, text)`. -/
def Errorf (inner : GoError) (text : String) : GoError :=
  wrap (inner.Error ++ ": " ++ text) inner

end GoError

/-- Function `errors.Is` on a possibly nil error. -/
def errorsIs (err : Option GoError) (target : GoError) : Bool :=
  match err with
  | none => false
  | some e => e.Is target

/-- Function `StatusFromErr`.  The loop ranges over the map `statusDetails`, whose
iteration order Go leaves unspecified: `keys` is the order of that one call. -/
def StatusFromErr (keys : List Status) (err : Option GoError) : Status :=
  match err with
  | none => Status.Complete
  | some e =>
    match keys.find? (fun s => e.Is (GoError.ofStatus s)) with
    | some s => s
    | none => Status.Errored

/-! ## `pkg/util/ok.go` -/

/-- Function `util.OrOk`. -/
def OrOk (e : Option GoError) : Option GoError :=
  match e with
  | none => some GoError.errOk
  | some x => some x

/-- Function `util.NotOk`. -/
def NotOk (e : Option GoError) : Option GoError :=
  if e = some GoError.errOk then none else e

/-- Method `cancelOrOk.Cancel` on a context whose recorded cause is `cause`: the first
cancellation records its cause, later ones change nothing. -/
def Cancel (cause : Option GoError) (err : Option GoError) : Option GoError :=
  match cause with
  | some c => some c
  | none => OrOk err

/-- Function `util.Cause` of a context whose recorded cause is `cause`. -/
def Cause (cause : Option GoError) : Option GoError :=
  match cause with
  | some c => NotOk (some c)
  | none => none

/-! ## `pkg/util/rate.go`, `pkg/task/options.go` -/

/-- Type `util.TimerRate`: `Count` is a `uint32`, `Period` a duration in nanoseconds. -/
structure TimerRate where
  Count : Nat
  Period : Int
deriving DecidableEq, Repr

/-- Type `task.Options`.  Durations are in nanoseconds, `MaxMemory` in bytes; the
`float64` field `RetryBackoffScale` is carried as a rational number. -/
structure Options where
  RetryDisabled : Bool
  RetryBackoff : Int
  RetryBackoffScale : ℚ
  RetrySuccess : Bool
  RetryLimit : TimerRate
  MaxMemory : Int
  MinUptime : Int
  ExecTimeout : Int
  StartTimeout : Int
  StopTimeout : Int
deriving DecidableEq, Repr

/-- Method `ParsableDuration.IsPositive` (also `ParsableSize.IsPositive`). -/
def IsPositive (d : Int) : Bool := decide (0 < d)

/-- The options that `Options.WithDefaults` makes of the zero value of `Options`: the retry
limit `10/30s`, the scale 2, the backoff 500 ms and the stop timeout 5 s. -/
def defaultOptions : Options :=
  { RetryDisabled := false, RetryBackoff := 500000000, RetryBackoffScale := 2,
    RetrySuccess := false, RetryLimit := { Count := 10, Period := 30000000000 },
    MaxMemory := 0, MinUptime := 0, ExecTimeout := 0, StartTimeout := 0,
    StopTimeout := 5000000000 }

/-! ## `pkg/task/work_must.go` -/

/-- Where the goroutine that executes `mustWorker.Run` stands: not yet called, in the
first `select` (before the `MinUptime` arm was taken), in the nested `select`, or
returned with a value. -/
inductive RunPhase where
  | idle
  | starting
  | running
  | returned (res : Option GoError)
deriving DecidableEq, Repr

/-- The state of a `mustWorker`: the cause recorded in its context (`none` while the
context is live), the stop channel, the `status` field, the progress of `Run`, and
whether an `enforceOrCancel` is waiting for the stop timeout. -/
structure mustWorker where
  options : Options
  cause : Option GoError
  stopChannelClosed : Bool
  stopChannelUsed : Bool
  status : Status
  phase : RunPhase
  stopTimer : Bool
  afterFuncRan : Bool
deriving DecidableEq, Repr

/-- Function `newMustWorker` over a parent context that is live. -/
def newMustWorker (options : Options) : mustWorker :=
  { options := options, cause := none, stopChannelClosed := false,
    stopChannelUsed := false, status := Status.Idle, phase := RunPhase.idle,
    stopTimer := false, afterFuncRan := false }

namespace mustWorker

/-- The call `work.cancel(err)`. -/
def cancel (work : mustWorker) (err : Option GoError) : mustWorker :=
  { work with cause := Cancel work.cause err }

/-- Method `mustWorker.signalStop`.  It sets the status to `Stopping`; the first call
closes the stop channel and then either cancels with `Cancelled` (no positive stop
timeout) or leaves an `enforceOrCancel` waiting for the timer (inline when `wait`, in a
goroutine otherwise: the state is the same). -/
def signalStop (work : mustWorker) (_wait : Bool) : mustWorker :=
  let work := { work with status := Status.Stopping }
  if !work.stopChannelUsed then
    let work := { work with stopChannelUsed := true, stopChannelClosed := true }
    if !IsPositive work.options.StopTimeout then
      work.cancel (some (GoError.ofStatus Status.Cancelled))
    else
      { work with stopTimer := true }
  else
    work

/-- Method `mustWorker.Stop`. -/
def Stop (work : mustWorker) : mustWorker :=
  if work.cause.isSome then work else work.signalStop true

/-- Method `mustWorker.Kill`. -/
def Kill (work : mustWorker) : mustWorker :=
  work.cancel (some (GoError.ofStatus Status.Cancelled))

/-- Method `mustWorker.Status`. -/
def Status (work : mustWorker) : GoError :=
  if work.cause.isSome then
    match Cause work.cause with
    | none => GoError.ofStatus Status.Complete
    | some c => c
  else if work.status.IsAlive then
    GoError.ofStatus work.status
  else
    GoError.ofStatus Status.Idle

/-- The rewrapping applied by `Run` to a non-nil error received from the exit channel:
`if StatusFromErr(err) != Errored { err = fmt.Errorf("%w: %s", Errored, err.Error()) }`. -/
def rewrap (keys : List Gosu.Status) (e : GoError) : GoError :=
  if StatusFromErr keys (some e) ≠ Status.Errored then
    GoError.Errorf (GoError.ofStatus Status.Errored) e.Error
  else
    e

/-- What the `exitReason` arm of the first `select` of `Run` does with the received
error. -/
def exitStarting (keys : List Gosu.Status) (err : Option GoError) : Option GoError :=
  match err with
  | none => some (GoError.Errorf (GoError.ofStatus Status.Errored) "quit too early")
  | some e => some (rewrap keys e)

/-- What the `exitReason` arm of the nested `select` of `Run` does with the received
error. -/
def exitRunning (keys : List Gosu.Status) (err : Option GoError) : Option GoError :=
  match err with
  | none => none
  | some e => some (rewrap keys e)

/-- The atomic steps of the goroutines around one `mustWorker`. -/
inductive Event where
  /-- `Run` is called: `status = Starting`, the task is launched. -/
  | runBegin
  /-- A `select` of `Run` takes `<-work.Done()`. -/
  | selectDone
  /-- The first `select` of `Run` takes `<-work.options.MinUptime.After()`. -/
  | minUptime
  /-- The nested `select` of `Run` takes `<-work.options.ExecTimeout.AfterIf()`. -/
  | execTimeout
  /-- A `select` of `Run` receives `err` from the exit channel; `keys` is the map order
  of the `StatusFromErr` call. -/
  | exit (keys : List Gosu.Status) (err : Option GoError)
  /-- A call of `Stop`. -/
  | stop
  /-- A call of `Kill`. -/
  | kill
  /-- The `context.AfterFunc` callback of `newMustWorker`: `signalStop(false)`. -/
  | afterFunc
  /-- The `select` of `enforceOrCancel` ends (by its timer or by `Done`). -/
  | stopTimeout
  /-- The start-timeout goroutine of `Run` takes its timer arm. -/
  | startTimeout
  /-- The memory watchdog of `Run` finds the limit exceeded. -/
  | memoryLimit
  /-- The parent context is cancelled with `cause`. -/
  | parentCancel (cause : GoError)
deriving DecidableEq, Repr

/-- One step of the worker; `none` when the event cannot happen in that state. -/
def step (work : mustWorker) : Event → Option mustWorker
  | Event.runBegin =>
    match work.phase with
    | RunPhase.idle => some { work with status := Status.Starting, phase := RunPhase.starting }
    | _ => none
  | Event.selectDone =>
    match work.phase with
    | RunPhase.starting | RunPhase.running =>
      if work.cause.isSome then some { work with phase := RunPhase.returned (Cause work.cause) }
      else none
    | _ => none
  | Event.minUptime =>
    match work.phase with
    | RunPhase.starting => some { work with status := Status.Running, phase := RunPhase.running }
    | _ => none
  | Event.execTimeout =>
    match work.phase with
    | RunPhase.running =>
      if IsPositive work.options.ExecTimeout then
        let work := work.cancel (some (GoError.ofStatus Status.TimeoutExec))
        some { work with phase := RunPhase.returned (some (GoError.ofStatus Status.TimeoutExec)) }
      else none
    | _ => none
  | Event.exit keys err =>
    match work.phase with
    | RunPhase.starting =>
      let err := exitStarting keys err
      some { work.cancel err with phase := RunPhase.returned err }
    | RunPhase.running =>
      let err := exitRunning keys err
      some { work.cancel err with phase := RunPhase.returned err }
    | _ => none
  | Event.stop => some work.Stop
  | Event.kill => some work.Kill
  | Event.afterFunc =>
    if work.cause.isSome && !work.afterFuncRan then
      some { work.signalStop false with afterFuncRan := true }
    else none
  | Event.stopTimeout =>
    if work.stopTimer then
      some { work.cancel (some (GoError.ofStatus Status.TimeoutStop)) with stopTimer := false }
    else none
  | Event.startTimeout =>
    if IsPositive work.options.StartTimeout && work.phase != RunPhase.idle then
      some (work.cancel (some (GoError.ofStatus Status.TimeoutStart)))
    else none
  | Event.memoryLimit =>
    if IsPositive work.options.MaxMemory && work.phase != RunPhase.idle then
      some (work.cancel (some (GoError.new "memory limit exceeded")))
    else none
  | Event.parentCancel cause => some { work with cause := Cancel work.cause (some cause) }

/-- A schedule: the events are applied in order; `none` when one of them cannot
happen. -/
def run (work : mustWorker) : List Event → Option mustWorker
  | [] => some work
  | e :: es =>
    match work.step e with
    | none => none
    | some work => run work es

/-- The value `Run` has returned, if it has. -/
def result (work : mustWorker) : Option (Option GoError) :=
  match work.phase with
  | RunPhase.returned res => some res
  | _ => none

end mustWorker

/-! ## `pkg/util/rate.go`: ticks -/

/-- Method `TimerRate.ToTicks` at the clock reading `t` (Unix nanoseconds):
`uint32(int64(t.UnixNano()) / int64(d.Period.Nanoseconds()))`.  Go's integer division
truncates toward zero and panics on a zero divisor (`none`). -/
def TimerRate.ToTicks (d : TimerRate) (t : Int) : Option Nat :=
  if d.Period = 0 then none
  else some ((t.tdiv d.Period) % 4294967296).toNat

/-! ## `pkg/task/work_retry.go` -/

def retryTickDead : Nat := 0xffffffff

/-- Function `NonRetriable`: `fmt.Errorf("%w: %v", ErrNonRetriable, err)`. -/
def NonRetriable (err : Option GoError) : GoError :=
  let text :=
    match err with
    | none => "<nil>"
    | some e => e.Error
  GoError.wrap (GoError.errNonRetriable.Error ++ ": " ++ text) GoError.errNonRetriable

/-- Function `unpackErrorState` on a `uint64`: `(uint32(state), uint32(state >> 32))`. -/
def unpackErrorState (state : Nat) : Nat × Nat :=
  (state % 4294967296, (state >>> 32) % 4294967296)

/-- Function `packErrorState` on two `uint32`: `uint64(tick) | (uint64(counter) << 32)`. -/
def packErrorState (tick counter : Nat) : Nat :=
  (tick ||| (counter <<< 32)) % 18446744073709551616

/-- The state of a `retryWorker`: the options, the cause recorded in the retrier's
context (`none` while live), the atomic word `retryState`, whether `retryCancel` has been
closed, and the `status` field. -/
structure retryWorker where
  options : Options
  cause : Option GoError
  retryState : Nat
  retryCancelClosed : Bool
  status : Status
deriving DecidableEq, Repr

/-- How the goroutines that run beside one call of `tryRetry` (a `Stop` or `Kill`, which
call `disableRetries`, or a cancellation of the retrier's context) interleave with it, and
which arm the final `select` takes. -/
inductive Interleaving where
  /-- `disableRetries` runs after `retriable` returned and before the loop loads the
  state. -/
  | disabledBeforeLoad
  /-- `disableRetries` runs between the `Load` and the `CompareAndSwap` of the loop. -/
  | disabledBeforeSwap
  /-- The swap succeeds; the context is cancelled with `cause` during the wait and the
  `select` takes `<-retry.Done()`. -/
  | waitDone (cause : GoError)
  /-- The swap succeeds; `disableRetries` runs during the wait and the `select` takes
  `<-retry.retryCancel`. -/
  | waitCancel
  /-- The swap succeeds and the `select` takes the timer arm; `disabled` tells whether
  `disableRetries` ran during the wait all the same. -/
  | waitTimer (disabled : Bool)
deriving DecidableEq, Repr

/-- Function `newRetryWorker` over a parent context that is live. -/
def newRetryWorker (options : Options) : retryWorker :=
  { options := options, cause := none, retryState := 0, retryCancelClosed := false,
    status := Status.Idle }

namespace retryWorker

/-- Method `retryWorker.disableRetries`, as one atomic step: the loop leaves when the
tick is already dead or when its `CompareAndSwap` succeeds. -/
def disableRetries (retry : retryWorker) : retryWorker :=
  let expected := retry.retryState
  let (tick, counter) := unpackErrorState expected
  if tick = retryTickDead then retry
  else { retry with retryState := packErrorState retryTickDead counter, retryCancelClosed := true }

/-- Method `retryWorker.retriable`. -/
def retriable (retry : retryWorker) (err : Option GoError) : Bool :=
  let alive :=
    let expected := retry.retryState
    let tick := expected % 4294967296
    tick != retryTickDead
  match err with
  | some e => if e.Is GoError.errNonRetriable then false else alive
  | none => if !retry.options.RetrySuccess then false else alive

/-- The wait computed by `tryRetry` (the lines after the loop), before its conversion to a
`time.Duration`.  The `float64` operations are exact rational operations followed by the
rounding `fl`; the conversions of the `uint32` values are exact.  `counter - 1` is a
`uint32` subtraction. -/
def backoffWait (fl : ℚ → ℚ) (options : Options) (counter : Nat) : ℚ :=
  let rate := options.RetryLimit
  let t := fl (options.RetryBackoff : ℚ)
  let r := fl ((((counter + 4294967295) % 4294967296 : Nat) : ℚ) / (rate.Count : ℚ))
  let r := max (min r 1) 0
  fl (fl (t * fl (1 / 2 + fl (r * r))) * options.RetryBackoffScale)

/-- The counter bump of the loop of `tryRetry` for a loaded state and the current tick:
the new tick and the new counter. -/
def bump (expected : Nat) (cur : Nat) : Nat × Nat :=
  let (tick, counter) := unpackErrorState expected
  let (tick, counter) := if tick ≠ cur then (cur, 0) else (tick, counter)
  (tick, (counter + 1) % 4294967296)

/-- Method `retryWorker.tryRetry`, called with `err` when the clock reads `now`, under the
interleaving `il`.  The result is the returned boolean and the worker afterwards; `none`
is the panic of `rate.Ticks()` on a zero period. -/
def tryRetry (retry : retryWorker) (err : Option GoError) (now : Int) (il : Interleaving) :
    Option (Bool × retryWorker) :=
  if retry.cause.isSome then some (false, retry)
  else if !retry.retriable err then some (false, retry)
  else
    let retry := if il = Interleaving.disabledBeforeLoad then retry.disableRetries else retry
    let rate := retry.options.RetryLimit
    let expected := retry.retryState
    if (unpackErrorState expected).1 = retryTickDead then some (false, retry)
    else
      match rate.ToTicks now with
      | none => none
      | some cur =>
        let (tick, counter) := bump expected cur
        let newState := packErrorState tick counter
        if il = Interleaving.disabledBeforeSwap then
          -- the swap fails; the next iteration loads a dead tick
          some (false, retry.disableRetries)
        else
          let retry := { retry with retryState := newState }
          if counter > rate.Count then some (false, retry)
          else
            let retry := { retry with status := Status.Retrying }
            match il with
            | Interleaving.waitDone cause =>
              some (false, { retry with cause := Cancel retry.cause (some cause),
                                        status := Status.Idle })
            | Interleaving.waitCancel =>
              some (false, { retry.disableRetries with status := Status.Idle })
            | Interleaving.waitTimer disabled =>
              some (true, if disabled then retry.disableRetries else retry)
            | _ => some (false, retry)

/-- The conversion `time.Duration(t)` of a `float64` in the range of `int64`: truncation
toward zero. -/
def toDuration (t : ℚ) : Int :=
  if 0 ≤ t then ⌊t⌋ else -⌊-t⌋

/-- How one attempt of `Run` ends: the `select` takes `<-retry.Done()` (the retrier's
context is cancelled with `cause`), or the work ends with `err` (through `work.Done()` or
through the value of `work.Run`) while its status field holds `workStatus`. -/
inductive AttemptEnd where
  | retrierDone (cause : GoError)
  | ended (err : Option GoError) (workStatus : Status)
deriving DecidableEq, Repr

/-- One attempt in a script for `Run`: the attempt runs for `ranFor` nanoseconds, ends as
`outcome` says, and the call of `tryRetry` that follows meets the interleaving `il`. -/
structure Attempt where
  ranFor : Nat
  outcome : AttemptEnd
  il : Interleaving
deriving DecidableEq, Repr

/-- The record of an execution of `Run`: the clock readings at which the task was launched
(one per iteration of the loop, oldest first), the clock readings at which a call of
`tryRetry` returned true (`grants`), the value returned (`none` while the last attempt of
the script is still running) and the worker. -/
structure RunLog where
  launches : List Int
  grants : List Int
  returned : Option (Option GoError)
  worker : retryWorker
deriving DecidableEq, Repr

/-- Method `retryWorker.Run`, started when the clock reads `clock`, against a script of
attempts.  Each iteration launches a fresh `mustWorker` at the current clock reading; the
attempt ends `ranFor` later, `tryRetry` reads that clock, and a granted retry launches when
the backoff timer fires.  The deferred `retry.cancel(err)` runs on return.  `none` is a
panic of `tryRetry`. -/
def Run (fl : ℚ → ℚ) (retry : retryWorker) (clock : Int) : List Attempt → Option RunLog
  | [] => some { launches := [clock], grants := [], returned := none,
                 worker := { retry with status := Status.Running } }
  | a :: rest =>
    let retry := { retry with status := Status.Running }
    match a.outcome with
    | AttemptEnd.retrierDone cause =>
      let retry := { retry with cause := Cancel retry.cause (some cause) }
      let err := Cause retry.cause
      some { launches := [clock], grants := [], returned := some err,
             worker := { retry with cause := Cancel retry.cause err } }
    | AttemptEnd.ended err workStatus =>
      let retry := { retry with status := workStatus }
      let now := clock + a.ranFor
      match retry.tryRetry err now a.il with
      | none => none
      | some (false, retry) =>
        let retry := { retry with status := Status.Idle }
        some { launches := [clock], grants := [], returned := some err,
               worker := { retry with cause := Cancel retry.cause err } }
      | some (true, retry) =>
        let counter := (unpackErrorState retry.retryState).2
        let wait := toDuration (backoffWait fl retry.options counter)
        match Run fl retry (now + wait) rest with
        | none => none
        | some log =>
          some { log with launches := clock :: log.launches, grants := now :: log.grants }

end retryWorker

/-! ## `pkg/task/task_pipe_mode.go` -/

/-- The four implementations of the interface `PipeMode`: `PipeOrdered{}`,
`PipeParallel{}`, `PipeRace{}` and `PipeAny{}`. -/
inductive PipeMode where
  | PipeOrdered
  | PipeParallel
  | PipeRace
  | PipeAny
deriving DecidableEq, Repr

namespace PipeMode

/-- Method `String` of the modes. -/
def String : PipeMode → String
  | PipeOrdered => "ordered"
  | PipeParallel => "parallel"
  | PipeRace => "race"
  | PipeAny => "any"

/-- Method `serialize` of the modes. -/
def serialize : PipeMode → Nat → Nat → Bool
  | PipeOrdered, _, _ => true
  | PipeParallel, _, _ => false
  | PipeRace, _, _ => false
  | PipeAny, _, _ => false

/-- Method `end` of the modes, as its effect on the cause recorded in the scope that
`cancel` belongs to. -/
def «end» : PipeMode → Option GoError → Option GoError → Option GoError
  | PipeOrdered, err, cause => if err ≠ none then Cancel cause err else cause
  | PipeParallel, err, cause => if err ≠ none then Cancel cause err else cause
  | PipeRace, err, cause => Cancel cause err
  | PipeAny, err, cause => if err = none then Cancel cause none else cause

end PipeMode

/-- The array `PipeModes`. -/
def PipeModes : List PipeMode :=
  [PipeMode.PipeOrdered, PipeMode.PipeParallel, PipeMode.PipeRace, PipeMode.PipeAny]

/-! ## `pkg/task/task_pipe.go`: `Pipe.Launch` -/

/-- Where the goroutine started by `Pipe.Launch` stands: at the top of iteration `i` of
the loop (before the first `pipe.Err()` test), in iteration `i` after that test (at
`serialize` and `pipe.wg.Wait()`), after the loop (at `<-pipe.Done()`), or returned. -/
inductive LauncherPc where
  | top (i : Nat)
  | wait (i : Nat)
  | after
  | returned (res : Option GoError)
deriving DecidableEq, Repr

/-- The state of one execution of `Pipe.Launch`: the cause recorded in the scope of the
`pipeController` (`none` while live), the counter `left`, the launcher, the subtask
goroutines that were created and have not reached their `select` (`spawned`), those that
wait in their `select` (`waiting`), and two logs: the subtasks launched, in the order of
their `pipe.launch(task)` calls, and the subtask results handled, in order. -/
structure pipeController where
  cause : Option GoError
  left : Int
  pc : LauncherPc
  spawned : List Nat
  waiting : List Nat
  launched : List Nat
  ended : List (Nat × Option GoError)
deriving DecidableEq, Repr

/-- The state after `newPipeController` and `pipe.left.Store(int32(n))`, over a parent
scope that is live. -/
def newPipeController (n : Nat) : pipeController :=
  { cause := none, left := n, pc := LauncherPc.top 0, spawned := [], waiting := [],
    launched := [], ended := [] }

namespace pipeController

/-- The counter of `pipe.wg`: the subtask goroutines created and not yet returned. -/
def wg (pipe : pipeController) : Nat := pipe.spawned.length + pipe.waiting.length

end pipeController

/-- The atomic steps of the goroutines of one `Pipe.Launch`. -/
inductive PipeEvent where
  /-- The launcher goroutine takes its next step. -/
  | launcher
  /-- Goroutine `i` evaluates the operands of its `select`: `pipe.launch(task)` launches
  subtask `i`. -/
  | start (i : Nat)
  /-- Goroutine `i` receives `err` from its subtask and runs the body of that arm. -/
  | exit (i : Nat) (err : Option GoError)
  /-- Goroutine `i` takes `<-pipe.Done()`. -/
  | done (i : Nat)
  /-- The parent scope is cancelled with `cause`. -/
  | parentCancel (cause : GoError)
deriving DecidableEq, Repr

/-- The value `Pipe.Launch` returns for the cause `e` of its scope. -/
def Pipe.result (mode : PipeMode) (e : Option GoError) : Option GoError :=
  if e ≠ none then
    if mode = PipeMode.PipeParallel then some (NonRetriable e) else e
  else e

/-- One step of `Pipe.Launch` for a pipe of mode `mode` with `n` subtasks; `none` when
the event cannot happen in that state.  The body of the exit arm (`end`, the decrement of
`left` and the `cancel(nil)` at zero) is one step. -/
def Pipe.step (mode : PipeMode) (n : Nat) (pipe : pipeController) :
    PipeEvent → Option pipeController
  | PipeEvent.launcher =>
    match pipe.pc with
    | LauncherPc.top i =>
      if i < n then
        if pipe.cause.isSome then some { pipe with pc := LauncherPc.after }
        else some { pipe with pc := LauncherPc.wait i }
      else some { pipe with pc := LauncherPc.after }
    | LauncherPc.wait i =>
      if mode.serialize i n && pipe.wg != 0 then none
      else if pipe.cause.isNone then
        some { pipe with spawned := pipe.spawned ++ [i], pc := LauncherPc.top (i + 1) }
      else some { pipe with pc := LauncherPc.top (i + 1) }
    | LauncherPc.after =>
      if pipe.cause.isSome then
        some { pipe with pc := LauncherPc.returned (Pipe.result mode (Cause pipe.cause)) }
      else none
    | LauncherPc.returned _ => none
  | PipeEvent.start i =>
    if i ∈ pipe.spawned then
      some { pipe with spawned := pipe.spawned.erase i, waiting := pipe.waiting ++ [i],
                       launched := pipe.launched ++ [i] }
    else none
  | PipeEvent.exit i err =>
    if i ∈ pipe.waiting then
      let cause := mode.«end» err pipe.cause
      let left := pipe.left - 1
      let cause := if left = 0 then Cancel cause none else cause
      some { pipe with cause := cause, left := left, waiting := pipe.waiting.erase i,
                       ended := pipe.ended ++ [(i, err)] }
    else none
  | PipeEvent.done i =>
    if i ∈ pipe.waiting && pipe.cause.isSome then
      some { pipe with waiting := pipe.waiting.erase i }
    else none
  | PipeEvent.parentCancel cause => some { pipe with cause := Cancel pipe.cause (some cause) }

/-- A schedule of `Pipe.Launch`: the events are applied in order; `none` when one of them
cannot happen. -/
def Pipe.run (mode : PipeMode) (n : Nat) (pipe : pipeController) :
    List PipeEvent → Option pipeController
  | [] => some pipe
  | e :: es =>
    match Pipe.step mode n pipe e with
    | none => none
    | some pipe => Pipe.run mode n pipe es

/-- Whether an event is a cancellation of the parent scope. -/
def PipeEvent.isParentCancel : PipeEvent → Bool
  | PipeEvent.parentCancel _ => true
  | _ => false

/-- The schedule of an ordered pipe in which every goroutine runs as soon as it can, for
the subtask results `results` (one per subtask, in index order), from iteration `i` on:
the two launcher steps of the iteration, then the goroutine of subtask `i` up to its
result; after the first error, or after the last subtask, the launcher leaves the loop
and returns. -/
def Pipe.orderedSchedule : Nat → List (Option GoError) → List PipeEvent
  | _, [] => [PipeEvent.launcher, PipeEvent.launcher]
  | i, none :: rest =>
    [PipeEvent.launcher, PipeEvent.launcher, PipeEvent.start i, PipeEvent.exit i none]
      ++ Pipe.orderedSchedule (i + 1) rest
  | i, some e :: _ =>
    [PipeEvent.launcher, PipeEvent.launcher, PipeEvent.start i, PipeEvent.exit i (some e),
      PipeEvent.launcher, PipeEvent.launcher]

/-- The log of `i` subtasks that ended without error, in index order. -/
def Pipe.cleanLog (i : Nat) : List (Nat × Option GoError) :=
  (List.range i).map (fun j => (j, none))

/-- Where the launcher can stand while the goroutine of subtask `i` is active in an
ordered pipe of `n` subtasks: at the top of the next iteration, blocked in its
`pipe.wg.Wait()`, or, after the last iteration, blocked at `<-pipe.Done()`. -/
def Pipe.launcherAhead (n i : Nat) (pc : LauncherPc) : Prop :=
  pc = LauncherPc.top (i + 1) ∨ (i + 1 < n ∧ pc = LauncherPc.wait (i + 1)) ∨
    (i + 1 = n ∧ pc = LauncherPc.after)

/-- Invariant of the ordered pipe with `n` subtasks whose parent scope is not cancelled:
the shapes of the states it can reach.  Either the subtasks below `i` have all ended
without error and no goroutine is active (then the scope is live, unless `i = n`, where it
was cancelled with nil); or the goroutine of subtask `i` was created and has not launched
its subtask; or subtask `i` was launched and has not ended; or subtask `i` ended with an
error `e`, the scope is cancelled with `e` and no goroutine is active. -/
def Pipe.OrderedInv (n : Nat) (pipe : pipeController) : Prop :=
  (∃ i, i ≤ n ∧ pipe.ended = Pipe.cleanLog i ∧ pipe.left = (n : Int) - i ∧
      pipe.spawned = [] ∧ pipe.waiting = [] ∧ pipe.launched = List.range i ∧
      pipe.cause = (if i = n then some GoError.errOk else none) ∧
      (pipe.pc = LauncherPc.top i ∨ (i < n ∧ pipe.pc = LauncherPc.wait i) ∨
        (i = n ∧ (pipe.pc = LauncherPc.after ∨ pipe.pc = LauncherPc.returned none)))) ∨
  (∃ i, i < n ∧ pipe.ended = Pipe.cleanLog i ∧ pipe.left = (n : Int) - i ∧
      pipe.spawned = [i] ∧ pipe.waiting = [] ∧ pipe.launched = List.range i ∧
      pipe.cause = none ∧ Pipe.launcherAhead n i pipe.pc) ∨
  (∃ i, i < n ∧ pipe.ended = Pipe.cleanLog i ∧ pipe.left = (n : Int) - i ∧
      pipe.spawned = [] ∧ pipe.waiting = [i] ∧ pipe.launched = List.range (i + 1) ∧
      pipe.cause = none ∧ Pipe.launcherAhead n i pipe.pc) ∨
  (∃ i e, i < n ∧ pipe.ended = Pipe.cleanLog i ++ [(i, some e)] ∧
      pipe.spawned = [] ∧ pipe.waiting = [] ∧ pipe.launched = List.range (i + 1) ∧
      pipe.cause = some e ∧
      (pipe.pc = LauncherPc.top (i + 1) ∨ pipe.pc = LauncherPc.wait (i + 1) ∨
        pipe.pc = LauncherPc.top (i + 2) ∨ pipe.pc = LauncherPc.after ∨
        pipe.pc = LauncherPc.returned (NotOk (some e))))

/-! ## `pkg/task/task_pipe.go`: the array form of a task -/

/-- Type `automarshal.ID` (the exported fields). -/
structure ID where
  ID : String
  Kind : String
deriving DecidableEq, Repr

mutual
/-- The implementations of `ITask`: `TaskNoop`, `TaskWait`, `TaskRun` and `Pipe` (whose
`Mode` is an interface value and may be nil). -/
inductive ITask where
  | TaskNoop
  | TaskWait (Duration : Int)
  | TaskRun (Exec : String) (Args : List String)
  | Pipe (Mode : Option PipeMode) (Subtasks : List Task)
/-- Type `task.Task`: an `ITask` (nil before unmarshalling) and an `ID`. -/
inductive Task where
  | mk (ITask : Option ITask) (ID : ID)
end

/-- Field `ITask` of a task. -/
def Task.ITask : Task → Option ITask
  | Task.mk i _ => i

/-- Field `ID` of a task. -/
def Task.ID : Task → ID
  | Task.mk _ id => id

/-- What a Go function that may fail or panic produces. -/
inductive Outcome (α : Type) where
  | ok (a : α)
  | error (msg : String)
  | panic

/-- A method call on a `PipeMode` interface value: a nil value panics. -/
def modeString (mode : Option PipeMode) : Outcome String :=
  match mode with
  | none => Outcome.panic
  | some m => Outcome.ok m.String

/-- The defaults that `init` of `task_pipe.go` registers with `Registry.Define` for the
pipe kinds: `Pipe{}` for `pipe`, `Pipe{Mode: mode}` under the name of each mode. -/
def pipeDefaults (kind : String) : Option ITask :=
  if kind = "pipe" then some (ITask.Pipe none [])
  else
    match PipeModes.find? (fun mode => mode.String = kind) with
    | some mode => some (ITask.Pipe (some mode) [])
    | none => none

/-- The task that `Registry.Unmarshal` builds from the JSON string of a bare pipe kind
(no id, no arguments): the registered defaults, unmarshalled from `{}`, under the id of
that kind. -/
def unmarshalPipeKind (kind : String) : Option Task :=
  match pipeDefaults kind with
  | some i => some (Task.mk (some i) { ID := "", Kind := kind })
  | none => none

/-- The function that `init` registers with `RegisterNonObject('[', ...)`, applied to the
task `t` and to the outcome `parsed` of `json.Unmarshal(data, &tmp)`. -/
def unmarshalArray (_t : Task) (parsed : Except String (List Task)) : Outcome Task :=
  match parsed with
  | Except.error msg => Outcome.error msg
  | Except.ok tmp =>
    match tmp with
    | [] => Outcome.ok (Task.mk (some ITask.TaskNoop) { ID := "", Kind := "noop" })
    | first :: rest =>
      let (mode, tmp) :=
        match first.ITask with
        | some (ITask.Pipe pmode []) => (pmode, rest)
        | _ => (some PipeMode.PipeParallel, first :: rest)
      match modeString mode with
      | Outcome.ok name =>
        Outcome.ok (Task.mk (some (ITask.Pipe mode tmp)) { ID := "", Kind := name })
      | Outcome.error msg => Outcome.error msg
      | Outcome.panic => Outcome.panic

/-! ## `pkg/revproxy/lb.go` and `pkg/revproxy/upstream.go` -/

namespace revproxy

/-- A non-nil `*Upstream`, named by the identity of the object it points to; a
possibly nil `*Upstream` is an `Option Upstream`. -/
abbrev Upstream := Nat

/-- Type `LbMethod`, a string type. -/
abbrev LbMethod := String

def LbConn : LbMethod := "conn"

def LbRandom : LbMethod := "random"

def LbHash : LbMethod := "hash"

/-- Type `revproxy.Options`; `RetryBackoff` in nanoseconds. -/
structure Options where
  Host : String
  Listen : String
  Sticky : Bool
  Method : LbMethod
  RetryMax : Int
  RetryBackoff : Int

/-- Type `ClientSession`: the atomic pointer `upstream`. -/
structure ClientSession where
  upstream : Option Upstream
deriving DecidableEq, Repr

/-- Type `LoadBalancer`: the embedded options, the list `Upstreams` and the map
`sessions` from client address to `*ClientSession` (a list of entries with distinct keys,
each session under the one key it was stored with). -/
structure LoadBalancer extends Options where
  Upstreams : List Upstream
  sessions : List (String × ClientSession)

/-- Function `NewLoadBalancer`. -/
def NewLoadBalancer (opt : Options) : LoadBalancer :=
  { toOptions := opt, Upstreams := [], sessions := [] }

/-- Library function `lo.Without` with one excluded value. -/
def Without (collection : List Upstream) (exclude : Upstream) : List Upstream :=
  collection.filter (fun x => x != exclude)

/-- Library function `lo.MinBy`: the zero value on an empty collection; otherwise the scan
that starts with the first element as `min` and replaces `min` by every later `item` with
`comparison(item, min)`. -/
def MinBy (collection : List Upstream) (comparison : Upstream → Upstream → Bool) :
    Option Upstream :=
  match collection with
  | [] => none
  | first :: rest =>
    some (rest.foldl (fun min item => if comparison item min then item else min) first)

/-- Method `sync.Map.Load` on `sessions`. -/
def loadSession (sessions : List (String × ClientSession)) (ip : String) :
    Option ClientSession :=
  match sessions.find? (fun kv => kv.1 == ip) with
  | some kv => some kv.2
  | none => none

/-- Writing the session of `ip` back: the entry of `ip` is replaced, or added when the
map has none. -/
def storeSession (sessions : List (String × ClientSession)) (ip : String)
    (session : ClientSession) : List (String × ClientSession) :=
  match sessions with
  | [] => [(ip, session)]
  | kv :: rest =>
    if kv.1 == ip then (ip, session) :: rest else kv :: storeSession rest ip session

/-- An interface value as the callback of `sessions.Range` receives it: the dynamic type
with its value. -/
inductive GoAny where
  | clientSession (s : ClientSession)
  | upstream (u : Option Upstream)

/-- The comparison `value == u` of an interface value with a `*Upstream`: true when the
dynamic type of `value` is `*Upstream` and the pointers are equal. -/
def GoAny.eqUpstream (value : GoAny) (u : Upstream) : Bool :=
  match value with
  | GoAny.upstream v => v == some u
  | GoAny.clientSession _ => false

namespace LoadBalancer

/-- Method `AddUpstream`. -/
def AddUpstream (lb : LoadBalancer) (u : Upstream) : LoadBalancer :=
  { lb with Upstreams := lb.Upstreams ++ [u] }

/-- Method `RemoveUpstream`: `lo.Without` on the list, then the `Range` over `sessions`
(whose values are the `*ClientSession` stored by `Next`) deleting every key whose value
compares equal to `u`. -/
def RemoveUpstream (lb : LoadBalancer) (u : Upstream) : LoadBalancer :=
  { lb with
    Upstreams := Without lb.Upstreams u
    sessions := lb.sessions.filter (fun kv => !(GoAny.clientSession kv.2).eqUpstream u) }

/-- The loop `for i := 1; i < len(lb.Upstreams); i++` of `Next`, from index `i` with
`fuel` iterations left and the current value `up`. -/
def probe (ups : List Upstream) (retry : Option Upstream) (n : Nat) :
    Nat → Nat → Option Upstream → Option Upstream
  | 0, _, up => up
  | fuel + 1, i, _ =>
    let up := ups[(n + i) % ups.length]?
    if up != retry then up else probe ups retry n fuel (i + 1) up

/-- The comparison that `Next` hands to `lo.MinBy`. -/
def connLess (conns : Upstream → Int) (retry : Option Upstream) (a b : Upstream) : Bool :=
  if some a = retry then false
  else if some b = retry then true
  else decide (conns a < conns b)

/-- The part of `Next` under the read lock (from `lb.mu.RLock()` on).  `conns` gives the
`numConnections` of every upstream at that time, `fastHash` is the function of `ip.go`
(a CRC-32C checksum converted to `int`, which is not negative where `int` has 64 bits),
and `rnd` is the value of the random source, of which `rand.Intn(n)` returns `rnd % n`. -/
def pick (lb : LoadBalancer) (conns : Upstream → Int) (fastHash : String → Nat) (rnd : Nat)
    (ip : String) (retry : Option Upstream) : Option Upstream :=
  if lb.Upstreams.length = 0 then none
  else if lb.Upstreams.length = 1 then lb.Upstreams[0]?
  else if lb.Method = LbConn then
    let up := MinBy lb.Upstreams (connLess conns retry)
    if up = retry then none else up
  else
    let n := if lb.Method = LbHash then fastHash ip % lb.Upstreams.length
      else rnd % lb.Upstreams.length
    let up := lb.Upstreams[n]?
    if up = retry then probe lb.Upstreams retry n (lb.Upstreams.length - 1) 1 up else up

/-- Method `Next`, run without interference from other goroutines.  With `Sticky` the
session of `ip` is loaded (or created), its upstream is returned unless it is nil or
`retry` (then it is reset to nil and `pick` chooses); the deferred function then, for a
non-nil result, keeps a session upstream that is neither nil nor `retry` and returns it,
and otherwise installs the result in the session. -/
def Next (lb : LoadBalancer) (conns : Upstream → Int) (fastHash : String → Nat) (rnd : Nat)
    (ip : String) (retry : Option Upstream) : Option Upstream × LoadBalancer :=
  if lb.Sticky then
    let session : ClientSession := (loadSession lb.sessions ip).getD { upstream := none }
    let (us, session) : Option Upstream × ClientSession :=
      match session.upstream with
      | some u =>
        if some u = retry then (lb.pick conns fastHash rnd ip retry, { upstream := none })
        else (some u, session)
      | none => (lb.pick conns fastHash rnd ip retry, session)
    let (us, session) : Option Upstream × ClientSession :=
      match us with
      | none => (none, session)
      | some _ =>
        let v := session.upstream
        if v ≠ none ∧ v ≠ retry then (v, session) else (us, { upstream := us })
    (us, { lb with sessions := storeSession lb.sessions ip session })
  else
    (lb.pick conns fastHash rnd ip retry, lb)

end LoadBalancer

/-- What the scan of `lo.MinBy` has established for the current minimum `m` after the
elements `done`: either all of them are `retry`, or `m` is the earliest element of least
connection count among those that are not `retry`. -/
def MinScan (conns : Upstream → Int) (retry : Option Upstream) (done : List Upstream)
    (m : Upstream) : Prop :=
  ((∀ v ∈ done, some v = retry) ∧ some m = retry) ∨
  (some m ≠ retry ∧ ∃ pre post, done = pre ++ m :: post ∧
    (∀ v ∈ pre, some v ≠ retry → conns m < conns v) ∧
    (∀ v ∈ post, some v ≠ retry → conns m ≤ conns v))

/-- One operation on a load balancer: the three methods, and an assignment to the
exported field `Method`. -/
inductive LbOp where
  | AddUpstream (u : Upstream)
  | RemoveUpstream (u : Upstream)
  | Next (conns : Upstream → Int) (rnd : Nat) (ip : String) (retry : Option Upstream)
  | setMethod (method : LbMethod)

/-- The state after one operation. -/
def LbOp.apply (fastHash : String → Nat) (lb : LoadBalancer) : LbOp → LoadBalancer
  | LbOp.AddUpstream u => lb.AddUpstream u
  | LbOp.RemoveUpstream u => lb.RemoveUpstream u
  | LbOp.Next conns rnd ip retry => (lb.Next conns fastHash rnd ip retry).2
  | LbOp.setMethod method => { lb with Method := method }

/-- The state after a sequence of operations. -/
def LoadBalancer.run (fastHash : String → Nat) (lb : LoadBalancer) (ops : List LbOp) :
    LoadBalancer :=
  ops.foldl (LbOp.apply fastHash) lb

/-- The upstream that the session of `ip` holds (nil when there is no session). -/
def LoadBalancer.sticky (lb : LoadBalancer) (ip : String) : Option Upstream :=
  match loadSession lb.sessions ip with
  | some s => s.upstream
  | none => none

/-- The operation is `RemoveUpstream(u)`. -/
def LbOp.removes (op : LbOp) (u : Upstream) : Prop :=
  match op with
  | LbOp.RemoveUpstream v => v = u
  | _ => False

/-- The operation is a call of `Next` with `u` as its `retry` argument. -/
def LbOp.retries (op : LbOp) (u : Upstream) : Prop :=
  match op with
  | LbOp.Next _ _ _ retry => retry = some u
  | _ => False

/-- The options of the examples: sticky sessions, method `conn`. -/
def stickyConn : Options :=
  { Host := "", Listen := ":8080", Sticky := true, Method := LbConn, RetryMax := 3,
    RetryBackoff := 100000000 }

end revproxy

namespace revproxy

/-- Type `requestContext` (without the back pointer `Lb`). -/
structure requestContext where
  Ip : String
  RetryCount : Int
  Previous : Option Upstream

/-- What becomes of a request handed to `us.ServeHTTP`, the reverse proxy of an upstream
with the `ErrorHandler` of `NewUpstream`. -/
inductive Dispatch where
  /-- The upstream answers and the proxy relays the response. -/
  | served
  /-- The round trip fails while the request context is done, or with `context.Canceled`:
  the handler returns without writing a response. -/
  | failedCancelled
  /-- The round trip fails and the request context is done before the backoff elapses:
  the handler writes 502. -/
  | failedDone
  /-- The round trip fails and the backoff elapses: the handler increments `RetryCount`
  and calls `lb.ServeHTTP` again. -/
  | failed
deriving DecidableEq, Repr

/-- What the client receives. -/
inductive Response where
  | fromUpstream (u : Upstream)
  | badGateway
  | nothing
deriving DecidableEq, Repr

/-- The circumstances of one call of `lb.ServeHTTP` that reaches `Next`: the connection
counts and the random draw at that time, and what becomes of the dispatch. -/
structure Round where
  conns : Upstream → Int
  rnd : Nat
  outcome : Dispatch

/-- The record of a handled request: the upstreams it was dispatched to, in order, the
response, and the load balancer afterwards. -/
structure Served where
  dispatches : List Upstream
  response : Response
  lb : LoadBalancer

/-- The entry check of `ServeHTTP`: a request that carries a `requestContext` whose
`RetryCount` has reached `RetryMax`. -/
def retryCountExceeded (lb : LoadBalancer) (ctx : Option requestContext) : Bool :=
  match ctx with
  | some c => decide (c.RetryCount ≥ lb.RetryMax)
  | none => false

/-- Method `LoadBalancer.ServeHTTP` together with the `ErrorHandler` of `NewUpstream` that
calls it again.  `ctx` is the `requestContext` found in the request (nil on the first
call, which creates one for the client address `clientIp`), `sent` the dispatches made so
far, and the script gives the circumstances of this call and of the nested ones; the
result is `none` when the script ends before the request is answered. -/
def LoadBalancer.ServeHTTP (fastHash : String → Nat) (clientIp : String) :
    List Round → LoadBalancer → Option requestContext → List Upstream → Option Served
  | [], lb, ctx, sent =>
    if retryCountExceeded lb ctx then
      some { dispatches := sent, response := Response.badGateway, lb := lb }
    else none
  | round :: rest, lb, ctx, sent =>
    if retryCountExceeded lb ctx then
      some { dispatches := sent, response := Response.badGateway, lb := lb }
    else
      let c : requestContext := ctx.getD { Ip := clientIp, RetryCount := 0, Previous := none }
      match lb.Next round.conns fastHash round.rnd c.Ip c.Previous with
      | (none, lb) => some { dispatches := sent, response := Response.badGateway, lb := lb }
      | (some us, lb) =>
        let c : requestContext := { c with Previous := some us }
        match round.outcome with
        | Dispatch.served =>
          some { dispatches := sent ++ [us], response := Response.fromUpstream us, lb := lb }
        | Dispatch.failedCancelled =>
          some { dispatches := sent ++ [us], response := Response.nothing, lb := lb }
        | Dispatch.failedDone =>
          some { dispatches := sent ++ [us], response := Response.badGateway, lb := lb }
        | Dispatch.failed =>
          LoadBalancer.ServeHTTP fastHash clientIp rest lb
            (some { c with RetryCount := c.RetryCount + 1 }) (sent ++ [us])

/-- A script of `n` dispatches that all fail, under no connections and the draw 0. -/
def allFail (n : Nat) : List Round :=
  List.replicate n { conns := fun _ => 0, rnd := 0, outcome := Dispatch.failed }

end revproxy

namespace revproxy

/-- Where a call of `Next` with `Sticky` set stands between two of its accesses to the
shared pointer `session.upstream`. -/
inductive NextPc where
  /-- Before the `Load` of the sticky check. -/
  | stickyLoad
  /-- Before `CompareAndSwap(retry, nil)`. -/
  | stickyReset
  /-- Before the part under the read lock. -/
  | locked
  /-- In the deferred loop with result `us`, before `Load`. -/
  | deferLoad (us : Upstream)
  /-- In the deferred loop with result `us`, before `CompareAndSwap(v, us)`. -/
  | deferSwap (v : Option Upstream) (us : Upstream)
  /-- The call has returned `us`. -/
  | returned (us : Option Upstream)
deriving DecidableEq, Repr

/-- A call of `Next` in progress on one session: its argument `retry` and where it
stands. -/
structure NextCall where
  retry : Option Upstream
  pc : NextPc
deriving DecidableEq, Repr

/-- One atomic step of a call, on the value `cell` of `session.upstream`: the new value of
the pointer and the call afterwards.  `picked` is what the part under the read lock
returns, should this step be that part. -/
def NextCall.step (cell picked : Option Upstream) (call : NextCall) :
    Option Upstream × NextCall :=
  match call.pc with
  | NextPc.stickyLoad =>
    match cell with
    | some u =>
      if some u = call.retry then (cell, { call with pc := NextPc.stickyReset })
      else (cell, { call with pc := NextPc.deferLoad u })
    | none => (cell, { call with pc := NextPc.locked })
  | NextPc.stickyReset =>
    (if cell = call.retry then none else cell, { call with pc := NextPc.locked })
  | NextPc.locked =>
    match picked with
    | none => (cell, { call with pc := NextPc.returned none })
    | some us => (cell, { call with pc := NextPc.deferLoad us })
  | NextPc.deferLoad us =>
    if cell ≠ none ∧ cell ≠ call.retry then (cell, { call with pc := NextPc.returned cell })
    else (cell, { call with pc := NextPc.deferSwap cell us })
  | NextPc.deferSwap v us =>
    if cell = v then (some us, { call with pc := NextPc.returned (some us) })
    else (cell, { call with pc := NextPc.deferLoad us })
  | NextPc.returned _ => (cell, call)

/-- The value that a call holds for a later `CompareAndSwap` was loaded as nil or as its
`retry`. -/
def NextCall.Loaded (call : NextCall) : Prop :=
  match call.pc with
  | NextPc.deferSwap v _ => v = none ∨ v = call.retry
  | _ => True

/-- One session with the calls of `Next` in progress on it. -/
structure StickySession where
  upstream : Option Upstream
  calls : List NextCall

/-- What happens on a session: a call of `Next` begins, or the call numbered `i` makes
its next step. -/
inductive SessionEvent where
  | begin (retry : Option Upstream)
  | step (i : Nat) (picked : Option Upstream)

/-- The session after an event. -/
def StickySession.step (s : StickySession) : SessionEvent → StickySession
  | SessionEvent.begin retry =>
    { s with calls := s.calls ++ [{ retry := retry, pc := NextPc.stickyLoad }] }
  | SessionEvent.step i picked =>
    match s.calls[i]? with
    | none => s
    | some call =>
      { upstream := (call.step s.upstream picked).1
        calls := s.calls.set i (call.step s.upstream picked).2 }

/-- The session after a schedule of events. -/
def StickySession.run (s : StickySession) (events : List SessionEvent) : StickySession :=
  events.foldl StickySession.step s

/-- A call that runs alone from the pointer value `cell` to its return (at most five
steps): the pointer afterwards and the result. -/
def NextCall.alone (cell picked retry : Option Upstream) : Option Upstream × NextPc :=
  let s0 : Option Upstream × NextCall := (cell, { retry := retry, pc := NextPc.stickyLoad })
  let s1 := s0.2.step s0.1 picked
  let s2 := s1.2.step s1.1 picked
  let s3 := s2.2.step s2.1 picked
  let s4 := s3.2.step s3.1 picked
  let s5 := s4.2.step s4.1 picked
  (s5.1, s5.2.pc)

/-- A call that begins while the session holds `u`, with another `retry`, stands at one of
these points. -/
def NextCall.Follows (u : Upstream) (call : NextCall) : Prop :=
  call.pc = NextPc.stickyLoad ∨ call.pc = NextPc.deferLoad u ∨
    call.pc = NextPc.returned (some u)

/-- The invariant of a session that holds `u` after `n0` earlier calls: the pointer is
`u`, no call in progress has `u` as its `retry`, and every call begun since stands where
it can only return `u`. -/
def StickySession.Holds (u : Upstream) (n0 : Nat) (s : StickySession) : Prop :=
  s.upstream = some u ∧ n0 ≤ s.calls.length ∧
    (∀ call ∈ s.calls, call.Loaded ∧ call.retry ≠ some u) ∧
    (∀ i (h : i < s.calls.length), n0 ≤ i → (s.calls.get ⟨i, h⟩).Follows u)

/-- What a call has chosen, and what it has returned, is a non-nil upstream other than its
`retry`. -/
def NextCall.Avoids (call : NextCall) : Prop :=
  match call.pc with
  | NextPc.deferLoad us => some us ≠ call.retry
  | NextPc.deferSwap _ us => some us ≠ call.retry
  | NextPc.returned x => x ≠ none ∧ x ≠ call.retry
  | _ => True

end revproxy

/-! ## `pkg/task/whiteboard.go` -/

/-- A `json.RawMessage`: the bytes of a JSON text. -/
abbrev RawMessage := List UInt8

/-- The contents of a `sync.Map` from string to `json.RawMessage`. -/
abbrev SyncMap := String → Option RawMessage

/-- The `sync.Map` objects that exist, by address. -/
abbrev MapHeap := Nat → SyncMap

/-- Type `Whiteboard`: the pointer `data` (nil or the address of a map) and the field
`prefix`, here `pfx`. -/
structure Whiteboard where
  data : Option Nat
  pfx : String
deriving DecidableEq, Repr

namespace Whiteboard

/-- Method `Get`; `unmarshal msg` is the outcome of `json.Unmarshal(msg, out)`, the value
it leaves in `out` or its error. -/
def Get {β : Type} (w : Whiteboard) (heap : MapHeap) (key : String)
    (unmarshal : RawMessage → Except String β) : Except String β :=
  match w.data with
  | none => Except.error "whiteboard not found"
  | some d =>
    match heap d (w.pfx ++ key) with
    | none => Except.error "field not found"
    | some msg => unmarshal msg

/-- Method `Set`, applied to the outcome `marshalled` of `json.Marshal(value)`: the heap
afterwards, or `none` when `log.Fatal` ends the process. -/
def Set (w : Whiteboard) (heap : MapHeap) (key : String)
    (marshalled : Except String RawMessage) : Option MapHeap :=
  match w.data with
  | none => some heap
  | some d =>
    match marshalled with
    | Except.error _ => none
    | Except.ok msg =>
      some (Function.update heap d (Function.update (heap d) (w.pfx ++ key) (some msg)))

/-- Method `Fork`. -/
def Fork (w : Whiteboard) (key : String) : Whiteboard :=
  if key = "" ∨ w.data = none then w
  else { data := w.data, pfx := w.pfx ++ key ++ "." }

end Whiteboard

/-- Function `NewWhiteboard`, with the address `ref` of the fresh map. -/
def NewWhiteboard (ref : Nat) : Whiteboard :=
  { data := some ref, pfx := "" }

/-- A heap whose maps are all empty. -/
def emptyHeap : MapHeap := fun _ _ => none

/-- The errors that `errors.Is` visits in the unwrap tree of `err`, depth first: `err`
itself, then what `Unwrap` gives. -/
def GoError.unwrapChain : GoError → List GoError
  | GoError.wrap msg inner => GoError.wrap msg inner :: inner.unwrapChain
  | GoError.join a b => GoError.join a b :: (a.unwrapChain ++ b.unwrapChain)
  | e => [e]

/-! ## `pkg/job/trigger_event.go` -/

namespace job

/-- The functions stored in field `fn` of a subscription.  A callback handed in by a
caller is named by a number, and running it is recorded in `Events.calls`. -/
inductive EventFn where
  /-- The `callback` itself, as `TriggerOn.Listen` passes it on. -/
  | callback (cb : Nat)
  /-- The closure `func() { remove(); callback() }` of `TriggerOnce.Listen`, where
  `remove` is the method value `sub.Remove` of the subscription at address `sub`. -/
  | removeThenCallback (sub : Nat) (cb : Nat)
deriving DecidableEq, Repr

/-- Type `asyncEventSubscription`; the pointer `event` is nil or the event of that name. -/
structure asyncEventSubscription where
  fn : EventFn
  event : Option String
deriving DecidableEq, Repr

/-- A goroutine that has been started and has not run yet. -/
inductive Goroutine where
  /-- The statement `go sub.(eventSubscription).Signal()` of `namedEvent.Signal`. -/
  | subSignal (sub : Nat)
  /-- The statement `go sub.fn()` of `asyncEventSubscription.Signal`. -/
  | call (fn : EventFn)
deriving DecidableEq, Repr

/-- The state of the package: the subscription objects by address, the map `namedEvents`
(each event with the keys of its `subscribers` map), the goroutines not yet run, the
callbacks run so far, and whether a goroutine has panicked. -/
structure Events where
  subs : List asyncEventSubscription
  namedEvents : List (String × List Nat)
  goroutines : List Goroutine
  calls : List Nat
  panicked : Bool
deriving DecidableEq, Repr

/-- The state at program start. -/
def noEvents : Events :=
  { subs := [], namedEvents := [], goroutines := [], calls := [], panicked := false }

/-- Function `getNamedEvent`: the subscribers of the event called `name` (`none` for a nil
result), and the state, in which the event has been created when `insert` is set. -/
def getNamedEvent (st : Events) (name : String) (insert : Bool) :
    Option (List Nat) × Events :=
  match st.namedEvents.find? (fun kv => kv.1 == name) with
  | some kv => (some kv.2, st)
  | none =>
    if insert then (some [], { st with namedEvents := st.namedEvents ++ [(name, [])] })
    else (none, st)

/-- The statement `evt.subscribers.Store(sub, struct{}{})` for the event called `name`. -/
def storeSubscriber (namedEvents : List (String × List Nat)) (name : String) (sub : Nat) :
    List (String × List Nat) :=
  namedEvents.map (fun kv =>
    if kv.1 == name then (kv.1, if sub ∈ kv.2 then kv.2 else kv.2 ++ [sub]) else kv)

/-- Function `Listen` (with `namedEvent.Listen`): a new subscription `{fn: fn}` is
allocated and stored in the subscribers of the event, which is created if need be; no
field `event` is set.  The result is the address of the subscription, standing for the
returned method value `sub.Remove`. -/
def Listen (st : Events) (name : String) (fn : EventFn) : Nat × Events :=
  let st := (getNamedEvent st name true).2
  let sub := st.subs.length
  (sub, { st with
    subs := st.subs ++ [{ fn := fn, event := none }]
    namedEvents := storeSubscriber st.namedEvents name sub })

/-- Method `asyncEventSubscription.Remove`, called through the method value bound to the
subscription at address `sub`: nothing when its `event` is nil; otherwise
`evt.subscribers.Delete(sub)` with the struct value as key, which panics because a struct
with a `func` field cannot be hashed. -/
def Remove (st : Events) (sub : Nat) : Events :=
  match st.subs[sub]? with
  | none => { st with panicked := true }
  | some s =>
    match s.event with
    | none => st
    | some _ => { st with panicked := true }

/-- Method `TriggerOn.Listen`. -/
def TriggerOn.Listen (st : Events) (Name : String) (callback : Nat) : Nat × Events :=
  job.Listen st Name (EventFn.callback callback)

/-- Method `TriggerOnce.Listen`: the closure refers to the result `remove` of this very
call, the method value of the subscription about to be allocated. -/
def TriggerOnce.Listen (st : Events) (Name : String) (callback : Nat) : Nat × Events :=
  job.Listen st Name
    (EventFn.removeThenCallback (getNamedEvent st Name true).2.subs.length callback)

/-- Function `Signal` (with `namedEvent.Signal`): one goroutine per subscriber of the
event, none when the event does not exist. -/
def Signal (st : Events) (name : String) : Events :=
  match (getNamedEvent st name false).1 with
  | none => st
  | some subscribers =>
    { st with goroutines := st.goroutines ++ subscribers.map Goroutine.subSignal }

/-- Running a stored function. -/
def EventFn.run (st : Events) : EventFn → Events
  | EventFn.callback cb => { st with calls := st.calls ++ [cb] }
  | EventFn.removeThenCallback sub cb =>
    let st := Remove st sub
    if st.panicked then st else { st with calls := st.calls ++ [cb] }

/-- One goroutine runs to its end: `sub.Signal()` starts the goroutine of `sub.fn`, and
that one runs the function. -/
def Goroutine.run (st : Events) : Goroutine → Events
  | Goroutine.subSignal sub =>
    match st.subs[sub]? with
    | none => { st with panicked := true }
    | some s => { st with goroutines := st.goroutines ++ [Goroutine.call s.fn] }
  | Goroutine.call fn => fn.run st

/-- The goroutines run one after the other, oldest first, until none is left (or `fuel`
is used up). -/
def quiesce : Nat → Events → Events
  | 0, st => st
  | fuel + 1, st =>
    match st.goroutines with
    | [] => st
    | g :: rest => quiesce fuel (g.run { st with goroutines := rest })

/-- `Signal(name)` followed by the run of the goroutines it leaves pending and of those
they start (each `sub.Signal()` starts one `sub.fn()`). -/
def signalAndWait (st : Events) (name : String) : Events :=
  quiesce (2 * (Signal st name).goroutines.length) (Signal st name)

/-- `Signal(name)` is called `n` times, each time letting the goroutines finish. -/
def signalTimes (name : String) : Nat → Events → Events
  | 0, st => st
  | n + 1, st => signalTimes name n (signalAndWait st name)

end job

/-! ## `pkg/automarshal/registry.go` and `pkg/job/trigger.go` -/

/-- Library function `strings.Cut` for a one-character separator. -/
def stringsCut (s : List Char) (sep : Char) : List Char × List Char × Bool :=
  match s.span (fun c => c != sep) with
  | (before, _ :: after) => (before, after, true)
  | (before, []) => (before, [], false)

/-- Library function `strings.TrimSpace` (for the white space of ASCII). -/
def trimSpace (s : List Char) : List Char :=
  ((s.dropWhile Char.isWhitespace).reverse.dropWhile Char.isWhitespace).reverse

/-- Method `ID.UnmarshalText` on `id`: the identifier afterwards, and the argument text
left pending (`none` when there is none after trimming). -/
def ID.UnmarshalText (id : Gosu.ID) (data : String) : Gosu.ID × Option String :=
  if data.length = 0 then (id, none)
  else
    let (ids, args, _) := stringsCut data.data ' '
    let id : Gosu.ID :=
      match stringsCut ids ':' with
      | (before, after, true) => { ID := String.mk after, Kind := String.mk before }
      | (_, _, false) => { id with Kind := String.mk ids }
    let pending := trimSpace args
    (id, if pending = [] then none else some (String.mk pending))

/-- Method `ID.String`. -/
def ID.String (id : Gosu.ID) : String :=
  if id.ID = "" then id.Kind else id.Kind ++ ":" ++ id.ID

namespace job

mutual
/-- The implementations of `ITrigger`. -/
inductive ITrigger where
  | TriggerAlways
  | TriggerNever
  | TriggerBoot
  | TriggerEvery (Duration : Int)
  | TriggerOn (Name : String)
  | TriggerOnce (Name : String)
  | TriggerAny (List : List Trigger)
/-- Type `job.Trigger`: an `ITrigger` (nil before unmarshalling) and an `ID`. -/
inductive Trigger where
  | mk (ITrigger : Option ITrigger) (ID : ID)
end

/-- Field `ITrigger` of a trigger. -/
def Trigger.ITrigger : Trigger → Option ITrigger
  | Trigger.mk i _ => i

/-- Field `ID` of a trigger. -/
def Trigger.ID : Trigger → ID
  | Trigger.mk _ id => id

/-- The kinds that the `init` functions of package `job` register with
`TriggerRegistry.Define`, each with its defaults. -/
def triggerDefaults : List (String × ITrigger) :=
  [("any", ITrigger.TriggerAny []),
   ("always", ITrigger.TriggerAlways),
   ("never", ITrigger.TriggerNever),
   ("boot", ITrigger.TriggerBoot),
   ("every", ITrigger.TriggerEvery 0),
   ("on", ITrigger.TriggerOn ""),
   ("once", ITrigger.TriggerOnce "")]

/-- The function that `init` registers with `RegisterNonObject('[', ...)`, applied to the
trigger `w` and to the outcome `parsed` of `json.Unmarshal(b, &t.List)`. -/
def unmarshalTriggerArray (w : Trigger) (parsed : Except String (List Trigger)) :
    Except String Trigger :=
  match parsed with
  | Except.error msg => Except.error msg
  | Except.ok list =>
    Except.ok (Trigger.mk (some (ITrigger.TriggerAny list)) { w.ID with Kind := "many" })

/-- Method `Registry.Marshal` for triggers: the JSON object with the single member
`id.String()`, whose value is the encoding `encode` of the interface value. -/
def marshalTrigger (encode : Option ITrigger → RawMessage) (value : Trigger) :
    List (String × RawMessage) :=
  [(value.ID.String, encode value.ITrigger)]

/-- The object branch of `Registry.Unmarshal` for triggers, on the members `ids` of the
JSON object in the order the `range` visits them: the first member whose kind is
registered decides; `factory` stands for the registered function of that kind (it
receives the defaults, the identifier, the pending arguments and the member value).  The
error message, which quotes the JSON text in the source, is cut short. -/
def unmarshalTriggerObject
    (factory : ITrigger → Gosu.ID → Option String → RawMessage → Except String ITrigger) :
    List (String × RawMessage) → Except String Trigger
  | [] => Except.error "no unmarshaler found"
  | (idstr, data) :: rest =>
    let (id, pending) := Gosu.ID.UnmarshalText { ID := "", Kind := "" } idstr
    match triggerDefaults.find? (fun kd => kd.1 == id.Kind) with
    | some kd =>
      match factory kd.2 id pending data with
      | Except.error msg => Except.error msg
      | Except.ok result => Except.ok (Trigger.mk (some result) id)
    | none => unmarshalTriggerObject factory rest

end job

/-! ## `pkg/util/size.go` -/

deriving instance DecidableEq for Except

/-- The test `isSpace` of package `fmt`. -/
def fmtIsSpace (c : Char) : Bool :=
  let r := c.toNat
  (0x0009 ≤ r && r ≤ 0x000d) || r == 0x0020 || r == 0x0085 || r == 0x00a0 || r == 0x1680 ||
    (0x2000 ≤ r && r ≤ 0x200a) || r == 0x2028 || r == 0x2029 || r == 0x202f || r == 0x205f ||
    r == 0x3000

/-- Method `SkipSpace` of the scan state of `fmt.Sscanf`, where a newline in the input is an
error: the input that is left. -/
def fmtSkipSpace : List Char → Except String (List Char)
  | [] => Except.ok []
  | c :: rest =>
    if c = '\r' ∧ rest.head? = some '\n' then fmtSkipSpace rest
    else if c = '\n' then Except.error "unexpected newline"
    else if fmtIsSpace c then fmtSkipSpace rest
    else Except.ok (c :: rest)

/-- Method `accept` of the scan state: the next rune is consumed into the buffer when it
is one of `ok`.  The state is the buffer and the input left. -/
def fmtAccept (ok : List Char) (st : List Char × List Char) : Bool × (List Char × List Char) :=
  match st.2 with
  | c :: rest => if c ∈ ok then (true, (st.1 ++ [c], rest)) else (false, st)
  | [] => (false, st)

/-- The loop `for s.accept(ok) {}`. -/
def fmtAcceptAll (ok : List Char) (buf : List Char) : List Char → List Char × List Char
  | c :: rest => if c ∈ ok then fmtAcceptAll ok (buf ++ [c]) rest else (buf, c :: rest)
  | [] => (buf, [])

/-- Method `floatToken` of the scan state: the token and the input left. -/
def fmtFloatToken (input : List Char) : List Char × List Char :=
  let st : List Char × List Char := ([], input)
  let (n1, st) := fmtAccept ['n', 'N'] st
  let (n2, st) := if n1 then fmtAccept ['a', 'A'] st else (false, st)
  let (n3, st) := if n2 then fmtAccept ['n', 'N'] st else (false, st)
  if n3 then st
  else
    let st := (fmtAccept ['+', '-'] st).2
    let (i1, st) := fmtAccept ['i', 'I'] st
    let (i2, st) := if i1 then fmtAccept ['n', 'N'] st else (false, st)
    let (i3, st) := if i2 then fmtAccept ['f', 'F'] st else (false, st)
    if i3 then st
    else
      let (z, st) := fmtAccept ['0'] st
      let (x, st) := if z then fmtAccept ['x', 'X'] st else (false, st)
      let digits := if x then "0123456789aAbBcCdDeEfF_".data else "0123456789_".data
      let exp := if x then ['p', 'P'] else ['e', 'E', 'p', 'P']
      let st := fmtAcceptAll digits st.1 st.2
      let (p, st) := fmtAccept ['.'] st
      let st := if p then fmtAcceptAll digits st.1 st.2 else st
      let (e, st) := fmtAccept exp st
      if e then
        let st := (fmtAccept ['+', '-'] st).2
        fmtAcceptAll "0123456789_".data st.1 st.2
      else st

/-- The value of a run of decimal digits (`none` for another character). -/
def decimalValue (digits : List Char) : Option Nat :=
  digits.foldl (fun acc c =>
    match acc with
    | some n => if c.isDigit then some (10 * n + (c.toNat - '0'.toNat)) else none
    | none => none) (some 0)

/-- Library function `strconv.ParseFloat` on the decimal forms
`[sign] digits [. digits] [e [sign] digits]` with at least one digit before the exponent,
the value taken exactly; `none` is its syntax error.  Every other form (hexadecimal,
`inf`, `nan`, underscores), which no text of `ParsableSize.String` has, is given as an
error as well. -/
def parseFloat (token : List Char) : Option ℚ :=
  let (neg, rest) : Bool × List Char :=
    match token with
    | '-' :: rest => (true, rest)
    | '+' :: rest => (false, rest)
    | rest => (false, rest)
  let (intPart, rest) := rest.span Char.isDigit
  let (fracPart, rest) : List Char × List Char :=
    match rest with
    | '.' :: rest => rest.span Char.isDigit
    | rest => ([], rest)
  let exponent : Option Int :=
    match rest with
    | [] => some 0
    | c :: rest =>
      if c = 'e' ∨ c = 'E' then
        let (eneg, rest) : Bool × List Char :=
          match rest with
          | '-' :: rest => (true, rest)
          | '+' :: rest => (false, rest)
          | rest => (false, rest)
        if rest = [] then none
        else
          match decimalValue rest with
          | some n => some (if eneg then -(n : Int) else (n : Int))
          | none => none
      else none
  if intPart = [] ∧ fracPart = [] then none
  else
    match decimalValue (intPart ++ fracPart), exponent with
    | some m, some e =>
      let v : ℚ := (m : ℚ) / (10 : ℚ) ^ fracPart.length * (10 : ℚ) ^ e
      some (if neg then -v else v)
    | _, _ => none

/-- The call `fmt.Sscanf(text, "%f%s", &val, &unit)`: the two operands, or the error. -/
def sscanfFloatString (text : List Char) : Except String (ℚ × List Char) :=
  match fmtSkipSpace text with
  | Except.error msg => Except.error msg
  | Except.ok [] => Except.error "unexpected EOF"
  | Except.ok input =>
    let (token, input) := fmtFloatToken input
    match parseFloat token with
    | none =>
      Except.error ("strconv.ParseFloat: parsing \"" ++ String.mk token ++ "\": invalid syntax")
    | some val =>
      match fmtSkipSpace input with
      | Except.error msg => Except.error msg
      | Except.ok [] => Except.error "unexpected EOF"
      | Except.ok input => Except.ok (val, input.takeWhile (fun c => !fmtIsSpace c))

/-- The conversion `int(x)` of a floating-point value: truncation toward zero. -/
def truncToInt (x : ℚ) : Int := Int.tdiv x.num x.den

/-- The table `units`. -/
def units : List (String × ℚ) :=
  [("b", 1), ("byte", 1),
   ("k", 1024), ("kb", 1000), ("kib", 1024), ("kilobyte", 1000), ("kibibyte", 1024),
   ("m", 1024 ^ 2), ("mb", 1000 ^ 2), ("mib", 1024 ^ 2), ("megabyte", 1000 ^ 2),
   ("mebibyte", 1024 ^ 2),
   ("g", 1024 ^ 3), ("gb", 1000 ^ 3), ("gib", 1024 ^ 3), ("gigabyte", 1000 ^ 3),
   ("gibibyte", 1024 ^ 3)]

/-- A lookup in the map `units`. -/
def unitsLookup (unit : String) : Option ℚ :=
  match units.find? (fun kv => kv.1 == unit) with
  | some kv => some kv.2
  | none => none

/-- Library function `json.Marshal` on a string in which no character needs escaping (as
in every text of `String`): the text between double quotes. -/
def jsonQuote (s : String) : List Char := '"' :: (s.data ++ ['"'])

/-- Type `ParsableSize`. -/
structure ParsableSize where
  Value : Int
deriving DecidableEq, Repr

namespace ParsableSize

/-- Method `UnmarshalText` on `d`: the value of `*d` afterwards, or the error.
`totalMemory` is the result of `getTotalMemory()`; floating-point products are taken
exactly. -/
def UnmarshalText (_d : ParsableSize) (totalMemory : Int) (text : List Char) :
    Except String ParsableSize :=
  match sscanfFloatString text with
  | Except.error msg => Except.error msg
  | Except.ok (val, unit) =>
    let unit := if unit.getLast? = some 's' then unit.dropLast else unit
    let unit := unit.map Char.toLower
    let unit := match unit with
      | ' ' :: rest => rest
      | unit => unit
    let unit := if unit = [] then ['b'] else unit
    if unit = ['%'] ∨ unit = "percent".data then
      Except.ok { Value := truncToInt (val * (totalMemory : ℚ) / 100) }
    else
      match unitsLookup (String.mk unit) with
      | some mult => Except.ok { Value := truncToInt (val * mult) }
      | none =>
        let unit := unit.take 1
        match unitsLookup (String.mk unit) with
        | some mult => Except.ok { Value := truncToInt (val * mult) }
        | none => Except.error ("invalid unit: " ++ String.mk unit)

/-- Method `UnmarshalJSON` on `d`: the value of `*d` afterwards, or the error.
`jsonString` and `jsonNumber` are `json.Unmarshal` into a `string` and into a `float64`. -/
def UnmarshalJSON (d : ParsableSize) (jsonString : List Char → Except String String)
    (jsonNumber : List Char → Except String ℚ) (totalMemory : Int) (text : List Char) :
    Except String ParsableSize :=
  match text with
  | [] => Except.ok d
  | c :: _ =>
    if c = 'n' then Except.ok d
    else if c = '"' then
      match jsonString text with
      | Except.error msg => Except.error msg
      | Except.ok _ => d.UnmarshalText totalMemory text
    else
      match jsonNumber text with
      | Except.error msg => Except.error msg
      | Except.ok fp => Except.ok { Value := truncToInt fp }

/-- The branch of `String` for a positive value (`>>= 10` is the division by 1024). -/
def positiveText (v : Int) : String :=
  if v ≤ 1024 then toString v ++ "b"
  else if v / 1024 ≤ 1024 then toString (v / 1024) ++ "kb"
  else if v / 1024 / 1024 ≤ 1024 then toString (v / 1024 / 1024) ++ "mb"
  else toString (v / 1024 / 1024 / 1024) ++ "gb"

/-- Method `String`.  (For the least `int`, whose negation is itself, the source recurses
without end; the model treats `Value` as an unbounded integer.) -/
def String (d : ParsableSize) : String :=
  if d.Value < 0 then "-" ++ positiveText (-d.Value)
  else if d.Value = 0 then "0"
  else positiveText d.Value

/-- Method `MarshalJSON`. -/
def MarshalJSON (d : ParsableSize) : List Char :=
  if d.Value = 0 then "null".data else jsonQuote d.String

end ParsableSize

/-! ## `pkg/util/duration.go`, `pkg/util/rate.go`, `pkg/task/options.go`: the defaults -/

/-- The constant `time.Millisecond`, in nanoseconds. -/
def Millisecond : Int := 1000000

/-- The constant `time.Second`. -/
def Second : Int := 1000000000

/-- The constant `time.Hour`. -/
def Hour : Int := 3600000000000

/-- Method `time.Duration.Milliseconds`: the integer division by a million. -/
def Milliseconds (d : Int) : Int := d.tdiv 1000000

/-- Method `ParsableDuration.Clamp`. -/
def ParsableDuration.Clamp (d lmin lmax : Int) : Int := max (min d lmax) lmin

/-- Method `ParsableDuration.Max`. -/
def ParsableDuration.Max (d o : Int) : Int := max d o

/-- Function `util.Rate` with a count and a period: `Count: uint32(count)`. -/
def Rate (count : Int) (period : Int) : TimerRate :=
  { Count := (count % 4294967296).toNat, Period := period }

/-- Function `util.Rate` with one `float64`: `Count: uint32(v)`, `Period: time.Second`. -/
def RatePerSecond (v : ℚ) : TimerRate :=
  { Count := (truncToInt v % 4294967296).toNat, Period := Second }

namespace TimerRate

/-- Method `TimerRate.IsZero`. -/
def IsZero (d : TimerRate) : Bool := d.Period == 0

/-- Method `TimerRate.Rescale`:
`count := float64(d.Count) * float64(d.Period.Milliseconds()) / float64(period.Milliseconds())`
and `Count: uint32(count)`.  The quotient is taken exactly and truncated (as it is in
`float64` for the operands that `WithDefaults` passes, where the product is at most
`2^32 * 3.6e6` and the divisor at least 30000); a zero divisor, for which Go computes an
infinity or a NaN, gives the count 0 here. -/
def Rescale (d : TimerRate) (period : Int) : TimerRate :=
  { Count := ((((d.Count : Int) * Milliseconds d.Period).tdiv (Milliseconds period))
      % 4294967296).toNat
    Period := period }

/-- Method `TimerRate.Clamp`. -/
def Clamp (d rateMin rateMax : TimerRate) : TimerRate :=
  let cmin := (rateMin.Rescale d.Period).Count
  let cmax := (rateMax.Rescale d.Period).Count
  { Count := max (min d.Count cmax) cmin, Period := d.Period }

/-- Method `TimerRate.ClampPeriod`. -/
def ClampPeriod (d : TimerRate) (pmin pmax : Int) : TimerRate :=
  { Count := d.Count, Period := max (min d.Period pmax) pmin }

end TimerRate

/-- Method `Options.WithDefaults`: the value of `*o` afterwards. -/
def Options.WithDefaults (o : Options) : Options :=
  let o : Options :=
    if o.RetryLimit.IsZero then { o with RetryLimit := Rate 10 (30 * Second) }
    else
      { o with RetryLimit :=
          ((o.RetryLimit.ClampPeriod (30 * Second) Hour).Clamp
            (RatePerSecond 0) (Rate 10 (30 * Second))) }
  let o : Options :=
    if o.RetryBackoffScale ≤ 0 then { o with RetryBackoffScale := 2 } else o
  let o : Options :=
    { o with RetryBackoff := ParsableDuration.Max o.RetryBackoff (500 * Millisecond) }
  let o : Options :=
    if IsPositive o.StopTimeout then
      { o with StopTimeout :=
          ParsableDuration.Clamp o.StopTimeout (250 * Millisecond) (30 * Second) }
    else { o with StopTimeout := 5 * Second }
  let o : Options :=
    if !IsPositive o.MinUptime then { o with MinUptime := 0 } else o
  o

/-- What `WithDefaults` makes of a retry limit. -/
def retryLimitWithDefaults (r : TimerRate) : TimerRate :=
  if r.IsZero then Rate 10 (30 * Second)
  else (r.ClampPeriod (30 * Second) Hour).Clamp (RatePerSecond 0) (Rate 10 (30 * Second))

/-- The zero value of `Options`. -/
def zeroOptions : Options :=
  { RetryDisabled := false, RetryBackoff := 0, RetryBackoffScale := 0,
    RetrySuccess := false, RetryLimit := { Count := 0, Period := 0 },
    MaxMemory := 0, MinUptime := 0, ExecTimeout := 0, StartTimeout := 0,
    StopTimeout := 0 }

/-! ## `pkg/task/task_pipe_mode.go`, `pkg/task/task_pipe.go`: more on modes -/

/-- Method `end` of the modes, as the call of `cancel` it makes: `none` when it makes no
call, `some cause` for `cancel(cause)`. -/
def PipeMode.endCancel : PipeMode → Option GoError → Option (Option GoError)
  | PipeMode.PipeOrdered, err => if err ≠ none then some err else none
  | PipeMode.PipeParallel, err => if err ≠ none then some err else none
  | PipeMode.PipeRace, err => some err
  | PipeMode.PipeAny, err => if err = none then some none else none

/-- A schedule of an any-mode pipe for the subtask results `results`, from iteration `i`
on: the launcher starts subtask `i` and its goroutine runs up to the result; after a
success, or after the last subtask, the launcher leaves the loop and returns. -/
def Pipe.anySchedule : Nat → List (Option GoError) → List PipeEvent
  | _, [] => [PipeEvent.launcher, PipeEvent.launcher]
  | i, some e :: rest =>
    [PipeEvent.launcher, PipeEvent.launcher, PipeEvent.start i, PipeEvent.exit i (some e)]
      ++ Pipe.anySchedule (i + 1) rest
  | i, none :: _ =>
    [PipeEvent.launcher, PipeEvent.launcher, PipeEvent.start i, PipeEvent.exit i none,
      PipeEvent.launcher, PipeEvent.launcher]

/-- The call `p.Mode.serialize(i, n)` on the interface value `p.Mode`: a nil value
panics. -/
def modeSerialize (mode : Option PipeMode) (i n : Nat) : Outcome Bool :=
  match mode with
  | none => Outcome.panic
  | some m => Outcome.ok (m.serialize i n)

/-- The first method call on `p.Mode` in `Pipe.Launch` for a pipe with `n` subtasks over a
scope whose recorded cause is `cause`: none without subtasks (`Launch` returns nil) and
none when the first `pipe.Err()` test finds the scope cancelled; otherwise
`p.Mode.serialize(0, n)`. -/
def Pipe.firstModeCall (mode : Option PipeMode) (n : Nat) (cause : Option GoError) :
    Option (Outcome Bool) :=
  if n = 0 then none
  else if cause.isSome then none
  else some (modeSerialize mode 0 n)

/-- The task that `Registry.Unmarshal` builds from the JSON object `{kind: {"sub": sub}}`
of a pipe kind: the registered defaults with `Subtasks` read from the member `sub` (the
field `Mode` is tagged `json:"-"` and keeps the registered value). -/
def unmarshalPipeObject (kind : String) (sub : List Task) : Option Task :=
  match pipeDefaults kind with
  | some (ITask.Pipe mode _) => some (Task.mk (some (ITask.Pipe mode sub)) { ID := "", Kind := kind })
  | _ => none

/-- The causes that the scope of an any-mode pipe can hold while its parent is not
cancelled: none yet, or the ok sentinel. -/
def Pipe.AnyScope (cause : Option GoError) : Prop :=
  cause = none ∨ cause = some GoError.errOk

/-! ## `pkg/job/job.go` -/

namespace job

/-- The part of a `Job` that `Start`, `Stop`, `Restart` and `Kill` work on, with what they
do to workers: the field `worker` (nil or the worker, named by the order of its
creation), the pointer `Whiteboard`, the number of workers that `task.NewWorker` has
created for this job, those whose `Run` goroutine was started, those on which `Stop` was
called and awaited, those on which `Kill` was called, and the workers whose context is
done (which no method of the job reads). -/
structure Job where
  worker : Option Nat
  Whiteboard : Option Nat
  created : Nat
  running : List Nat
  stopped : List Nat
  killed : List Nat
  terminated : List Nat
deriving DecidableEq, Repr

/-- A job as `Manifest.Spawn` leaves it: no worker yet. -/
def newJob : Job :=
  { worker := none, Whiteboard := none, created := 0, running := [], stopped := [],
    killed := [], terminated := [] }

namespace Job

/-- Method `startLocked`: the worker, `started`, and the job afterwards. -/
def startLocked (s : Job) : (Nat × Bool) × Job :=
  match s.worker with
  | some w => ((w, false), s)
  | none =>
    let worker := s.created
    ((worker, true),
      { s with created := s.created + 1, worker := some worker, Whiteboard := some worker,
               running := s.running ++ [worker] })

/-- Method `stopLocked` (with the wait for `w.Done()` over). -/
def stopLocked (s : Job) : Job :=
  match s.worker with
  | none => s
  | some w =>
    { s with worker := none, stopped := s.stopped ++ [w],
             terminated := if w ∈ s.terminated then s.terminated else s.terminated ++ [w] }

/-- Method `Start`. -/
def Start (s : Job) : (Nat × Bool) × Job := s.startLocked

/-- Method `Stop`. -/
def Stop (s : Job) : Job := s.stopLocked

/-- Method `Restart`. -/
def Restart (s : Job) : Job := (s.stopLocked.startLocked).2

/-- Method `Kill`. -/
def Kill (s : Job) : Job :=
  match s.worker with
  | some w => { s with worker := none, killed := s.killed ++ [w] }
  | none => s

/-- The context of worker `w` becomes done (its task ends, or it is cancelled). -/
def workerDone (s : Job) (w : Nat) : Job :=
  { s with terminated := if w ∈ s.terminated then s.terminated else s.terminated ++ [w] }

end Job

end job

/-! ## `pkg/clog/writer.go` -/

namespace clog

/-- Library function `bytes.IndexByte`: the index of the first `c` in `p` (`none` for
-1). -/
def IndexByte : List UInt8 → UInt8 → Option Nat
  | [], _ => none
  | x :: rest, c => if x = c then some 0 else (IndexByte rest c).map (· + 1)

/-- The loop of `forEachLine` with `fuel` iterations left: `p` is the rest of the input,
`n` the count so far and `calls` the calls of `out` made so far (the data and the flag
`ended`). -/
def forEachLineLoop : Nat → List UInt8 → Nat → List (List UInt8 × Bool) →
    List (List UInt8 × Bool) × Nat
  | 0, _, n, calls => (calls, n)
  | fuel + 1, p, n, calls =>
    if p.length > 0 then
      match IndexByte p 10 with
      | none => (calls ++ [(p, false)], n)
      | some nl =>
        forEachLineLoop fuel (p.drop (nl + 1)) (n + (nl + 1))
          (calls ++ [(p.take (nl + 1), true)])
    else (calls, n)

/-- Function `forEachLine`: the calls of `out`, in order, and the count returned.  Every
iteration with a newline drops at least one byte, so `len(p)` iterations are enough. -/
def forEachLine (p : List UInt8) : List (List UInt8 × Bool) × Nat :=
  forEachLineLoop p.length p 0 []

/-- The state of a `Writer`: the contents of `buffer`, and what has been written to the
underlying stream, one entry per `Flush`. -/
structure Writer where
  buffer : List UInt8
  flushed : List (List UInt8)
deriving DecidableEq, Repr

/-- One call of the function that `Write` hands to `forEachLine`.  `linePrefix` is what
`WritePrefix` puts into an empty buffer (the time stamp and the namespace), `streamErr`
the error of `underlyingStream.Write` for a given text (`none` for nil); `err` is the
variable `err` of `Write`. -/
def Writer.out (linePrefix : List UInt8) (streamErr : List UInt8 → Option String)
    (st : Writer × Option String) (call : List UInt8 × Bool) : Writer × Option String :=
  let f := st.1
  let buffer := if f.buffer.length = 0 then linePrefix else f.buffer
  let buffer := buffer ++ call.1
  if call.2 then
    ({ buffer := [], flushed := f.flushed ++ [buffer] }, streamErr buffer)
  else
    ({ f with buffer := buffer }, st.2)

/-- Method `Writer.Write`: the count `n`, the error, and the writer afterwards. -/
def Writer.Write (f : Writer) (linePrefix : List UInt8)
    (streamErr : List UInt8 → Option String) (input : List UInt8) :
    (Nat × Option String) × Writer :=
  let lines := forEachLine input
  let st := lines.1.foldl (Writer.out linePrefix streamErr) (f, none)
  ((lines.2, st.2), st.1)

/-- The input is a run of complete lines: empty, or ending in a newline. -/
def CompleteLines (a : List UInt8) : Prop := a = [] ∨ a.getLast? = some 10

end clog

/-! ## `pkg/util/runeset.go` -/

/-- Type `util.RuneSet`, a set of runes, as the list of its members. -/
structure RuneSet where
  runes : List Char
deriving Repr

/-- Function `util.NewRuneSet`: the runes of all the strings. -/
def NewRuneSet (strings : List String) : RuneSet :=
  { runes := (strings.map String.data).flatten }

/-- Method `RuneSet.TestRune`. -/
def RuneSet.TestRune (d : RuneSet) (r : Char) : Bool := decide (r ∈ d.runes)

/-- Method `RuneSet.String`: the members in one string (in the order of the list; every
use below builds a set from it again). -/
def RuneSet.String (d : RuneSet) : String := String.mk d.runes

def RunesLower : RuneSet := NewRuneSet ["abcdefghijklmnopqrstuvwxyz"]

def RunesUpper : RuneSet := NewRuneSet ["ABCDEFGHIJKLMNOPQRSTUVWXYZ"]

def RunesNumeric : RuneSet := NewRuneSet ["0123456789"]

def RunesAlpha : RuneSet := NewRuneSet [RuneSet.String RunesLower, RuneSet.String RunesUpper]

def RunesAlphanum : RuneSet :=
  NewRuneSet [RuneSet.String RunesAlpha, RuneSet.String RunesNumeric]

/-! ## `pkg/automarshal/reader.go` -/

namespace automarshal

/-- The errors of the reader: `io.EOF`, and every other error with its text. -/
inductive ArgError
  | EOF
  | other (text : String)
deriving DecidableEq, Repr

/-- The values of type `any` that the reader builds or is handed: `nil`, `true`, a
`float64` (taken exactly), a string, a `map[string]any` (as the list of its entries), a
`[]any` and a `[]string`. -/
inductive ArgValue
  | null
  | bool (b : Bool)
  | number (x : ℚ)
  | string (s : String)
  | object (entries : List (String × ArgValue))
  | array (items : List ArgValue)
  | strings (items : List String)

/-- A `map[string]any`, as the list of its entries. -/
abbrev ArgMap := List (String × ArgValue)

/-- The index expression `res[key]`: `ArgValue.null` (nil) for a missing key. -/
def mapIndex (res : ArgMap) (key : String) : ArgValue :=
  match res.find? (fun entry => entry.1 = key) with
  | some entry => entry.2
  | none => ArgValue.null

/-- The assignment `res[key] = val`. -/
def mapAssign (res : ArgMap) (key : String) (val : ArgValue) : ArgMap :=
  if res.any (fun entry => entry.1 = key) then
    res.map (fun entry => if entry.1 = key then (key, val) else entry)
  else res ++ [(key, val)]

/-- Whether a value of type `any` is nil. -/
def ArgValue.isNil : ArgValue → Bool
  | ArgValue.null => true
  | _ => false

/-- Type `ArgReader`.  `pos` never exceeds `len(buf)`, and `Unread` only ever follows a
`Read` that returned a rune, so `pos` is a natural number. -/
structure ArgReader where
  buf : List Char
  pos : Nat
deriving DecidableEq, Repr

/-- The reader of `pre ++ post` that has read `pre`. -/
def ArgReader.split (pre post : List Char) : ArgReader :=
  { buf := pre ++ post, pos := pre.length }

def identifierOk : RuneSet := NewRuneSet [RuneSet.String RunesAlphanum, "_-:$"]

def identifierOkFirst : RuneSet := RunesAlpha

def numericRunes : RuneSet := NewRuneSet ["0123456789-+.eExX"]

namespace ArgReader

/-- The runes that `Skipspace` skips. -/
def isSpace (char : Char) : Bool := char = ' ' ∨ char = '\t' ∨ char = '\n' ∨ char = '\r'

/-- The rune that `ID` writes for `char` after the first: with `tile`, `_` for `-`. -/
def tileRune (tile : Bool) (char : Char) : Char :=
  if tile then (if char = '-' then '_' else char) else char

/-- Method `Peek`. -/
def Peek (r : ArgReader) : Char :=
  if h : r.pos ≥ r.buf.length then Char.ofNat 0
  else r.buf.get ⟨r.pos, Nat.lt_of_not_ge h⟩

/-- Method `Read`: the rune or the error, and the reader afterwards. -/
def Read (r : ArgReader) : Except ArgError Char × ArgReader :=
  if h : r.pos ≥ r.buf.length then (Except.error ArgError.EOF, r)
  else (Except.ok (r.buf.get ⟨r.pos, Nat.lt_of_not_ge h⟩), { r with pos := r.pos + 1 })

/-- Method `Unread` (its error is always nil). -/
def Unread (r : ArgReader) : ArgReader := { r with pos := r.pos - 1 }

/-- Method `TakeAnyIf`. -/
def TakeAnyIf (r : ArgReader) (c : RuneSet) : (Char × Bool) × ArgReader :=
  match r.Read with
  | (Except.error _, r) => ((Char.ofNat 0, false), r)
  | (Except.ok char, r) =>
    if !c.TestRune char then ((Char.ofNat 0, false), r.Unread)
    else ((char, true), r)

/-- The loop of `TakeAnyN` with `fuel` iterations left (`none` when they run out). -/
def TakeAnyNLoop (c : RuneSet) : Nat → ArgReader → List Char → Option (String × ArgReader)
  | 0, _, _ => none
  | fuel + 1, r, res =>
    match r.TakeAnyIf c with
    | ((_, false), r) => some (String.mk res, r)
    | ((char, true), r) => TakeAnyNLoop c fuel r (res ++ [char])

/-- Method `TakeAnyN`.  Every iteration but the last reads a rune, so `len(buf) + 1`
iterations are enough. -/
def TakeAnyN (r : ArgReader) (c : RuneSet) : Option (String × ArgReader) :=
  TakeAnyNLoop c (r.buf.length + 1) r []

/-- The loop of `Skipspace` with `fuel` iterations left. -/
def SkipspaceLoop : Nat → ArgReader → Option ArgReader
  | 0, _ => none
  | fuel + 1, args =>
    match args.Read with
    | (Except.error _, args) => some args
    | (Except.ok char, args) =>
      if char ≠ ' ' ∧ char ≠ '\t' ∧ char ≠ '\n' ∧ char ≠ '\r' then some args.Unread
      else SkipspaceLoop fuel args

/-- Method `Skipspace`. -/
def Skipspace (args : ArgReader) : Option ArgReader :=
  SkipspaceLoop (args.buf.length + 1) args

/-- Method `TakeIf`. -/
def TakeIf (r : ArgReader) (c : Char) : Option (Bool × ArgReader) :=
  match (if c ≠ ' ' then r.Skipspace else some r) with
  | none => none
  | some r =>
    match r.Read with
    | (Except.error _, r) => some (false, r)
    | (Except.ok char, r) =>
      if char ≠ c then some (false, r.Unread)
      else some (true, r)

/-- Method `Take`: the error (`none` for nil). -/
def Take (r : ArgReader) (c : Char) : Option (Option ArgError × ArgReader) :=
  match r.TakeIf c with
  | none => none
  | some (false, r) => some (some (ArgError.other ("expected " ++ String.singleton c)), r)
  | some (true, r) => some (none, r)

/-- Method `Significant`. -/
def Significant (args : ArgReader) : Option (Except ArgError Char × ArgReader) :=
  match args.Skipspace with
  | none => none
  | some args => some args.Read

/-- The loop of `Quoted` with `fuel` iterations left. -/
def QuotedLoop (q : Char) : Nat → ArgReader → List Char → Bool →
    Option (Except ArgError String × ArgReader)
  | 0, _, _, _ => none
  | fuel + 1, args, result, escape =>
    match args.Read with
    | (Except.error err, args) => some (Except.error err, args)
    | (Except.ok char, args) =>
      if escape then QuotedLoop q fuel args (result ++ [char]) false
      else if char = '\\' then QuotedLoop q fuel args result true
      else if char = q then some (Except.ok (String.mk result), args)
      else QuotedLoop q fuel args (result ++ [char]) escape

/-- Method `Quoted`. -/
def Quoted (args : ArgReader) (q : Char) : Option (Except ArgError String × ArgReader) :=
  QuotedLoop q (args.buf.length + 1) args [] false

/-- The loop of `ID` with `fuel` iterations left; `began` and `result` are its
variables. -/
def IDLoop (tile : Bool) : Nat → ArgReader → Bool → List Char →
    Option (Except ArgError String × ArgReader)
  | 0, _, _, _ => none
  | fuel + 1, args, began, result =>
    match (if began then some args.Read else args.Significant) with
    | none => none
    | some (read, args) =>
      -- `if err == nil { ... }`: the tests of the rune, which may set `err = io.EOF`
      let (read, args) : Except ArgError Char × ArgReader :=
        match read with
        | Except.error err => (Except.error err, args)
        | Except.ok char =>
          if began then
            let (err, args) : Option ArgError × ArgReader :=
              if !identifierOk.TestRune char then (some ArgError.EOF, args.Unread)
              else (none, args)
            let char := if tile then (if char = '-' then '_' else char) else char
            match err with
            | some err => (Except.error err, args)
            | none => (Except.ok char, args)
          else if !identifierOkFirst.TestRune char then (Except.error ArgError.EOF, args.Unread)
          else (Except.ok char, args)
      match read with
      | Except.error err =>
        if err = ArgError.EOF then
          if began then some (Except.ok (String.mk result), args)
          else some (Except.error ArgError.EOF, args)
        else some (Except.error err, args)
      | Except.ok char =>
        if char = '"' ∨ char = '\'' then
          if began then some (Except.ok (String.mk result), args.Unread)
          else args.Quoted char
        else IDLoop tile fuel args true (result ++ [char])

/-- Method `ID`. -/
def ID (args : ArgReader) (tile : Bool) : Option (Except ArgError String × ArgReader) :=
  IDLoop tile (args.buf.length + 1) args false []

/-- The loop of `TakePath` with `fuel` iterations left. -/
def TakePathLoop : Nat → ArgReader → List Char → Option (Except ArgError String × ArgReader)
  | 0, _, _ => none
  | fuel + 1, args, result =>
    match args.Read with
    | (Except.error err, args) => some (Except.error err, args)
    | (Except.ok char, args) =>
      if char = ' ' then some (Except.ok (String.mk result), args.Unread)
      else TakePathLoop fuel args (result ++ [char])

/-- Method `TakePath`. -/
def TakePath (args : ArgReader) : Option (Except ArgError String × ArgReader) :=
  match args.Skipspace with
  | none => none
  | some args =>
    let r := args.Peek
    if r = '"' ∨ r = '\'' then args.Quoted r
    else TakePathLoop (args.buf.length + 1) args []

/-- Method `TakeFile`.  `unmarshalFile` is `foreign.Unmarshal(file, nil, &res)`: the map
read from the file of that name, or the error. -/
def TakeFile (unmarshalFile : String → Except ArgError ArgMap) (args : ArgReader) :
    Option (Except ArgError ArgMap × ArgReader) :=
  match args.TakePath with
  | none => none
  | some (Except.error err, args) => some (Except.error err, args)
  | some (Except.ok file, args) => some (unmarshalFile file, args)

/-- Method `Number`.  `strconv.ParseFloat` is `parseFloat`, its value taken exactly. -/
def Number (args : ArgReader) : Option (Except ArgError ℚ × ArgReader) :=
  match args.TakeAnyN numericRunes with
  | none => none
  | some (result, args) =>
    if result = "" then some (Except.error (ArgError.other "expected number"), args)
    else
      match parseFloat result.data with
      | some res => some (Except.ok res, args)
      | none =>
        some (Except.error (ArgError.other
          ("strconv.ParseFloat: parsing \"" ++ result ++ "\": invalid syntax")), args)

mutual

/-- Method `Any`, with `fuel` calls and iterations left for itself and the methods it
calls. -/
def Any (unmarshalFile : String → Except ArgError ArgMap) :
    Nat → ArgReader → Option (Except ArgError ArgValue × ArgReader)
  | 0, _ => none
  | fuel + 1, args =>
    match args.Significant with
    | none => none
    | some (Except.error err, args) => some (Except.error err, args)
    | some (Except.ok char, args) =>
      if char = '{' then
        match Object unmarshalFile fuel args with
        | none => none
        | some (Except.error err, args) => some (Except.error err, args)
        | some (Except.ok res, args) => some (Except.ok (ArgValue.object res), args)
      else if char = '[' then
        match Array unmarshalFile fuel args with
        | none => none
        | some (Except.error err, args) => some (Except.error err, args)
        | some (Except.ok res, args) => some (Except.ok (ArgValue.array res), args)
      else if char = '"' ∨ char = '\'' then
        match args.Quoted char with
        | none => none
        | some (Except.error err, args) => some (Except.error err, args)
        | some (Except.ok res, args) => some (Except.ok (ArgValue.string res), args)
      else if char ∈ ['-', '+', '.', '0', '1', '2', '3', '4', '5', '6', '7', '8', '9'] then
        match args.Unread.Number with
        | none => none
        | some (Except.error err, args) => some (Except.error err, args)
        | some (Except.ok res, args) => some (Except.ok (ArgValue.number res), args)
      else if identifierOkFirst.TestRune char then
        match args.Unread.ID false with
        | none => none
        | some (Except.error err, args) => some (Except.error err, args)
        | some (Except.ok res, args) => some (Except.ok (ArgValue.string res), args)
      else
        some (Except.error (ArgError.other ("unexpected character " ++ String.singleton char)),
          args)

/-- Method `Assign`. -/
def Assign (unmarshalFile : String → Except ArgError ArgMap) (k : Char) :
    Nat → ArgReader → Option (Except ArgError ArgValue × ArgReader)
  | 0, _ => none
  | fuel + 1, args =>
    match args.Skipspace with
    | none => none
    | some args =>
      match args.Take k with
      | none => none
      | some (some err, args) =>
        if err = ArgError.EOF then some (Except.ok (ArgValue.bool true), args)
        else some (Except.error err, args)
      | some (none, args) => Any unmarshalFile fuel args

/-- Method `Object`. -/
def Object (unmarshalFile : String → Except ArgError ArgMap) :
    Nat → ArgReader → Option (Except ArgError ArgMap × ArgReader)
  | 0, _ => none
  | fuel + 1, args =>
    match args.TakeIf '@' with
    | none => none
    | some (true, args) =>
      match args.TakeFile unmarshalFile with
      | none => none
      | some (Except.error e, args) => some (Except.error e, args)
      | some (Except.ok res, args) => ObjectLoop unmarshalFile fuel args res
    | some (false, args) => ObjectLoop unmarshalFile fuel args []

/-- The loop of `Object`. -/
def ObjectLoop (unmarshalFile : String → Except ArgError ArgMap) :
    Nat → ArgReader → ArgMap → Option (Except ArgError ArgMap × ArgReader)
  | 0, _, _ => none
  | fuel + 1, args, res =>
    match args.TakeIf '}' with
    | none => none
    | some (true, args) => some (Except.ok res, args)
    | some (false, args) =>
      match args.ID true with
      | none => none
      | some (Except.error err, args) => some (Except.error err, args)
      | some (Except.ok key, args) =>
        match Assign unmarshalFile ':' fuel args with
        | none => none
        | some (Except.error err, args) => some (Except.error err, args)
        | some (Except.ok val, args) => ObjectLoop unmarshalFile fuel args (mapAssign res key val)

/-- Method `Array`. -/
def Array (unmarshalFile : String → Except ArgError ArgMap) :
    Nat → ArgReader → Option (Except ArgError (List ArgValue) × ArgReader)
  | 0, _ => none
  | fuel + 1, args => ArrayLoop unmarshalFile fuel args []

/-- The loop of `Array`. -/
def ArrayLoop (unmarshalFile : String → Except ArgError ArgMap) :
    Nat → ArgReader → List ArgValue → Option (Except ArgError (List ArgValue) × ArgReader)
  | 0, _, _ => none
  | fuel + 1, args, res =>
    match args.Significant with
    | none => none
    | some (Except.error err, args) => some (Except.error err, args)
    | some (Except.ok ch, args) =>
      if ch = ']' then some (Except.ok res, args)
      else
        match Any unmarshalFile fuel args.Unread with
        | none => none
        | some (Except.error err, args) => some (Except.error err, args)
        | some (Except.ok val, args) => ArrayLoop unmarshalFile fuel args (res ++ [val])

end

/-- The loop of `Set` with `fuel` calls and iterations left; `res` is its variable. -/
def SetLoop (unmarshalFile : String → Except ArgError ArgMap) :
    Nat → ArgReader → ArgMap → Option (Except ArgError ArgMap × ArgReader)
  | 0, _, _ => none
  | fuel + 1, args, res =>
    match args.TakeIf '-' with
    | none => none
    | some (dash, args) =>
      match (if dash then (args.TakeIf '-').map Prod.snd else some args) with
      | none => none
      | some args =>
        match args.ID true with
        | none => none
        | some (Except.error err, args) =>
          if err = ArgError.EOF then some (Except.ok res, args)
          else some (Except.error err, args)
        | some (Except.ok key, args) =>
          match Assign unmarshalFile '=' fuel args with
          | none => none
          | some (Except.error err, args) =>
            if err = ArgError.EOF then
              let res := mapAssign res key (ArgValue.bool true)
              let res :=
                if (mapIndex res "args").isNil then mapAssign res "args" (ArgValue.strings [key])
                else res
              some (Except.ok res, args)
            else some (Except.error err, args)
          | some (Except.ok val, args) => SetLoop unmarshalFile fuel args (mapAssign res key val)

/-- Method `Set`: the option set or the error, and the reader afterwards; `none` when
the fuel runs out.  Every call and iteration counted by the fuel reads a rune or is one
of at most four in a row that do not, so `4 * len(buf) + 4` is taken. -/
def Set (unmarshalFile : String → Except ArgError ArgMap) (args : ArgReader) :
    Option (Except ArgError ArgMap × ArgReader) :=
  match args.TakeIf '@' with
  | none => none
  | some (true, args) => args.TakeFile unmarshalFile
  | some (false, args) =>
    match args.TakeIf '{' with
    | none => none
    | some (true, args) => Object unmarshalFile (4 * args.buf.length + 4) args
    | some (false, args) => SetLoop unmarshalFile (4 * args.buf.length + 4) args []

end ArgReader

/-- Function `NewArgReader`. -/
def NewArgReader (args : String) : ArgReader := { buf := args.data, pos := 0 }

end automarshal

/-! ## `pkg/client/main.go` -/

namespace client

/-- The call `strings.ReplaceAll(s, "\"", "\\\"")`. -/
def escapeQuotes (s : List Char) : List Char :=
  (s.map (fun c => if c = '"' then ['\\', '"'] else [c])).flatten

/-- One iteration of the loop of `Run` over `os.Args[2:]`, on the variables `argString`
and `body`.  The indices of `strings.Index` and `strings.IndexByte` are those of an
ASCII rune, so cutting the list of runes there is cutting the string. -/
def runArg (st : List Char × String) (arg : String) : List Char × String :=
  let (argString, body) := st
  if arg.data.head? ≠ some '-' then (argString, if body = "" then arg else body)
  else
    let quoted : List Char :=
      match arg.data.findIdx? (fun c => c = ' ') with
      | some sp =>
        match arg.data.findIdx? (fun c => c = '=') with
        | some i =>
          if i < sp then
            arg.data.take (i + 1) ++ ['"'] ++ escapeQuotes (arg.data.drop (i + 1)) ++ ['"']
          else ['"'] ++ escapeQuotes arg.data ++ ['"']
        | none => ['"'] ++ escapeQuotes arg.data ++ ['"']
      | none => arg.data
    (argString ++ quoted ++ [' '], body)

/-- The strings `args` and `body` that `Run` hands to the command, from `os.Args[2:]`. -/
def runArgs (osArgs : List String) : String × String :=
  let st := osArgs.foldl runArg ([], "")
  (String.mk st.1, st.2)

end client

end Gosu

/-! # Theorems -/

namespace Gosu

/-! ## Errors and statuses -/

theorem Errorf_Is_iff (inner : GoError) (text : String) (s : Status) :
    (GoError.Errorf inner text).Is (GoError.ofStatus s) = inner.Is (GoError.ofStatus s) := by
  unfold GoError.Errorf
  rw [GoError.Is]
  simp

theorem ofStatus_Is_iff (s t : Status) :
    (GoError.ofStatus s).Is (GoError.ofStatus t) = decide (s = t) := by
  unfold GoError.Is
  by_cases h : s = t
  · subst h
    simp
  · simp [h]

theorem StatusFromErr_Errorf_Errored (keys : List Status) (text : String) :
    StatusFromErr keys (some (GoError.Errorf (GoError.ofStatus Status.Errored) text))
      = Status.Errored := by
  unfold StatusFromErr
  simp only [Errorf_Is_iff, ofStatus_Is_iff]
  cases h : keys.find? (fun s => decide (Status.Errored = s)) with
  | none => rfl
  | some s =>
    have := List.find?_some h
    simp at this
    simp [this]

theorem StatusFromErr_rewrap (keys : List Status) (e : GoError) :
    StatusFromErr keys (some (mustWorker.rewrap keys e)) = Status.Errored := by
  unfold mustWorker.rewrap
  split
  · exact StatusFromErr_Errorf_Errored keys _
  · rename_i h
    simpa using h

/-! ## `mustWorker` -/

theorem mustWorker.step_cause_some {work work' : mustWorker} {c : GoError} {e : Event}
    (h : work.cause = some c) (hs : work.step e = some work') : work'.cause = some c := by
  cases e <;> simp only [mustWorker.step, mustWorker.Stop, mustWorker.Kill, mustWorker.signalStop,
    mustWorker.cancel] at hs <;>
    (repeat' split at hs) <;> simp_all [Cancel] <;> (subst hs; simp_all [Cancel])

theorem mustWorker.run_cause_some {c : GoError} (es : List mustWorker.Event) :
    ∀ {work work' : mustWorker}, work.cause = some c → work.run es = some work' →
      work'.cause = some c := by
  induction es with
  | nil =>
    intro work work' h hr
    simp only [mustWorker.run, Option.some.injEq] at hr
    subst hr
    exact h
  | cons e es ih =>
    intro work work' h hr
    simp only [mustWorker.run] at hr
    cases hs : work.step e with
    | none => simp [hs] at hr
    | some w =>
      simp only [hs] at hr
      exact ih (mustWorker.step_cause_some h hs) hr

/-- C1 (amended).  When a `select` of `mustWorker.Run` receives a non-nil error `e` from the
exit channel (in the Starting or in the Running phase), `Run` returns `e` unchanged when
`StatusFromErr(e)` is `Errored` (that is, when `e` wraps `Errored` or no recognized Status
at all), and returns `fmt.Errorf("%w: %s", Errored, e.Error())`, which wraps `Errored`,
when `StatusFromErr(e)` is another Status; in both cases `StatusFromErr` of the returned
error is `Errored`. -/
theorem C1_exit_error_rewrapped_unless_errored (work : mustWorker) (keys : List Status)
    (e : GoError)
    (hphase : work.phase = RunPhase.starting ∨ work.phase = RunPhase.running) :
    ∃ work', work.step (mustWorker.Event.exit keys (some e)) = some work' ∧
      work'.result = some (some (mustWorker.rewrap keys e)) ∧
      (StatusFromErr keys (some e) = Status.Errored → mustWorker.rewrap keys e = e) ∧
      (StatusFromErr keys (some e) ≠ Status.Errored →
        mustWorker.rewrap keys e = GoError.Errorf (GoError.ofStatus Status.Errored) e.Error ∧
        (mustWorker.rewrap keys e).Is (GoError.ofStatus Status.Errored) = true ∧
        ∀ keys', StatusFromErr keys' (some (mustWorker.rewrap keys e)) = Status.Errored) ∧
      StatusFromErr keys (some (mustWorker.rewrap keys e)) = Status.Errored := by
  have hres : ∃ work', work.step (mustWorker.Event.exit keys (some e)) = some work' ∧
      work'.result = some (some (mustWorker.rewrap keys e)) := by
    rcases hphase with h | h <;>
      simp [mustWorker.step, h, mustWorker.exitStarting, mustWorker.exitRunning,
        mustWorker.result, mustWorker.cancel]
  obtain ⟨work', h1, h2⟩ := hres
  refine ⟨work', h1, h2, ?_, ?_, StatusFromErr_rewrap keys e⟩
  · intro h
    simp [mustWorker.rewrap, h]
  · intro h
    have hw : mustWorker.rewrap keys e = GoError.Errorf (GoError.ofStatus Status.Errored) e.Error := by
      simp [mustWorker.rewrap, h]
    refine ⟨hw, ?_, ?_⟩
    · rw [hw, Errorf_Is_iff, ofStatus_Is_iff]
      simp
    · intro keys'
      rw [hw]
      exact StatusFromErr_Errorf_Errored keys' _

/-- C1 (witness): a worker with the default options in its Running phase receives
`Cancelled` from the exit channel. -/
theorem C1_exit_error_rewrapped_unless_errored_witness :
    ∃ work', ({ newMustWorker defaultOptions with phase := RunPhase.running }).step
        (mustWorker.Event.exit Status.all (some (GoError.ofStatus Status.Cancelled))) = some work' ∧
      work'.result = some (some (mustWorker.rewrap Status.all (GoError.ofStatus Status.Cancelled))) ∧
      StatusFromErr Status.all (some (mustWorker.rewrap Status.all (GoError.ofStatus Status.Cancelled)))
        = Status.Errored := by
  obtain ⟨work', h1, h2, _, _, h5⟩ :=
    C1_exit_error_rewrapped_unless_errored
      { newMustWorker defaultOptions with phase := RunPhase.running } Status.all
      (GoError.ofStatus Status.Cancelled) (Or.inr rfl)
  exact ⟨work', h1, h2, h5⟩

/-- C1 (counterexample).  A worker in its Starting phase receives the recognized Status
`TimeoutStop` from the exit channel: `Run` does not return it unchanged but returns an
error wrapping `Errored`, whose `StatusFromErr` is `Errored` and not `TimeoutStop`.  It
receives `errors.New("boom")`, which is no recognized Status: `Run` returns it unchanged,
and it does not wrap `Errored`. -/
theorem C1_counterexample :
    (((newMustWorker defaultOptions).run
        [mustWorker.Event.runBegin, mustWorker.Event.exit Status.all (some (GoError.ofStatus Status.TimeoutStop))]).map
        mustWorker.result
      = some (some (some (GoError.wrap "task errored: task timed out during exit"
          (GoError.ofStatus Status.Errored))))) ∧
    StatusFromErr Status.all (some (GoError.ofStatus Status.TimeoutStop)) = Status.TimeoutStop ∧
    StatusFromErr Status.all (some (GoError.wrap "task errored: task timed out during exit"
      (GoError.ofStatus Status.Errored))) = Status.Errored ∧
    (((newMustWorker defaultOptions).run
        [mustWorker.Event.runBegin, mustWorker.Event.exit Status.all (some (GoError.new "boom"))]).map
        mustWorker.result
      = some (some (some (GoError.new "boom")))) ∧
    (GoError.new "boom").Is (GoError.ofStatus Status.Errored) = false := by
  decide

/-- C2.  For a worker whose context is still live (it is Starting or Running, not yet
terminal): when the exit channel delivers nil in the first `select` of `Run` (before
`min_uptime` was observed), `Run` returns `fmt.Errorf("%w: quit too early", Errored)`,
which wraps `Errored` and reads `task errored: quit too early`, and `Status()` is that
error, classified `Errored`, from then on; when it delivers nil in the nested `select`
(the worker entered Running), `Run` returns nil and `Status()` is `Complete` from then
on. -/
theorem C2_exit_nil_starting_errored_running_complete (work : mustWorker)
    (keys : List Status) (hlive : work.cause = none) :
    (work.phase = RunPhase.starting →
      ∃ work', work.step (mustWorker.Event.exit keys none) = some work' ∧
        work'.result
          = some (some (GoError.Errorf (GoError.ofStatus Status.Errored) "quit too early")) ∧
        (GoError.Errorf (GoError.ofStatus Status.Errored) "quit too early").Is
          (GoError.ofStatus Status.Errored) = true ∧
        (GoError.Errorf (GoError.ofStatus Status.Errored) "quit too early").Error
          = "task errored: quit too early" ∧
        ∀ es work'', work'.run es = some work'' →
          work''.Status = GoError.Errorf (GoError.ofStatus Status.Errored) "quit too early" ∧
          ∀ keys', StatusFromErr keys' (some work''.Status) = Status.Errored) ∧
    (work.phase = RunPhase.running →
      ∃ work', work.step (mustWorker.Event.exit keys none) = some work' ∧
        work'.result = some none ∧
        ∀ es work'', work'.run es = some work'' →
          work''.Status = GoError.ofStatus Status.Complete) := by
  constructor
  · intro h
    refine ⟨_, by simp only [mustWorker.step, h]; rfl, ?_, by decide, by decide, ?_⟩
    · simp [mustWorker.result]
      rfl
    · intro es work'' hr
      have hc : work''.cause
          = some (GoError.Errorf (GoError.ofStatus Status.Errored) "quit too early") := by
        refine mustWorker.run_cause_some es ?_ hr
        simp [mustWorker.cancel, hlive, Cancel, OrOk, mustWorker.exitStarting]
      have hs : work''.Status
          = GoError.Errorf (GoError.ofStatus Status.Errored) "quit too early" := by
        simp only [mustWorker.Status, hc, Option.isSome_some, if_true]
        decide
      refine ⟨hs, ?_⟩
      intro keys'
      rw [hs]
      exact StatusFromErr_Errorf_Errored keys' _
  · intro h
    refine ⟨_, by simp only [mustWorker.step, h]; rfl, ?_, ?_⟩
    · simp [mustWorker.result, mustWorker.exitRunning]
    · intro es work'' hr
      have hc : work''.cause = some GoError.errOk := by
        refine mustWorker.run_cause_some es ?_ hr
        simp [mustWorker.cancel, hlive, Cancel, OrOk, mustWorker.exitRunning]
      simp only [mustWorker.Status, hc, Option.isSome_some, if_true]
      decide

/-- C2 (witness): a fresh worker with the default options, after `Run` has begun. -/
theorem C2_exit_nil_starting_errored_running_complete_witness :
    (∃ work', ({ newMustWorker defaultOptions with phase := RunPhase.starting }).step
        (mustWorker.Event.exit Status.all none) = some work' ∧
      work'.result
        = some (some (GoError.Errorf (GoError.ofStatus Status.Errored) "quit too early"))) ∧
    (∃ work', ({ newMustWorker defaultOptions with phase := RunPhase.running }).step
        (mustWorker.Event.exit Status.all none) = some work' ∧
      work'.result = some none) :=
  ⟨(((C2_exit_nil_starting_errored_running_complete
      { newMustWorker defaultOptions with phase := RunPhase.starting } Status.all rfl).1
      rfl).imp fun _ h => ⟨h.1, h.2.1⟩),
   (((C2_exit_nil_starting_errored_running_complete
      { newMustWorker defaultOptions with phase := RunPhase.running } Status.all rfl).2
      rfl).imp fun _ h => ⟨h.1, h.2.1⟩)⟩

theorem mustWorker.step_settled {work work' : mustWorker} {e : Event}
    (hstatus : work.status = Status.Stopping)
    (hphase : work.phase ≠ RunPhase.idle ∧ work.phase ≠ RunPhase.starting)
    (hs : work.step e = some work') :
    work'.status = Status.Stopping ∧
      (work'.phase ≠ RunPhase.idle ∧ work'.phase ≠ RunPhase.starting) := by
  obtain ⟨h1, h2⟩ := hphase
  cases e <;> simp only [mustWorker.step, mustWorker.Stop, mustWorker.Kill, mustWorker.signalStop,
    mustWorker.cancel] at hs <;>
    (repeat' split at hs) <;> simp_all <;> (subst hs; simp_all)

/-- C3 (amended).  Once `Stopping` has been signalled (`signalStop` has set the status
field to `Stopping`), in every interleaving of `Stop`, `Kill`, timer expiries, task exit and
cancellations that follows: if `Run` has already left its first `select` (it has observed
`min_uptime`, or it has returned), the status field is never set to `Running` again, it
stays `Stopping`, and `Status()` returns `Stopping` for as long as the context is live and
the recorded cause afterwards; and if the context is already cancelled, `Status()` returns
the recorded cause (or `Complete`) from then on, whatever the status field holds.  The
status field is `Running` afterwards, or `Status()` returns `Running` on a live context,
only when `Run` had not yet observed `min_uptime` at the signal (it had not begun, or it
was waiting in its first `select`) and the context was live; and from both of these
states it does happen: when `Run` had not begun, its first assignment sets `Starting`
and the `min_uptime` arm sets `Running`; when `Run` was waiting, the `min_uptime` arm
sets `Running`.  With the default stop timeout, `Stop` on a new worker followed by the
beginning of `Run` and the `min_uptime` arm is such a run. -/
theorem C3_running_after_stopping_only_before_min_uptime_and_live (work : mustWorker)
    (es : List mustWorker.Event) (work' : mustWorker)
    (hstatus : work.status = Status.Stopping)
    (hrun : work.run es = some work') :
    ((work.phase ≠ RunPhase.idle ∧ work.phase ≠ RunPhase.starting) →
      work'.status = Status.Stopping ∧
      (work'.cause = none → work'.Status = GoError.ofStatus Status.Stopping) ∧
      (∀ c, work'.cause = some c → work'.Status = (Cause (some c)).getD
        (GoError.ofStatus Status.Complete))) ∧
    (∀ c, work.cause = some c →
      work'.Status = (Cause (some c)).getD (GoError.ofStatus Status.Complete) ∧
      (c ≠ GoError.ofStatus Status.Running →
        work'.Status ≠ GoError.ofStatus Status.Running)) ∧
    (work'.status = Status.Running →
      work.phase = RunPhase.idle ∨ work.phase = RunPhase.starting) ∧
    (work'.cause = none → work'.Status = GoError.ofStatus Status.Running →
      (work.phase = RunPhase.idle ∨ work.phase = RunPhase.starting) ∧ work.cause = none) ∧
    (work.cause = none → work.phase = RunPhase.idle →
      (work.run [mustWorker.Event.runBegin]).map (fun w => (w.status, w.Status))
        = some (Status.Starting, GoError.ofStatus Status.Starting) ∧
      (work.run [mustWorker.Event.runBegin, mustWorker.Event.minUptime]).map
          (fun w => (w.status, w.Status))
        = some (Status.Running, GoError.ofStatus Status.Running)) ∧
    (work.cause = none → work.phase = RunPhase.starting →
      (work.run [mustWorker.Event.minUptime]).map (fun w => (w.status, w.Status))
        = some (Status.Running, GoError.ofStatus Status.Running)) ∧
    ((newMustWorker defaultOptions).run [mustWorker.Event.stop]).map
        (fun w => (w.stopChannelClosed, w.status, w.Status, w.phase))
      = some (true, Status.Stopping, GoError.ofStatus Status.Stopping, RunPhase.idle) ∧
    ((newMustWorker defaultOptions).run
        [mustWorker.Event.stop, mustWorker.Event.runBegin, mustWorker.Event.minUptime]).map
        (fun w => (w.stopChannelClosed, w.status, w.Status))
      = some (true, Status.Running, GoError.ofStatus Status.Running) := by
  have key : ∀ (es : List mustWorker.Event) (w w' : mustWorker),
      w.status = Status.Stopping →
      (w.phase ≠ RunPhase.idle ∧ w.phase ≠ RunPhase.starting) →
      w.run es = some w' → w'.status = Status.Stopping := by
    intro es
    induction es with
    | nil =>
      intro w w' h1 _ hr
      simp only [mustWorker.run, Option.some.injEq] at hr
      subst hr
      exact h1
    | cons e es ih =>
      intro w w' h1 h2 hr
      simp only [mustWorker.run] at hr
      cases hs : w.step e with
      | none => simp [hs] at hr
      | some w1 =>
        simp only [hs] at hr
        have := mustWorker.step_settled h1 h2 hs
        exact ih w1 w' this.1 this.2 hr
  have hterminal : ∀ c, work'.cause = some c →
      work'.Status = (Cause (some c)).getD (GoError.ofStatus Status.Complete) := by
    intro c hc
    simp only [mustWorker.Status, hc, Option.isSome_some, if_true]
    cases Cause (some c) <;> rfl
  have honly : work'.status = Status.Running →
      work.phase = RunPhase.idle ∨ work.phase = RunPhase.starting := by
    intro hr
    by_contra hne
    have hst := key es work work' hstatus (not_or.1 hne) hrun
    rw [hst] at hr
    exact absurd hr (by decide)
  refine ⟨?_, ?_, honly, ?_, ?_, ?_, by decide, by decide⟩
  · intro hphase
    have hst := key es work work' hstatus hphase hrun
    refine ⟨hst, ?_, hterminal⟩
    intro hc
    simp only [mustWorker.Status, hc, hst]
    decide
  · intro c hc
    have hs := hterminal c (mustWorker.run_cause_some es hc hrun)
    refine ⟨hs, fun hne => ?_⟩
    rw [hs]
    unfold Cause NotOk
    simp only
    split
    · simp
    · simpa using hne
  · intro hc hS
    have hfield : work'.status = Status.Running := by
      simp only [mustWorker.Status, hc, Option.isSome_none, Bool.false_eq_true, if_false] at hS
      split_ifs at hS with halive
      · exact GoError.ofStatus.inj hS
      · exact absurd (GoError.ofStatus.inj hS) (by decide)
    refine ⟨honly hfield, ?_⟩
    cases hw : work.cause with
    | none => rfl
    | some c =>
      have := mustWorker.run_cause_some es hw hrun
      rw [hc] at this
      exact absurd this (by simp)
  · intro hc hp
    simp only [mustWorker.run, mustWorker.step, hp, Option.map_some', mustWorker.Status, hc,
      Option.isSome_none, Bool.false_eq_true, if_false]
    constructor <;> decide
  · intro hc hp
    simp only [mustWorker.run, mustWorker.step, hp, Option.map_some', mustWorker.Status, hc,
      Option.isSome_none, Bool.false_eq_true, if_false]
    decide

/-- C3 (witness): `Stop` on a worker that has entered Running, then the stop timer, the
`AfterFunc` callback and the return of `Run`: the status field still holds `Stopping`. -/
theorem C3_running_after_stopping_only_before_min_uptime_and_live_witness :
    ((newMustWorker defaultOptions).run
        [mustWorker.Event.runBegin, mustWorker.Event.minUptime, mustWorker.Event.stop]).map
        (fun w => (w.stopChannelClosed, w.status, w.phase))
      = some (true, Status.Stopping, RunPhase.running) ∧
    ∃ work', ({ newMustWorker defaultOptions with
              stopChannelClosed := true, stopChannelUsed := true, stopTimer := true,
              status := Status.Stopping, phase := RunPhase.running } : mustWorker).run
            [mustWorker.Event.stopTimeout, mustWorker.Event.afterFunc,
             mustWorker.Event.selectDone] = some work' ∧
      work'.status = Status.Stopping :=
  ⟨by decide,
    (({ newMustWorker defaultOptions with
          stopChannelClosed := true, stopChannelUsed := true, stopTimer := true,
          status := Status.Stopping, phase := RunPhase.running } : mustWorker).run
        [mustWorker.Event.stopTimeout, mustWorker.Event.afterFunc,
         mustWorker.Event.selectDone]).get (by decide),
    (Option.some_get _).symm,
    ((C3_running_after_stopping_only_before_min_uptime_and_live _ _ _ rfl
      (Option.some_get _).symm).1 (by decide)).1⟩

/-- C3 (counterexample).  With the default stop timeout of 5 s, `Stop` is called while
`Run` waits in its first `select`: the stop channel is closed, the status field holds
`Stopping` and `Status()` returns `Stopping`.  Then the `min_uptime` arm of that `select`
fires: the status field is set to `Running` and `Status()` returns `Running`. -/
theorem C3_counterexample :
    ((newMustWorker defaultOptions).run [mustWorker.Event.runBegin, mustWorker.Event.stop]).map
        (fun w => (w.stopChannelClosed, w.status, w.Status))
      = some (true, Status.Stopping, GoError.ofStatus Status.Stopping) ∧
    ((newMustWorker defaultOptions).run [mustWorker.Event.runBegin, mustWorker.Event.stop, mustWorker.Event.minUptime]).map
        (fun w => (w.stopChannelClosed, w.status, w.Status))
      = some (true, Status.Running, GoError.ofStatus Status.Running) := by
  decide

/-! ## `retryWorker`: the packed retry state -/

theorem packErrorState_eq (tick counter : Nat) (ht : tick < 4294967296)
    (hc : counter < 4294967296) :
    packErrorState tick counter = 4294967296 * counter + tick := by
  unfold packErrorState
  have h1 : tick ||| counter <<< 32 = 4294967296 * counter + tick := by
    have h := Nat.mul_add_lt_is_or (i := 32) (b := tick) (by simpa using ht) counter
    rw [Nat.shiftLeft_eq, Nat.lor_comm]
    norm_num at h ⊢
    rw [Nat.mul_comm counter]
    exact h.symm
  rw [h1]
  omega

theorem unpack_packErrorState (tick counter : Nat) (ht : tick < 4294967296)
    (hc : counter < 4294967296) :
    unpackErrorState (packErrorState tick counter) = (tick, counter) := by
  rw [packErrorState_eq tick counter ht hc]
  unfold unpackErrorState
  rw [Nat.shiftRight_eq_div_pow]
  norm_num
  constructor <;> omega

theorem unpackErrorState_lt (state : Nat) :
    (unpackErrorState state).1 < 4294967296 ∧ (unpackErrorState state).2 < 4294967296 := by
  unfold unpackErrorState
  constructor <;> simp <;> omega

theorem ToTicks_lt {d : TimerRate} {t : Int} {cur : Nat} (h : d.ToTicks t = some cur) :
    cur < 4294967296 := by
  unfold TimerRate.ToTicks at h
  split at h
  · simp at h
  · simp only [Option.some.injEq] at h
    omega

theorem bump_lt (expected cur : Nat) (hcur : cur < 4294967296) :
    (retryWorker.bump expected cur).1 < 4294967296 ∧
      (retryWorker.bump expected cur).2 < 4294967296 := by
  unfold retryWorker.bump
  have := unpackErrorState_lt expected
  simp only
  split <;> constructor <;> simp <;> omega

theorem retryWorker.retriable_eq_true_iff (retry : retryWorker) (err : Option GoError) :
    retry.retriable err = true ↔
      ((err ≠ none ∧ errorsIs err GoError.errNonRetriable = false) ∨
        (err = none ∧ retry.options.RetrySuccess = true)) ∧
      (unpackErrorState retry.retryState).1 ≠ retryTickDead := by
  unfold retryWorker.retriable unpackErrorState errorsIs
  cases err with
  | none => cases h : retry.options.RetrySuccess <;> simp
  | some e => cases h : e.Is GoError.errNonRetriable <;> simp

theorem retryWorker.disableRetries_dead (retry : retryWorker) :
    (unpackErrorState retry.disableRetries.retryState).1 = retryTickDead := by
  unfold retryWorker.disableRetries
  simp only
  split
  · assumption
  · have := unpackErrorState_lt retry.retryState
    simp only
    rw [unpack_packErrorState _ _ (by decide) this.2]

theorem retryWorker.disableRetries_counter (retry : retryWorker) :
    (unpackErrorState retry.disableRetries.retryState).2
      = (unpackErrorState retry.retryState).2 := by
  unfold retryWorker.disableRetries
  simp only
  split
  · rfl
  · have := unpackErrorState_lt retry.retryState
    simp only
    rw [unpack_packErrorState _ _ (by decide) this.2]

theorem retryWorker.tryRetry_dead (retry : retryWorker) (err : Option GoError) (now : Int)
    (il : Interleaving) (h : (unpackErrorState retry.retryState).1 = retryTickDead) :
    retry.tryRetry err now il = some (false, retry) := by
  have hr : retry.retriable err = false := by
    cases hb : retry.retriable err with
    | false => rfl
    | true => exact absurd h ((retryWorker.retriable_eq_true_iff retry err).1 hb).2
  unfold retryWorker.tryRetry
  split
  · rfl
  · simp [hr]

theorem retryWorker.disableRetries_options (retry : retryWorker) :
    retry.disableRetries.options = retry.options := by
  unfold retryWorker.disableRetries
  simp only
  split <;> rfl

/-- C5.  `tryRetry(err)`, called when the clock reads a tick `cur`, returns true exactly
when: the retrier's context is not done; `err` is retriable (non-nil and not wrapping
`ErrNonRetriable`, or nil with `retry_success` set); the stored tick is not the dead
sentinel; the counter obtained by the bump (reset to 0 when `cur` differs from the stored
tick, then incremented by one in `uint32`) does not exceed `retry_limit.count`; and the
call reaches the backoff wait and the wait ends by its timer (not by the context, not by
`retryCancel`, and no `disableRetries` cut in before the swap).  The bumped counter is
stored together with the current tick.  When one of the first three conditions fails the
worker, and so the stored retry state, is left unchanged; after `disableRetries` every
call returns false.  The last conjunct spells out the bump. -/
theorem C5_tryRetry_true_iff (retry : retryWorker) (err : Option GoError) (now : Int)
    (il : Interleaving) (cur : Nat)
    (hcur : retry.options.RetryLimit.ToTicks now = some cur) :
    ∃ b retry', retry.tryRetry err now il = some (b, retry') ∧
      (b = true ↔
        (retry.cause = none ∧
         ((err ≠ none ∧ errorsIs err GoError.errNonRetriable = false) ∨
          (err = none ∧ retry.options.RetrySuccess = true)) ∧
         (unpackErrorState retry.retryState).1 ≠ retryTickDead ∧
         (retryWorker.bump retry.retryState cur).2 ≤ retry.options.RetryLimit.Count ∧
         ∃ disabled, il = Interleaving.waitTimer disabled)) ∧
      ((retry.cause = none ∧
         ((err ≠ none ∧ errorsIs err GoError.errNonRetriable = false) ∨
          (err = none ∧ retry.options.RetrySuccess = true)) ∧
         (unpackErrorState retry.retryState).1 ≠ retryTickDead ∧
         (il = Interleaving.waitTimer false ∨ ∃ c, il = Interleaving.waitDone c)) →
        unpackErrorState retry'.retryState = retryWorker.bump retry.retryState cur) ∧
      ((retry.cause ≠ none ∨
         ¬ ((err ≠ none ∧ errorsIs err GoError.errNonRetriable = false) ∨
          (err = none ∧ retry.options.RetrySuccess = true)) ∨
         (unpackErrorState retry.retryState).1 = retryTickDead) →
        retry' = retry) ∧
      (∀ err' now' il', retry.disableRetries.tryRetry err' now' il'
        = some (false, retry.disableRetries)) ∧
      retryWorker.bump retry.retryState cur
        = (cur, ((if (unpackErrorState retry.retryState).1 ≠ cur then 0
            else (unpackErrorState retry.retryState).2) + 1) % 4294967296) := by
  have hlast : (∀ err' now' il', retry.disableRetries.tryRetry err' now' il'
      = some (false, retry.disableRetries)) ∧
      retryWorker.bump retry.retryState cur
        = (cur, ((if (unpackErrorState retry.retryState).1 ≠ cur then 0
            else (unpackErrorState retry.retryState).2) + 1) % 4294967296) := by
    refine ⟨fun err' now' il' =>
      retryWorker.tryRetry_dead _ err' now' il' (retryWorker.disableRetries_dead retry), ?_⟩
    unfold retryWorker.bump
    simp only
    split
    · rfl
    · rename_i h
      simp only [ne_eq, Decidable.not_not] at h
      simp [h]
  have hiff := retryWorker.retriable_eq_true_iff retry err
  by_cases hctx : retry.cause = none
  swap
  · refine ⟨false, retry, ?_, ?_, ?_, ?_, hlast⟩
    · unfold retryWorker.tryRetry
      cases hc : retry.cause with
      | none => exact absurd hc hctx
      | some c => simp
    · simp [hctx]
    · intro h
      exact absurd h.1 hctx
    · intro _
      rfl
  by_cases hret : retry.retriable err = true
  swap
  · refine ⟨false, retry, ?_, ?_, ?_, ?_, hlast⟩
    · unfold retryWorker.tryRetry
      simp [hctx, hret]
    · constructor
      · intro h
        cases h
      · intro h
        exact absurd (hiff.2 ⟨h.2.1, h.2.2.1⟩) hret
    · intro h
      exact absurd (hiff.2 ⟨h.2.1, h.2.2.1⟩) hret
    · intro _
      rfl
  obtain ⟨herr, htick⟩ := hiff.1 hret
  have hcurlt := ToTicks_lt hcur
  have hb := bump_lt retry.retryState cur hcurlt
  have hexcl : (retry.cause ≠ none ∨
       ¬ ((err ≠ none ∧ errorsIs err GoError.errNonRetriable = false) ∨
        (err = none ∧ retry.options.RetrySuccess = true)) ∨
       (unpackErrorState retry.retryState).1 = retryTickDead) → False := by
    intro h
    rcases h with h | h | h
    · exact absurd hctx h
    · exact absurd herr h
    · exact absurd h htick
  cases il with
  | disabledBeforeLoad =>
    refine ⟨false, retry.disableRetries, ?_, ?_, ?_, ?_, hlast⟩
    · unfold retryWorker.tryRetry
      simp [hctx, hret, retryWorker.disableRetries_dead]
    · simp
    · simp
    · intro h
      rcases h with h | h | h
      · exact absurd hctx h
      · exact absurd herr h
      · exact absurd h htick
  | disabledBeforeSwap =>
    refine ⟨false, retry.disableRetries, ?_, ?_, ?_, ?_, hlast⟩
    · unfold retryWorker.tryRetry
      simp [hctx, hret, htick, hcur]
    · simp
    · simp
    · intro h
      rcases h with h | h | h
      · exact absurd hctx h
      · exact absurd herr h
      · exact absurd h htick
  | waitDone c =>
    cases hres : retry.tryRetry err now (Interleaving.waitDone c) with
    | none =>
      unfold retryWorker.tryRetry at hres
      simp [hctx, hret, htick, hcur] at hres
      split at hres <;> simp at hres
    | some p =>
      obtain ⟨b, r'⟩ := p
      unfold retryWorker.tryRetry at hres
      simp [hctx, hret, htick, hcur] at hres
      refine ⟨b, r', rfl, ?_, ?_, fun h => (hexcl h).elim, hlast⟩
      · split at hres <;> simp at hres <;> obtain ⟨rfl, rfl⟩ := hres
        · simp
        · simp
      · intro _
        split at hres <;> simp at hres <;> obtain ⟨rfl, rfl⟩ := hres <;>
          exact unpack_packErrorState _ _ hb.1 hb.2
  | waitCancel =>
    cases hres : retry.tryRetry err now (Interleaving.waitCancel) with
    | none =>
      unfold retryWorker.tryRetry at hres
      simp [hctx, hret, htick, hcur] at hres
      split at hres <;> simp at hres
    | some p =>
      obtain ⟨b, r'⟩ := p
      unfold retryWorker.tryRetry at hres
      simp [hctx, hret, htick, hcur] at hres
      refine ⟨b, r', rfl, ?_, ?_, fun h => (hexcl h).elim, hlast⟩
      · split at hres <;> simp at hres <;> obtain ⟨rfl, rfl⟩ := hres
        · simp
        · simp
      · intro hpre
        simp at hpre
  | waitTimer d =>
    cases hres : retry.tryRetry err now (Interleaving.waitTimer d) with
    | none =>
      unfold retryWorker.tryRetry at hres
      simp [hctx, hret, htick, hcur] at hres
      split at hres <;> simp at hres
    | some p =>
      obtain ⟨b, r'⟩ := p
      unfold retryWorker.tryRetry at hres
      simp [hctx, hret, htick, hcur] at hres
      refine ⟨b, r', rfl, ?_, ?_, fun h => (hexcl h).elim, hlast⟩
      · split at hres <;> simp at hres <;> obtain ⟨rfl, rfl⟩ := hres
        · rename_i hgt
          simp
          intro _ _ _
          exact hgt
        · rename_i hgt
          simp
          exact ⟨hctx, herr, htick, by omega⟩
      · intro hpre
        have hd : d = false := by
          rcases hpre.2.2.2 with h | ⟨c, h⟩
          · simpa using h
          · cases h
        subst hd
        split at hres <;> simp at hres <;> obtain ⟨rfl, rfl⟩ := hres <;>
          exact unpack_packErrorState _ _ hb.1 hb.2

/-- C5 (witness): a fresh retry worker with the default options (limit `10/30s`), a plain
error, an undisturbed call: the retry is granted and the state holds tick and counter 1. -/
theorem C5_tryRetry_true_iff_witness :
    defaultOptions.RetryLimit.ToTicks 1700000000000000000 = some 56666666 ∧
    ∃ retry', (newRetryWorker defaultOptions).tryRetry (some (GoError.new "boom"))
        1700000000000000000 (Interleaving.waitTimer false) = some (true, retry') ∧
      unpackErrorState retry'.retryState = (56666666, 1) := by
  obtain ⟨b, retry', h1, h2, h3, _, _, _⟩ :=
    C5_tryRetry_true_iff (newRetryWorker defaultOptions) (some (GoError.new "boom"))
      1700000000000000000 (Interleaving.waitTimer false) 56666666 (by decide)
  have hpre : ((some (GoError.new "boom") ≠ none ∧
      errorsIs (some (GoError.new "boom")) GoError.errNonRetriable = false) ∨
      ((some (GoError.new "boom") : Option GoError) = none ∧
        (newRetryWorker defaultOptions).options.RetrySuccess = true)) :=
    Or.inl ⟨by simp, by decide⟩
  have hb : b = true := h2.2 ⟨rfl, hpre, by decide, by decide, ⟨false, rfl⟩⟩
  subst hb
  exact ⟨by decide, retry', h1, (h3 ⟨rfl, hpre, by decide, Or.inl rfl⟩).trans (by decide)⟩

/-! ## `retryWorker`: the backoff curve -/

theorem backoffWait_eq (fl : ℚ → ℚ) (options : Options) (c : Nat) :
    retryWorker.backoffWait fl options c
      = fl (fl (fl (options.RetryBackoff : ℚ) *
          fl (1 / 2 +
            fl (max (min (fl ((((c + 4294967295) % 4294967296 : Nat) : ℚ)
                / (options.RetryLimit.Count : ℚ))) 1) 0 *
              max (min (fl ((((c + 4294967295) % 4294967296 : Nat) : ℚ)
                / (options.RetryLimit.Count : ℚ))) 1) 0))) * options.RetryBackoffScale) := by
  rfl

theorem backoffWait_mono_ratio (fl : ℚ → ℚ) (hmono : Monotone fl) (h0 : fl 0 = 0)
    (b s x y : ℚ) (hb : 0 ≤ b) (hs : 0 ≤ s) (hx : 0 ≤ x) (hxy : x ≤ y) :
    fl (fl (fl b * fl (1 / 2 + fl (x * x))) * s)
      ≤ fl (fl (fl b * fl (1 / 2 + fl (y * y))) * s) := by
  have hfb : 0 ≤ fl b := h0 ▸ hmono hb
  apply hmono
  apply mul_le_mul_of_nonneg_right _ hs
  apply hmono
  apply mul_le_mul_of_nonneg_left _ hfb
  apply hmono
  apply add_le_add_left
  apply hmono
  exact mul_le_mul hxy hxy hx (hx.trans hxy)

theorem counter_pred (c : Nat) (h1 : 1 ≤ c) (h2 : c < 4294967296) :
    (c + 4294967295) % 4294967296 = c - 1 := by
  omega

/-- C7.  For every backoff `b >= 0`, scale `s > 0` and limit count `n >= 1`, the wait
computed by `tryRetry` is non-decreasing in the counter over `1 <= c <= n`, equals
`b * 0.5 * s` at `c = 1`, and lies between `b * 0.5 * s` and `b * 1.5 * s` for every
counter.  This holds when the `float64` operations are exact (`fl` the identity, where the
wait is `b * (0.5 + r^2) * s` with `r = clamp((c-1)/n, 0, 1)`), and for every rounding `fl`
that is monotone and leaves 0, 0.5, 1 and 1.5 unchanged, the products `b * 0.5 * s` and
`b * 1.5 * s` being rounded the same way. -/
theorem C7_backoff_wait_monotone_and_bounded (fl : ℚ → ℚ) (options : Options)
    (hmono : Monotone fl) (h0 : fl 0 = 0) (hhalf : fl (1 / 2) = 1 / 2) (h1 : fl 1 = 1)
    (h32 : fl (3 / 2) = 3 / 2)
    (hb : 0 ≤ options.RetryBackoff) (hs : 0 < options.RetryBackoffScale)
    (hn : 1 ≤ options.RetryLimit.Count) (hn32 : options.RetryLimit.Count < 4294967296) :
    (∀ c c', 1 ≤ c → c ≤ c' → c' ≤ options.RetryLimit.Count →
      retryWorker.backoffWait fl options c ≤ retryWorker.backoffWait fl options c') ∧
    retryWorker.backoffWait fl options 1
      = fl (fl (fl (options.RetryBackoff : ℚ) * (1 / 2)) * options.RetryBackoffScale) ∧
    (∀ c,
      fl (fl (fl (options.RetryBackoff : ℚ) * (1 / 2)) * options.RetryBackoffScale)
        ≤ retryWorker.backoffWait fl options c ∧
      retryWorker.backoffWait fl options c
        ≤ fl (fl (fl (options.RetryBackoff : ℚ) * (3 / 2)) * options.RetryBackoffScale)) ∧
    (∀ c, 1 ≤ c → c < 4294967296 →
      retryWorker.backoffWait id options c
        = (options.RetryBackoff : ℚ) *
            (1 / 2 + (max (min ((((c - 1 : Nat) : ℚ)) / (options.RetryLimit.Count : ℚ)) 1) 0) ^ 2)
            * options.RetryBackoffScale) := by
  have hbq : (0 : ℚ) ≤ (options.RetryBackoff : ℚ) := by exact_mod_cast hb
  have hfb : 0 ≤ fl (options.RetryBackoff : ℚ) := h0 ▸ hmono hbq
  have hnq : (0 : ℚ) ≤ (options.RetryLimit.Count : ℚ) := by positivity
  refine ⟨?_, ?_, ?_, ?_⟩
  · intro c c' hc hcc hcn
    rw [backoffWait_eq, backoffWait_eq]
    apply backoffWait_mono_ratio fl hmono h0 _ _ _ _ hbq hs.le (le_max_right _ _)
    apply max_le_max _ le_rfl
    apply min_le_min _ le_rfl
    apply hmono
    apply div_le_div_of_nonneg_right _ hnq
    rw [counter_pred c hc (by omega), counter_pred c' (by omega) (by omega)]
    exact_mod_cast Nat.sub_le_sub_right hcc 1
  · rw [backoffWait_eq]
    norm_num [h0, hhalf]
  · intro c
    rw [backoffWait_eq]
    set r := max (min (fl ((((c + 4294967295) % 4294967296 : Nat) : ℚ)
      / (options.RetryLimit.Count : ℚ))) 1) 0 with hr
    have hr0 : 0 ≤ r := le_max_right _ _
    have hr1 : r ≤ 1 := max_le (min_le_right _ _) zero_le_one
    have hsq0 : 0 ≤ fl (r * r) := h0 ▸ hmono (mul_nonneg hr0 hr0)
    have hsq1 : fl (r * r) ≤ 1 := h1 ▸ hmono (by nlinarith)
    have hlo : (1 : ℚ) / 2 ≤ fl (1 / 2 + fl (r * r)) := by
      have := hmono (show (1 : ℚ) / 2 ≤ 1 / 2 + fl (r * r) by linarith)
      rwa [hhalf] at this
    have hhi : fl (1 / 2 + fl (r * r)) ≤ 3 / 2 := by
      have := hmono (show 1 / 2 + fl (r * r) ≤ (3 : ℚ) / 2 by linarith)
      rwa [h32] at this
    constructor
    · apply hmono
      apply mul_le_mul_of_nonneg_right _ hs.le
      apply hmono
      exact mul_le_mul_of_nonneg_left hlo hfb
    · apply hmono
      apply mul_le_mul_of_nonneg_right _ hs.le
      apply hmono
      exact mul_le_mul_of_nonneg_left hhi hfb
  · intro c hc hc32
    rw [backoffWait_eq, counter_pred c hc hc32]
    simp only [id]
    ring

/-- C7 (witness): the default options (backoff 500 ms, scale 2, limit count 10) under
exact arithmetic: the wait at counter 1 is 500 ms, the wait at counter 10 is at most
1.5 s. -/
theorem C7_backoff_wait_monotone_and_bounded_witness :
    retryWorker.backoffWait id defaultOptions 1 = 500000000 ∧
    retryWorker.backoffWait id defaultOptions 10 ≤ 1500000000 := by
  obtain ⟨_, h2, h3, _⟩ :=
    C7_backoff_wait_monotone_and_bounded id defaultOptions monotone_id rfl rfl rfl rfl
      (by decide) (by norm_num [defaultOptions]) (by decide) (by decide)
  refine ⟨h2.trans (by norm_num [defaultOptions]), (h3 10).2.trans ?_⟩
  norm_num [defaultOptions]

/-- C6 (amended).  For every backoff `b`, scale `s` and limit count `n >= 1`, the wait
computed by `tryRetry` at counter `n` (the last permitted retry) is, in exact arithmetic,
`b * (0.5 + ((n-1)/n)^2) * s`; for `b > 0` and `s > 0` this is strictly less than
`b * 1.5 * s`. -/
theorem C6_wait_at_last_retry (options : Options)
    (hn : 1 ≤ options.RetryLimit.Count) (hn32 : options.RetryLimit.Count < 4294967296) :
    retryWorker.backoffWait id options options.RetryLimit.Count
      = (options.RetryBackoff : ℚ) *
          (1 / 2 + ((((options.RetryLimit.Count : ℚ) - 1) / (options.RetryLimit.Count : ℚ))) ^ 2)
          * options.RetryBackoffScale ∧
    (0 < options.RetryBackoff → 0 < options.RetryBackoffScale →
      retryWorker.backoffWait id options options.RetryLimit.Count
        < (options.RetryBackoff : ℚ) * (3 / 2) * options.RetryBackoffScale) := by
  have hnq : (0 : ℚ) < (options.RetryLimit.Count : ℚ) := by exact_mod_cast hn
  have hcast : (((options.RetryLimit.Count - 1 : Nat) : ℚ))
      = (options.RetryLimit.Count : ℚ) - 1 := by
    rw [Nat.cast_sub hn]
    simp
  have hr0 : 0 ≤ ((options.RetryLimit.Count : ℚ) - 1) / (options.RetryLimit.Count : ℚ) := by
    apply div_nonneg _ hnq.le
    have : (1 : ℚ) ≤ (options.RetryLimit.Count : ℚ) := by exact_mod_cast hn
    linarith
  have hr1 : ((options.RetryLimit.Count : ℚ) - 1) / (options.RetryLimit.Count : ℚ) < 1 := by
    rw [div_lt_one hnq]
    linarith
  have heq : retryWorker.backoffWait id options options.RetryLimit.Count
      = (options.RetryBackoff : ℚ) *
          (1 / 2 + ((((options.RetryLimit.Count : ℚ) - 1) / (options.RetryLimit.Count : ℚ))) ^ 2)
          * options.RetryBackoffScale := by
    rw [backoffWait_eq, counter_pred _ hn hn32, hcast]
    simp only [id]
    rw [min_eq_left hr1.le, max_eq_left hr0]
    ring
  refine ⟨heq, ?_⟩
  intro hb hs
  rw [heq]
  have hbq : (0 : ℚ) < (options.RetryBackoff : ℚ) := by exact_mod_cast hb
  have hsq : (((options.RetryLimit.Count : ℚ) - 1) / (options.RetryLimit.Count : ℚ)) ^ 2 < 1 := by
    nlinarith
  apply mul_lt_mul_of_pos_right _ hs
  apply mul_lt_mul_of_pos_left _ hbq
  linarith

/-- C6 (witness): the default options, limit count 10. -/
theorem C6_wait_at_last_retry_witness :
    retryWorker.backoffWait id defaultOptions 10
      < (defaultOptions.RetryBackoff : ℚ) * (3 / 2) * defaultOptions.RetryBackoffScale :=
  (C6_wait_at_last_retry defaultOptions (by decide) (by decide)).2 (by decide)
    (by norm_num [defaultOptions])

/-- C6 (counterexample).  With the default options (backoff 500 ms, scale 2, limit count
10) the wait at counter 10 is 1.31 s, not `b * 1.5 * s` = 1.5 s; with the limit count 2
the wait at counter 2 is `b * 0.75 * s` = 0.75 s (`r` = 0.5: every `float64` operation of
the computation is exact), not 1.5 s. -/
theorem C6_counterexample :
    retryWorker.backoffWait id defaultOptions 10 = 1310000000 ∧
    (defaultOptions.RetryBackoff : ℚ) * (3 / 2) * defaultOptions.RetryBackoffScale
      = 1500000000 ∧
    retryWorker.backoffWait id
      { defaultOptions with RetryLimit := { Count := 2, Period := 30000000000 } } 2
      = 750000000 := by
  refine ⟨?_, ?_, ?_⟩
  · rw [backoffWait_eq]
    norm_num [defaultOptions]
  · norm_num [defaultOptions]
  · rw [backoffWait_eq]
    norm_num [defaultOptions]

/-! ## `retryWorker.Run`: the retry limit -/

theorem retryWorker.bump_fst (expected cur : Nat) :
    (retryWorker.bump expected cur).1 = cur := by
  unfold retryWorker.bump
  simp only
  split
  · rfl
  · rename_i h
    simp only [ne_eq, Decidable.not_not] at h
    exact h

theorem retryWorker.bump_snd (expected cur : Nat) :
    (retryWorker.bump expected cur).2
      = if (unpackErrorState expected).1 ≠ cur then 1
        else ((unpackErrorState expected).2 + 1) % 4294967296 := by
  unfold retryWorker.bump
  simp only
  split <;> simp

theorem retryWorker.tryRetry_true {retry r' : retryWorker} {err : Option GoError} {now : Int}
    {il : Interleaving} (h : retry.tryRetry err now il = some (true, r')) :
    ∃ cur, retry.options.RetryLimit.ToTicks now = some cur ∧
      (unpackErrorState retry.retryState).1 ≠ retryTickDead ∧
      (retryWorker.bump retry.retryState cur).2 ≤ retry.options.RetryLimit.Count ∧
      r'.options = retry.options ∧
      (unpackErrorState r'.retryState).2 = (retryWorker.bump retry.retryState cur).2 ∧
      ((unpackErrorState r'.retryState).1 = cur ∨
        (unpackErrorState r'.retryState).1 = retryTickDead) := by
  unfold retryWorker.tryRetry at h
  split at h
  · simp at h
  split at h
  · simp at h
  rename_i hctx hret
  cases il with
  | disabledBeforeLoad =>
    simp [retryWorker.disableRetries_dead] at h
  | disabledBeforeSwap =>
    simp only [if_neg (show Interleaving.disabledBeforeSwap ≠ Interleaving.disabledBeforeLoad by
      decide)] at h
    split at h
    · simp at h
    · split at h
      · simp at h
      · simp at h
  | waitDone c =>
    simp only [if_neg (show Interleaving.waitDone c ≠ Interleaving.disabledBeforeLoad by
      simp)] at h
    split at h
    · simp at h
    · split at h
      · simp at h
      · simp at h
        split at h <;> simp at h
  | waitCancel =>
    simp only [if_neg (show Interleaving.waitCancel ≠ Interleaving.disabledBeforeLoad by
      decide)] at h
    split at h
    · simp at h
    · split at h
      · simp at h
      · simp at h
        split at h <;> simp at h
  | waitTimer d =>
    simp only [if_neg (show Interleaving.waitTimer d ≠ Interleaving.disabledBeforeLoad by
      simp)] at h
    split at h
    · simp at h
    · rename_i htick
      split at h
      · simp at h
      · rename_i cur hcur
        have hcurlt := ToTicks_lt hcur
        have hb := bump_lt retry.retryState cur hcurlt
        simp at h
        split at h
        · simp at h
        · rename_i hcount
          simp at h
          subst h
          refine ⟨cur, hcur, htick, by omega, ?_, ?_, ?_⟩
          · cases d <;> simp [retryWorker.disableRetries_options]
          · cases d
            · simp [unpack_packErrorState _ _ hb.1 hb.2]
            · simp [retryWorker.disableRetries_counter, unpack_packErrorState _ _ hb.1 hb.2]
          · cases d
            · left
              simp only [Bool.false_eq_true, if_false]
              rw [unpack_packErrorState _ _ hb.1 hb.2]
              exact retryWorker.bump_fst _ _
            · right
              simp [retryWorker.disableRetries_dead]

theorem retryWorker.toDuration_backoffWait_nonneg (fl : ℚ → ℚ) (hfl : ∀ x, 0 ≤ x → 0 ≤ fl x)
    (options : Options) (hb : 0 ≤ options.RetryBackoff) (hs : 0 ≤ options.RetryBackoffScale)
    (c : Nat) : 0 ≤ retryWorker.toDuration (retryWorker.backoffWait fl options c) := by
  have hbq : (0 : ℚ) ≤ (options.RetryBackoff : ℚ) := by exact_mod_cast hb
  have h : 0 ≤ retryWorker.backoffWait fl options c := by
    rw [backoffWait_eq]
    apply hfl
    apply mul_nonneg _ hs
    apply hfl
    apply mul_nonneg (hfl _ hbq)
    apply hfl
    apply add_nonneg (by norm_num)
    apply hfl
    exact mul_self_nonneg _
  unfold retryWorker.toDuration
  rw [if_pos h]
  exact Int.floor_nonneg.2 h

theorem ToTicks_nonneg {d : TimerRate} {t : Int} {cur : Nat} (hP : 0 < d.Period) (ht : 0 ≤ t)
    (h : d.ToTicks t = some cur) : cur = ((t / d.Period) % 4294967296).toNat := by
  unfold TimerRate.ToTicks at h
  rw [if_neg hP.ne', Int.tdiv_eq_ediv ht hP.le] at h
  simpa using h.symm

theorem retryWorker.Run_grants_bound (fl : ℚ → ℚ) (hfl : ∀ x, 0 ≤ x → 0 ≤ fl x)
    (script : List retryWorker.Attempt) :
    ∀ (retry : retryWorker) (clock : Int) (log : retryWorker.RunLog),
      0 < retry.options.RetryLimit.Period →
      retry.options.RetryLimit.Count < 4294967295 →
      0 ≤ retry.options.RetryBackoff → 0 ≤ retry.options.RetryBackoffScale →
      0 ≤ clock →
      (unpackErrorState retry.retryState).2 ≤ retry.options.RetryLimit.Count →
      retryWorker.Run fl retry clock script = some log →
      (∀ g ∈ log.grants, clock ≤ g) ∧
      log.launches.length = log.grants.length + 1 ∧
      ∀ k : Int,
        List.countP (fun t => decide (t / retry.options.RetryLimit.Period = k)) log.grants
          + (if (unpackErrorState retry.retryState).1 = retryTickDead ∨
                (clock / retry.options.RetryLimit.Period = k ∧
                  (unpackErrorState retry.retryState).1 = (k % 4294967296).toNat)
              then (unpackErrorState retry.retryState).2 else 0)
          ≤ retry.options.RetryLimit.Count := by
  induction script with
  | nil =>
    intro retry clock log _ _ _ _ _ hc hrun
    simp only [retryWorker.Run, Option.some.injEq] at hrun
    subst hrun
    refine ⟨by simp, by simp, ?_⟩
    intro k
    simp only [List.countP_nil, Nat.zero_add]
    split <;> omega
  | cons a rest ih =>
    intro retry clock log hP hcount hb hs hclock hc hrun
    have hnone : ∀ log : retryWorker.RunLog, log.grants = [] → log.launches.length = 1 →
        (∀ g ∈ log.grants, clock ≤ g) ∧
        log.launches.length = log.grants.length + 1 ∧
        ∀ k : Int,
          List.countP (fun t => decide (t / retry.options.RetryLimit.Period = k)) log.grants
            + (if (unpackErrorState retry.retryState).1 = retryTickDead ∨
                  (clock / retry.options.RetryLimit.Period = k ∧
                    (unpackErrorState retry.retryState).1 = (k % 4294967296).toNat)
                then (unpackErrorState retry.retryState).2 else 0)
            ≤ retry.options.RetryLimit.Count := by
      intro log hg hl
      rw [hg, hl]
      refine ⟨by simp, by simp, ?_⟩
      intro k
      simp only [List.countP_nil, Nat.zero_add]
      split <;> omega
    simp only [retryWorker.Run] at hrun
    cases hout : a.outcome with
    | retrierDone cause =>
      simp only [hout, Option.some.injEq] at hrun
      subst hrun
      exact hnone _ rfl rfl
    | ended err workStatus =>
      simp only [hout] at hrun
      cases htr : retryWorker.tryRetry
          { options := retry.options, cause := retry.cause, retryState := retry.retryState,
            retryCancelClosed := retry.retryCancelClosed, status := workStatus }
          err (clock + a.ranFor) a.il with
      | none => simp [htr] at hrun
      | some p =>
        obtain ⟨b, r'⟩ := p
        cases b with
        | false =>
          simp only [htr, Option.some.injEq] at hrun
          subst hrun
          exact hnone _ rfl rfl
        | true =>
          simp only [htr] at hrun
          obtain ⟨cur, hcur, htick, hle, hopt, hsnd, hfst⟩ := retryWorker.tryRetry_true htr
          simp only at hcur htick hle hopt hsnd hfst
          have hnow : 0 ≤ clock + (a.ranFor : Int) := by omega
          have hwait := retryWorker.toDuration_backoffWait_nonneg fl hfl r'.options
            (hopt ▸ hb) (hopt ▸ hs) (unpackErrorState r'.retryState).2
          cases hrest : retryWorker.Run fl r'
              (clock + a.ranFor + retryWorker.toDuration
                (retryWorker.backoffWait fl r'.options (unpackErrorState r'.retryState).2))
              rest with
          | none => simp [hrest] at hrun
          | some log' =>
            simp only [hrest, Option.some.injEq] at hrun
            subst hrun
            obtain ⟨ih1, ih2, ih3⟩ := ih r' _ log' (hopt ▸ hP) (hopt ▸ hcount) (hopt ▸ hb)
              (hopt ▸ hs) (by omega) (by rw [hsnd, hopt]; exact hle) hrest
            rw [hopt] at ih1 ih3 hwait
            have hcurk := ToTicks_nonneg hP hnow hcur
            have hbs := retryWorker.bump_snd retry.retryState cur
            refine ⟨?_, ?_, ?_⟩
            · intro g hg
              simp only [List.mem_cons] at hg
              rcases hg with rfl | hg
              · omega
              · have := ih1 g hg
                omega
            · simp [ih2]
            · intro k
              have hmono : ∀ g ∈ log'.grants,
                  (clock + (a.ranFor : Int)) / retry.options.RetryLimit.Period
                    ≤ g / retry.options.RetryLimit.Period := by
                intro g hg
                apply Int.ediv_le_ediv hP
                have := ih1 g hg
                omega
              have hclk : clock / retry.options.RetryLimit.Period
                  ≤ (clock + (a.ranFor : Int)) / retry.options.RetryLimit.Period :=
                Int.ediv_le_ediv hP (by omega)
              have hmonoT : ∀ g ∈ log'.grants,
                  (clock + (a.ranFor : Int) + retryWorker.toDuration
                      (retryWorker.backoffWait fl retry.options (unpackErrorState r'.retryState).2))
                      / retry.options.RetryLimit.Period
                    ≤ g / retry.options.RetryLimit.Period := by
                intro g hg
                exact Int.ediv_le_ediv hP (ih1 g hg)
              have hnowT : (clock + (a.ranFor : Int)) / retry.options.RetryLimit.Period
                  ≤ (clock + (a.ranFor : Int) + retryWorker.toDuration
                      (retryWorker.backoffWait fl retry.options (unpackErrorState r'.retryState).2))
                      / retry.options.RetryLimit.Period :=
                Int.ediv_le_ediv hP (by omega)
              have ihk := ih3 k
              have hzero : ∀ q : Int, k < q → (∀ g ∈ log'.grants,
                  q ≤ g / retry.options.RetryLimit.Period) →
                  List.countP (fun t => decide (t / retry.options.RetryLimit.Period = k))
                    log'.grants = 0 := by
                intro q hq hall
                rw [List.countP_eq_zero]
                intro g hg
                have := hall g hg
                simp only [decide_eq_true_eq]
                omega
              have hind : (if (unpackErrorState retry.retryState).1 = retryTickDead ∨
                    (clock / retry.options.RetryLimit.Period = k ∧
                      (unpackErrorState retry.retryState).1 = (k % 4294967296).toNat)
                  then (unpackErrorState retry.retryState).2 else 0)
                  ≤ (unpackErrorState retry.retryState).2 := by
                split <;> omega
              simp only [List.countP_cons]
              by_cases hk : (clock + (a.ranFor : Int)) / retry.options.RetryLimit.Period = k
              · have hcur' : cur = (k % 4294967296).toNat := by rw [hcurk, hk]
                have hone : (if (unpackErrorState retry.retryState).1 = retryTickDead ∨
                      (clock / retry.options.RetryLimit.Period = k ∧
                        (unpackErrorState retry.retryState).1 = (k % 4294967296).toNat)
                    then (unpackErrorState retry.retryState).2 else 0) + 1
                    ≤ (unpackErrorState r'.retryState).2 := by
                  rw [hsnd, hbs]
                  by_cases hτ : (unpackErrorState retry.retryState).1 = cur
                  · have e1 : (if (unpackErrorState retry.retryState).1 ≠ cur then 1
                        else ((unpackErrorState retry.retryState).2 + 1) % 4294967296)
                        = ((unpackErrorState retry.retryState).2 + 1) % 4294967296 :=
                      if_neg (not_not.2 hτ)
                    rw [e1]
                    omega
                  · have e1 : (if (unpackErrorState retry.retryState).1 ≠ cur then 1
                        else ((unpackErrorState retry.retryState).2 + 1) % 4294967296)
                        = 1 := if_pos hτ
                    rw [e1, if_neg]
                    rintro (h | ⟨_, h⟩)
                    · exact htick h
                    · exact hτ (h.trans hcur'.symm)
                simp only [hk, decide_True, if_true]
                by_cases hT : (clock + (a.ranFor : Int) + retryWorker.toDuration
                      (retryWorker.backoffWait fl retry.options (unpackErrorState r'.retryState).2))
                      / retry.options.RetryLimit.Period = k
                · rw [if_pos] at ihk
                  · omega
                  · rcases hfst with h | h
                    · right
                      exact ⟨hT, h.trans hcur'⟩
                    · left
                      exact h
                · rw [hzero _ (lt_of_le_of_ne (hk ▸ hnowT) (Ne.symm hT)) hmonoT]
                  rw [hsnd] at hone
                  omega
              · simp only [hk, decide_False, Bool.false_eq_true, if_false, Nat.add_zero]
                rcases lt_or_gt_of_ne hk with hlt | hgt
                · rw [if_neg]
                  · omega
                  · rintro (h | ⟨h, _⟩)
                    · exact htick h
                    · omega
                · rw [hzero _ hgt hmono]
                  omega

/-- C4 (amended).  For every sequence of failures of a task run under a fresh retryWorker
(non-negative backoff and scale, positive period, clock readings after the epoch): the first
launch and one launch per granted retry are all the attempts, and the retries granted while
the clock reads one tick, that is within one bucket `[k * period, (k+1) * period)` of the
tick grid, number at most `retry_limit.count`.  (A sliding window of length
`retry_limit.period` that straddles a bucket boundary can hold more than `count + 1`
attempts.) -/
theorem C4_retries_granted_per_tick_bucket (fl : ℚ → ℚ) (options : Options) (clock : Int)
    (script : List retryWorker.Attempt) (log : retryWorker.RunLog)
    (hfl : ∀ x, 0 ≤ x → 0 ≤ fl x)
    (hP : 0 < options.RetryLimit.Period) (hcount : options.RetryLimit.Count < 4294967295)
    (hb : 0 ≤ options.RetryBackoff) (hs : 0 ≤ options.RetryBackoffScale)
    (hclock : 0 ≤ clock)
    (hrun : retryWorker.Run fl (newRetryWorker options) clock script = some log) :
    log.launches.length = log.grants.length + 1 ∧
    ∀ k : Int,
      List.countP (fun t => decide (t / options.RetryLimit.Period = k)) log.grants
        ≤ options.RetryLimit.Count := by
  obtain ⟨_, h2, h3⟩ := retryWorker.Run_grants_bound fl hfl script (newRetryWorker options)
    clock log hP hcount hb hs hclock (by simp [newRetryWorker, unpackErrorState]) hrun
  refine ⟨h2, fun k => ?_⟩
  have := h3 k
  simp only [newRetryWorker] at this
  omega

/-- C4 (witness): the default options (limit `10/30s`, backoff 500 ms, scale 2); the first
launch is 23 s into a bucket and every attempt fails at once.  Of the 20 retries granted,
10 fall into that bucket and 10 into the next. -/
theorem C4_retries_granted_per_tick_bucket_witness :
    (retryWorker.Run id (newRetryWorker defaultOptions) 23000000000
      (List.replicate 21
        { ranFor := 0,
          outcome := retryWorker.AttemptEnd.ended (some (GoError.new "boom")) Status.Starting,
          il := Interleaving.waitTimer false })).map
      (fun log => (log.launches.length, log.grants.length,
        List.countP (fun t => decide (t / defaultOptions.RetryLimit.Period = 0)) log.grants,
        decide (List.countP (fun t => decide (t / defaultOptions.RetryLimit.Period = 0))
          log.grants ≤ defaultOptions.RetryLimit.Count)))
      = some (21, 20, 10, true) := by
  cases h : retryWorker.Run id (newRetryWorker defaultOptions) 23000000000
      (List.replicate 21
        { ranFor := 0,
          outcome := retryWorker.AttemptEnd.ended (some (GoError.new "boom")) Status.Starting,
          il := Interleaving.waitTimer false }) with
  | none => exact absurd h (by decide!)
  | some log =>
    have hthm := C4_retries_granted_per_tick_bucket id defaultOptions 23000000000 _ log
      (fun _ hx => hx) (by decide) (by decide) (by decide) (by decide!) (by decide) h
    have hlen : log.launches.length = 21 := by
      have : (retryWorker.Run id (newRetryWorker defaultOptions) 23000000000
        (List.replicate 21
          { ranFor := 0,
            outcome := retryWorker.AttemptEnd.ended (some (GoError.new "boom")) Status.Starting,
            il := Interleaving.waitTimer false })).map (fun log => log.launches.length)
          = some 21 := by decide!
      rw [h] at this
      simpa using this
    have hcnt : List.countP (fun t => decide (t / defaultOptions.RetryLimit.Period = 0))
        log.grants = 10 := by
      have : (retryWorker.Run id (newRetryWorker defaultOptions) 23000000000
        (List.replicate 21
          { ranFor := 0,
            outcome := retryWorker.AttemptEnd.ended (some (GoError.new "boom")) Status.Starting,
            il := Interleaving.waitTimer false })).map
          (fun log => List.countP
            (fun t => decide (t / defaultOptions.RetryLimit.Period = 0)) log.grants)
          = some 10 := by decide!
      rw [h] at this
      simpa using this
    have hg : log.grants.length = 20 := by
      have := hthm.1
      omega
    simp only [Option.map_some', hlen, hg, hcnt, Option.some.injEq, Prod.mk.injEq, true_and]
    have hle := hthm.2 0
    rw [hcnt] at hle
    exact decide_eq_true hle

/-- C4 (counterexample).  With `retry_limit: 1/30s` (count 1, so at most 2 attempts per
window are claimed) and the default backoff: the task is first launched at 29.0 s, fails at
once, is relaunched at 29.5 s, fails at 30.0 s in the next tick, where the counter starts
again, and is relaunched at 30.5 s: 3 attempts start within the window of 30 s that begins
at 29 s.  With the default `10/30s`, a first launch at 23 s and immediate failures, 21
attempts start within the window of 30 s that begins at 23 s, where 11 are claimed. -/
theorem C4_counterexample :
    ((retryWorker.Run id
        (newRetryWorker
          { defaultOptions with RetryLimit := { Count := 1, Period := 30000000000 } })
        29000000000
        [{ ranFor := 0,
           outcome := retryWorker.AttemptEnd.ended (some (GoError.new "boom")) Status.Starting,
           il := Interleaving.waitTimer false },
         { ranFor := 500000000,
           outcome := retryWorker.AttemptEnd.ended (some (GoError.new "boom")) Status.Starting,
           il := Interleaving.waitTimer false },
         { ranFor := 0,
           outcome := retryWorker.AttemptEnd.ended (some (GoError.new "boom")) Status.Starting,
           il := Interleaving.waitTimer false }]).map
      (fun log => (log.launches,
        (log.launches.filter
          (fun t => decide (29000000000 ≤ t ∧ t < 29000000000 + 30000000000))).length))
      = some ([29000000000, 29500000000, 30500000000], 3)) ∧
    ((retryWorker.Run id (newRetryWorker defaultOptions) 23000000000
        (List.replicate 21
          { ranFor := 0,
            outcome := retryWorker.AttemptEnd.ended (some (GoError.new "boom")) Status.Starting,
            il := Interleaving.waitTimer false })).map
      (fun log => ((log.launches.filter
          (fun t => decide (23000000000 ≤ t ∧ t < 23000000000 + 30000000000))).length,
        log.returned))
      = some (21, some (some (GoError.new "boom")))) := by
  decide!

/-! ## `Pipe.Launch` -/

theorem Pipe.cleanLog_succ (i : Nat) :
    Pipe.cleanLog (i + 1) = Pipe.cleanLog i ++ [(i, none)] := by
  simp [Pipe.cleanLog, List.range_succ]

theorem Pipe.OrderedInv_new (n : Nat) (hn : 1 ≤ n) : Pipe.OrderedInv n (newPipeController n) := by
  left
  refine ⟨0, by omega, ?_⟩
  have : ¬ (0 = n) := by omega
  simp [newPipeController, Pipe.cleanLog, this]

theorem Pipe.OrderedInv_step (n : Nat) (pipe pipe' : pipeController) (ev : PipeEvent)
    (hev : ev.isParentCancel = false) (hinv : Pipe.OrderedInv n pipe)
    (hstep : Pipe.step PipeMode.PipeOrdered n pipe ev = some pipe') :
    Pipe.OrderedInv n pipe' := by
  rcases hinv with ⟨i, hi, hended, hleft, hsp, hw, hl, hc, hpc⟩ |
    ⟨i, hi, hended, hleft, hsp, hw, hl, hc, hpc⟩ |
    ⟨i, hi, hended, hleft, hsp, hw, hl, hc, hpc⟩ |
    ⟨i, e, hi, hended, hsp, hw, hl, hc, hpc⟩
  · -- no goroutine is active, the subtasks below `i` ended without error
    cases ev with
    | parentCancel c => simp [PipeEvent.isParentCancel] at hev
    | start j => simp [Pipe.step, hsp] at hstep
    | exit j err => simp [Pipe.step, hw] at hstep
    | done j => simp [Pipe.step, hw] at hstep
    | launcher =>
      rcases hpc with hpc | ⟨hin, hpc⟩ | ⟨hin, hpc | hpc⟩
      · simp only [Pipe.step, hpc] at hstep
        by_cases hlt : i < n
        · have hne : ¬ i = n := by omega
          simp [hlt, hc, hne] at hstep
          subst hstep
          left
          refine ⟨i, hi, ?_, ?_, ?_, ?_, ?_, ?_, ?_⟩ <;> simp_all
        · have heq : i = n := by omega
          simp [hlt] at hstep
          subst hstep
          left
          refine ⟨i, hi, ?_, ?_, ?_, ?_, ?_, ?_, ?_⟩ <;> simp_all
      · have hne : ¬ i = n := by omega
        simp [Pipe.step, hpc, pipeController.wg, hsp, hw, hc, hne] at hstep
        subst hstep
        right
        left
        refine ⟨i, hin, ?_, ?_, ?_, ?_, ?_, ?_, ?_⟩ <;> simp_all [Pipe.launcherAhead]
      · simp [Pipe.step, hpc, hc, hin, Cause, NotOk, Pipe.result] at hstep
        subst hstep
        left
        refine ⟨i, hi, ?_, ?_, ?_, ?_, ?_, ?_, ?_⟩ <;> simp_all
      · simp [Pipe.step, hpc] at hstep
  · -- the goroutine of subtask `i` is created
    cases ev with
    | parentCancel c => simp [PipeEvent.isParentCancel] at hev
    | exit j err => simp [Pipe.step, hw] at hstep
    | done j => simp [Pipe.step, hw] at hstep
    | start j =>
      simp [Pipe.step, hsp] at hstep
      obtain ⟨rfl, hstep⟩ := hstep
      subst hstep
      right
      right
      left
      refine ⟨j, hi, ?_, ?_, ?_, ?_, ?_, ?_, ?_⟩ <;> simp_all [List.range_succ]
    | launcher =>
      rcases hpc with hpc | ⟨hin, hpc⟩ | ⟨hin, hpc⟩
      · simp only [Pipe.step, hpc] at hstep
        by_cases hlt : i + 1 < n
        · simp [hlt, hc] at hstep
          subst hstep
          right
          left
          refine ⟨i, hi, ?_, ?_, ?_, ?_, ?_, ?_, ?_⟩ <;> simp_all [Pipe.launcherAhead]
        · have heq : i + 1 = n := by omega
          simp [hlt] at hstep
          subst hstep
          right
          left
          refine ⟨i, hi, ?_, ?_, ?_, ?_, ?_, ?_, ?_⟩ <;> simp_all [Pipe.launcherAhead]
      · simp [Pipe.step, hpc, pipeController.wg, hsp, hw, PipeMode.serialize] at hstep
      · simp [Pipe.step, hpc, hc] at hstep
  · -- subtask `i` is launched and has not ended
    cases ev with
    | parentCancel c => simp [PipeEvent.isParentCancel] at hev
    | start j => simp [Pipe.step, hsp] at hstep
    | done j => simp [Pipe.step, hw, hc] at hstep
    | exit j err =>
      simp [Pipe.step, hw] at hstep
      obtain ⟨rfl, hstep⟩ := hstep
      subst hstep
      cases err with
      | none =>
        left
        have hz : (pipe.left - 1 = 0) ↔ j + 1 = n := by omega
        refine ⟨j + 1, by omega, ?_, ?_, ?_, ?_, ?_, ?_, ?_⟩
        · simp [hended, Pipe.cleanLog_succ]
        · simp [hleft]
          omega
        · simp [hsp]
        · simp
        · simp [hl]
        · simp [PipeMode.«end», hc, hz, Cancel, OrOk]
        · simp only
          rcases hpc with hpc | ⟨hin, hpc⟩ | ⟨hin, hpc⟩
          · exact Or.inl hpc
          · exact Or.inr (Or.inl ⟨hin, hpc⟩)
          · exact Or.inr (Or.inr ⟨hin, Or.inl hpc⟩)
      | some e =>
        right
        right
        right
        refine ⟨j, e, hi, ?_, ?_, ?_, ?_, ?_, ?_⟩
        · simp [hended]
        · simp [hsp]
        · simp
        · simp [hl]
        · simp [PipeMode.«end», hc, Cancel, OrOk]
        · simp only
          rcases hpc with hpc | ⟨hin, hpc⟩ | ⟨hin, hpc⟩
          · exact Or.inl hpc
          · exact Or.inr (Or.inl hpc)
          · exact Or.inr (Or.inr (Or.inr (Or.inl hpc)))
    | launcher =>
      rcases hpc with hpc | ⟨hin, hpc⟩ | ⟨hin, hpc⟩
      · simp only [Pipe.step, hpc] at hstep
        by_cases hlt : i + 1 < n
        · simp [hlt, hc] at hstep
          subst hstep
          right
          right
          left
          refine ⟨i, hi, ?_, ?_, ?_, ?_, ?_, ?_, ?_⟩ <;> simp_all [Pipe.launcherAhead]
        · have heq : i + 1 = n := by omega
          simp [hlt] at hstep
          subst hstep
          right
          right
          left
          refine ⟨i, hi, ?_, ?_, ?_, ?_, ?_, ?_, ?_⟩ <;> simp_all [Pipe.launcherAhead]
      · simp [Pipe.step, hpc, pipeController.wg, hsp, hw, PipeMode.serialize] at hstep
      · simp [Pipe.step, hpc, hc] at hstep
  · -- subtask `i` ended with the error `e`
    cases ev with
    | parentCancel c => simp [PipeEvent.isParentCancel] at hev
    | start j => simp [Pipe.step, hsp] at hstep
    | exit j err => simp [Pipe.step, hw] at hstep
    | done j => simp [Pipe.step, hw] at hstep
    | launcher =>
      right
      right
      right
      rcases hpc with hpc | hpc | hpc | hpc | hpc
      · simp only [Pipe.step, hpc] at hstep
        by_cases hlt : i + 1 < n <;> simp [hlt, hc] at hstep <;> subst hstep <;>
          (refine ⟨i, e, hi, ?_, ?_, ?_, ?_, ?_, ?_⟩ <;> simp_all)
      · simp [Pipe.step, hpc, pipeController.wg, hsp, hw, hc] at hstep
        subst hstep
        refine ⟨i, e, hi, ?_, ?_, ?_, ?_, ?_, ?_⟩ <;> simp_all
      · simp only [Pipe.step, hpc] at hstep
        by_cases hlt : i + 2 < n <;> simp [hlt, hc] at hstep <;> subst hstep <;>
          (refine ⟨i, e, hi, ?_, ?_, ?_, ?_, ?_, ?_⟩ <;> simp_all)
      · simp [Pipe.step, hpc, hc, Pipe.result, Cause] at hstep
        subst hstep
        refine ⟨i, e, hi, ?_, ?_, ?_, ?_, ?_, ?_⟩ <;> simp_all
      · simp [Pipe.step, hpc] at hstep

theorem Pipe.OrderedInv_run (n : Nat) (es : List PipeEvent) :
    ∀ (pipe pipe' : pipeController), (∀ ev ∈ es, ev.isParentCancel = false) →
      Pipe.OrderedInv n pipe → Pipe.run PipeMode.PipeOrdered n pipe es = some pipe' →
      Pipe.OrderedInv n pipe' := by
  induction es with
  | nil =>
    intro pipe pipe' _ hinv hrun
    simp only [Pipe.run, Option.some.injEq] at hrun
    exact hrun ▸ hinv
  | cons ev es ih =>
    intro pipe pipe' hes hinv hrun
    simp only [Pipe.run] at hrun
    cases hstep : Pipe.step PipeMode.PipeOrdered n pipe ev with
    | none => simp [hstep] at hrun
    | some mid =>
      simp only [hstep] at hrun
      exact ih mid pipe' (fun ev' h => hes ev' (List.mem_cons_of_mem _ h))
        (Pipe.OrderedInv_step n pipe mid ev (hes ev (List.mem_cons_self _ _)) hinv hstep) hrun

theorem Pipe.mem_cleanLog {i k : Nat} {r : Option GoError} :
    (k, r) ∈ Pipe.cleanLog i ↔ k < i ∧ r = none := by
  simp only [Pipe.cleanLog, List.mem_map, List.mem_range, Prod.mk.injEq]
  constructor
  · rintro ⟨j, hj, rfl, rfl⟩
    exact ⟨hj, rfl⟩
  · rintro ⟨hk, rfl⟩
    exact ⟨k, hk, rfl, rfl⟩

/-- What the invariant of the ordered pipe says about the logs and the result. -/
theorem Pipe.OrderedInv_safety (n : Nat) (pipe : pipeController)
    (hinv : Pipe.OrderedInv n pipe) :
    (∃ m, m ≤ n ∧ pipe.launched = List.range m) ∧
    (∀ i ∈ pipe.launched, ∀ j, j < i → (j, none) ∈ pipe.ended) ∧
    (∀ k e, (k, some e) ∈ pipe.ended →
      (∀ i ∈ pipe.launched, i ≤ k) ∧
      ∀ r, pipe.pc = LauncherPc.returned r → r = NotOk (some e)) ∧
    (∀ r, pipe.pc = LauncherPc.returned r → (∀ k e, (k, some e) ∉ pipe.ended) →
      pipe.launched = List.range n ∧ r = none) := by
  rcases hinv with ⟨i, hi, hended, hleft, hsp, hw, hl, hc, hpc⟩ |
    ⟨i, hi, hended, hleft, hsp, hw, hl, hc, hpc⟩ |
    ⟨i, hi, hended, hleft, hsp, hw, hl, hc, hpc⟩ |
    ⟨i, e, hi, hended, hsp, hw, hl, hc, hpc⟩
  · refine ⟨⟨i, hi, hl⟩, ?_, ?_, ?_⟩
    · intro x hx j hj
      rw [hl, List.mem_range] at hx
      rw [hended]
      exact Pipe.mem_cleanLog.2 ⟨by omega, rfl⟩
    · intro k e hk
      rw [hended] at hk
      simpa using (Pipe.mem_cleanLog.1 hk).2
    · intro r hr _
      rw [hr] at hpc
      rcases hpc with hpc | ⟨_, hpc⟩ | ⟨hin, hpc | hpc⟩
      · cases hpc
      · cases hpc
      · cases hpc
      · cases hpc
        exact ⟨hin ▸ hl, rfl⟩
  · refine ⟨⟨i, hi.le, hl⟩, ?_, ?_, ?_⟩
    · intro x hx j hj
      rw [hl, List.mem_range] at hx
      rw [hended]
      exact Pipe.mem_cleanLog.2 ⟨by omega, rfl⟩
    · intro k e hk
      rw [hended] at hk
      simpa using (Pipe.mem_cleanLog.1 hk).2
    · intro r hr _
      rw [hr] at hpc
      rcases hpc with hpc | ⟨_, hpc⟩ | ⟨_, hpc⟩ <;> cases hpc
  · refine ⟨⟨i + 1, hi, hl⟩, ?_, ?_, ?_⟩
    · intro x hx j hj
      rw [hl, List.mem_range] at hx
      rw [hended]
      exact Pipe.mem_cleanLog.2 ⟨by omega, rfl⟩
    · intro k e hk
      rw [hended] at hk
      simpa using (Pipe.mem_cleanLog.1 hk).2
    · intro r hr _
      rw [hr] at hpc
      rcases hpc with hpc | ⟨_, hpc⟩ | ⟨_, hpc⟩ <;> cases hpc
  · refine ⟨⟨i + 1, hi, hl⟩, ?_, ?_, ?_⟩
    · intro x hx j hj
      rw [hl, List.mem_range] at hx
      rw [hended, List.mem_append]
      exact Or.inl (Pipe.mem_cleanLog.2 ⟨by omega, rfl⟩)
    · intro k e' hk
      rw [hended, List.mem_append] at hk
      rcases hk with hk | hk
      · simpa using (Pipe.mem_cleanLog.1 hk).2
      · simp only [List.mem_singleton, Prod.mk.injEq, Option.some.injEq] at hk
        obtain ⟨rfl, rfl⟩ := hk
        refine ⟨?_, ?_⟩
        · intro x hx
          rw [hl, List.mem_range] at hx
          omega
        · intro r hr
          rw [hr] at hpc
          rcases hpc with hpc | hpc | hpc | hpc | hpc <;> cases hpc
          rfl
    · intro r _ hno
      exact absurd (by rw [hended]; simp) (hno i e)

/-- An ordered pipe whose parent scope is not cancelled never blocks while its subtasks
deliver their results: in every reachable state the launcher has returned, or it can take
a step, or the goroutine of some subtask can launch it, or it can receive whatever result
the subtask delivers. -/
theorem Pipe.OrderedInv_progress (n : Nat) (pipe : pipeController)
    (hinv : Pipe.OrderedInv n pipe) :
    (∃ r, pipe.pc = LauncherPc.returned r) ∨
    (Pipe.step PipeMode.PipeOrdered n pipe PipeEvent.launcher).isSome = true ∨
    (∃ i, (Pipe.step PipeMode.PipeOrdered n pipe (PipeEvent.start i)).isSome = true) ∨
    (∃ i, ∀ err, (Pipe.step PipeMode.PipeOrdered n pipe (PipeEvent.exit i err)).isSome = true) := by
  rcases hinv with ⟨i, hi, hended, hleft, hsp, hw, hl, hc, hpc⟩ |
    ⟨i, hi, hended, hleft, hsp, hw, hl, hc, hpc⟩ |
    ⟨i, hi, hended, hleft, hsp, hw, hl, hc, hpc⟩ |
    ⟨i, e, hi, hended, hsp, hw, hl, hc, hpc⟩
  · rcases hpc with hpc | ⟨hin, hpc⟩ | ⟨hin, hpc | hpc⟩
    · right
      left
      simp only [Pipe.step, hpc]
      split <;> [split; skip] <;> rfl
    · right
      left
      simp [Pipe.step, hpc, pipeController.wg, hsp, hw]
      split <;> rfl
    · right
      left
      simp [Pipe.step, hpc, hc, hin]
    · exact Or.inl ⟨none, hpc⟩
  · right
    right
    left
    exact ⟨i, by simp [Pipe.step, hsp]⟩
  · right
    right
    right
    exact ⟨i, fun err => by simp [Pipe.step, hw]⟩
  · rcases hpc with hpc | hpc | hpc | hpc | hpc
    · right
      left
      simp only [Pipe.step, hpc]
      split <;> [split; skip] <;> rfl
    · right
      left
      simp [Pipe.step, hpc, pipeController.wg, hsp, hw, hc]
    · right
      left
      simp only [Pipe.step, hpc]
      split <;> [split; skip] <;> rfl
    · right
      left
      simp [Pipe.step, hpc, hc]
    · exact Or.inl ⟨_, hpc⟩

theorem Pipe.orderedSchedule_noParentCancel (results : List (Option GoError)) :
    ∀ i, ∀ ev ∈ Pipe.orderedSchedule i results, ev.isParentCancel = false := by
  induction results with
  | nil =>
    intro i ev hev
    simp only [Pipe.orderedSchedule, List.mem_cons, List.mem_singleton, List.not_mem_nil,
      or_false] at hev
    rcases hev with rfl | rfl <;> rfl
  | cons r rest ih =>
    intro i ev hev
    cases r with
    | none =>
      simp only [Pipe.orderedSchedule, List.cons_append, List.nil_append, List.mem_cons] at hev
      rcases hev with rfl | rfl | rfl | rfl | hev
      · rfl
      · rfl
      · rfl
      · rfl
      · exact ih (i + 1) ev hev
    | some e =>
      simp only [Pipe.orderedSchedule, List.mem_cons, List.mem_singleton, List.not_mem_nil,
        or_false] at hev
      rcases hev with rfl | rfl | rfl | rfl | rfl | rfl <;> rfl

/-- The schedule `orderedSchedule` is accepted from the state in which the subtasks below
`i` have ended without error, and ends with the launcher returned. -/
theorem Pipe.orderedSchedule_returns (n : Nat) (hn : 1 ≤ n) (results : List (Option GoError)) :
    ∀ i, i + results.length = n →
      ∃ pipe, Pipe.run PipeMode.PipeOrdered n
          { cause := if i = n then some GoError.errOk else none, left := (n : Int) - i,
            pc := LauncherPc.top i, spawned := [], waiting := [], launched := List.range i,
            ended := Pipe.cleanLog i }
          (Pipe.orderedSchedule i results) = some pipe ∧
        pipe.pc = LauncherPc.returned (NotOk (results.find? Option.isSome).join) ∧
        pipe.launched
          = List.range (i + min results.length ((results.takeWhile Option.isNone).length + 1)) := by
  induction results with
  | nil =>
    intro i hi
    simp only [List.length_nil, Nat.add_zero] at hi
    subst hi
    have hrun : Pipe.run PipeMode.PipeOrdered i
        { cause := if i = i then some GoError.errOk else none, left := (i : Int) - i,
          pc := LauncherPc.top i, spawned := [], waiting := [], launched := List.range i,
          ended := Pipe.cleanLog i }
        (Pipe.orderedSchedule i [])
        = some { cause := some GoError.errOk, left := (i : Int) - i,
                 pc := LauncherPc.returned none, spawned := [], waiting := [],
                 launched := List.range i, ended := Pipe.cleanLog i } := by
      simp [Pipe.orderedSchedule, Pipe.run, Pipe.step, Pipe.result, Cause, NotOk]
    exact ⟨_, hrun, by simp [NotOk], by simp⟩
  | cons r rest ih =>
    intro i hi
    simp only [List.length_cons] at hi
    have hlt : i < n := by omega
    have hne : ¬ i = n := by omega
    cases r with
    | none =>
      obtain ⟨pipe, hrun, hpc, hl⟩ := ih (i + 1) (by omega)
      refine ⟨pipe, ?_, ?_, ?_⟩
      · have hz : ((n : Int) - i - 1 = 0) ↔ i + 1 = n := by omega
        simp only [Pipe.orderedSchedule, List.cons_append, List.nil_append, Pipe.run, Pipe.step,
          hlt, hne, if_true, if_false, Option.isSome_none, Bool.false_eq_true,
          PipeMode.serialize, pipeController.wg, List.length_nil, bne_self_eq_false,
          Bool.and_false, Option.isNone_none, List.nil_append, List.mem_singleton,
          List.erase_cons_head, PipeMode.«end», ne_eq, not_true_eq_false, hz,
          ← List.range_succ, ← Pipe.cleanLog_succ]
        rw [← hrun]
        congr 2
        by_cases h : i + 1 = n <;> simp [h, Cancel, OrOk] <;> omega
      · simpa using hpc
      · rw [hl]
        congr 1
        simp only [List.length_cons, List.takeWhile_cons, Option.isNone_none, if_true]
        omega
    | some e =>
      have hrun : Pipe.run PipeMode.PipeOrdered n
          { cause := if i = n then some GoError.errOk else none, left := (n : Int) - i,
            pc := LauncherPc.top i, spawned := [], waiting := [], launched := List.range i,
            ended := Pipe.cleanLog i }
          (Pipe.orderedSchedule i (some e :: rest))
          = some { cause := some e, left := (n : Int) - i - 1,
                   pc := LauncherPc.returned (NotOk (some e)), spawned := [], waiting := [],
                   launched := List.range i ++ [i],
                   ended := Pipe.cleanLog i ++ [(i, some e)] } := by
        simp only [Pipe.orderedSchedule, Pipe.run, Pipe.step,
          hlt, hne, if_true, if_false, Option.isSome_none, Bool.false_eq_true,
          PipeMode.serialize, pipeController.wg, List.length_nil, bne_self_eq_false,
          Bool.and_false, Option.isNone_none, List.nil_append, List.mem_singleton,
          List.erase_cons_head, PipeMode.«end», ne_eq]
        simp [Cancel, OrOk, Pipe.result, Cause]
      exact ⟨_, hrun, by simp, by simp [List.range_succ]⟩

/-- C8.  For every ordered pipeline with `n >= 1` subtasks whose parent scope is not
cancelled, in every schedule of its goroutines: the subtasks are launched in index order;
subtask `i` is launched only after every subtask `j < i` has ended without error; once a
subtask `k` has ended with an error `e`, no subtask with a greater index is ever launched
and the result of the pipeline, once returned, is `e` (as `util.Cause` reports it: nil for
the internal Ok sentinel `util.ErrOk`, which no worker returns); a pipeline that returns
with no failed subtask has launched all `n` in index order and returns nil.  The pipeline
never blocks while its subtasks deliver results, and for every list of `n` subtask results
the schedule in which each goroutine runs as soon as it can is accepted and returns the
first error of the list, or nil when there is none. -/
theorem C8_ordered_pipeline_first_fail (n : Nat) (hn : 1 ≤ n) :
    (∀ (es : List PipeEvent) (pipe : pipeController),
      (∀ ev ∈ es, ev.isParentCancel = false) →
      Pipe.run PipeMode.PipeOrdered n (newPipeController n) es = some pipe →
      (∃ m, m ≤ n ∧ pipe.launched = List.range m) ∧
      (∀ i ∈ pipe.launched, ∀ j, j < i → (j, none) ∈ pipe.ended) ∧
      (∀ k e, (k, some e) ∈ pipe.ended →
        (∀ i ∈ pipe.launched, i ≤ k) ∧
        ∀ r, pipe.pc = LauncherPc.returned r →
          r = NotOk (some e) ∧ (e ≠ GoError.errOk → r = some e)) ∧
      (∀ r, pipe.pc = LauncherPc.returned r → (∀ k e, (k, some e) ∉ pipe.ended) →
        pipe.launched = List.range n ∧ r = none) ∧
      ((∃ r, pipe.pc = LauncherPc.returned r) ∨
        (Pipe.step PipeMode.PipeOrdered n pipe PipeEvent.launcher).isSome = true ∨
        (∃ i, (Pipe.step PipeMode.PipeOrdered n pipe (PipeEvent.start i)).isSome = true) ∨
        (∃ i, ∀ err,
          (Pipe.step PipeMode.PipeOrdered n pipe (PipeEvent.exit i err)).isSome = true))) ∧
    (∀ results : List (Option GoError), results.length = n →
      (∀ ev ∈ Pipe.orderedSchedule 0 results, ev.isParentCancel = false) ∧
      ∃ pipe, Pipe.run PipeMode.PipeOrdered n (newPipeController n)
          (Pipe.orderedSchedule 0 results) = some pipe ∧
        pipe.pc = LauncherPc.returned (NotOk (results.find? Option.isSome).join) ∧
        pipe.launched
          = List.range (min n ((results.takeWhile Option.isNone).length + 1))) := by
  constructor
  · intro es pipe hes hrun
    have hinv := Pipe.OrderedInv_run n es _ pipe hes (Pipe.OrderedInv_new n hn) hrun
    obtain ⟨h1, h2, h3, h4⟩ := Pipe.OrderedInv_safety n pipe hinv
    refine ⟨h1, h2, ?_, h4, Pipe.OrderedInv_progress n pipe hinv⟩
    intro k e hk
    refine ⟨(h3 k e hk).1, fun r hr => ?_⟩
    have hr' := (h3 k e hk).2 r hr
    refine ⟨hr', fun hne => ?_⟩
    rw [hr']
    simp [NotOk, hne]
  · intro results hlen
    refine ⟨Pipe.orderedSchedule_noParentCancel results 0, ?_⟩
    obtain ⟨pipe, hrun, hpc, hl⟩ := Pipe.orderedSchedule_returns n hn results 0 (by omega)
    refine ⟨pipe, ?_, hpc, ?_⟩
    · rw [← hrun]
      congr 1
      have : ¬ 0 = n := by omega
      simp [newPipeController, Pipe.cleanLog, this]
    · rw [hl, hlen]
      simp

/-- C8 (witness): the pipe `ordered: [ok, fail, ok]` of three subtasks.  The third subtask
is never launched and the pipeline returns the failure. -/
theorem C8_ordered_pipeline_first_fail_witness :
    ∃ pipe, Pipe.run PipeMode.PipeOrdered 3 (newPipeController 3)
        (Pipe.orderedSchedule 0 [none, some (GoError.new "fail"), none]) = some pipe ∧
      pipe.pc = LauncherPc.returned (some (GoError.new "fail")) ∧
      pipe.launched = [0, 1] := by
  obtain ⟨pipe, hrun, hpc, hl⟩ :=
    ((C8_ordered_pipeline_first_fail 3 (by decide)).2
      [none, some (GoError.new "fail"), none] rfl).2
  exact ⟨pipe, hrun, hpc.trans (by decide), hl.trans (by decide)⟩

theorem Pipe.returned_step (mode : PipeMode) (n : Nat) (pipe pipe' : pipeController)
    (ev : PipeEvent)
    (hinv : ∀ r, pipe.pc = LauncherPc.returned r →
      pipe.cause.isSome = true ∧ r = Pipe.result mode (Cause pipe.cause))
    (hstep : Pipe.step mode n pipe ev = some pipe') :
    ∀ r, pipe'.pc = LauncherPc.returned r →
      pipe'.cause.isSome = true ∧ r = Pipe.result mode (Cause pipe'.cause) := by
  intro r hr
  cases ev with
  | launcher =>
    simp only [Pipe.step] at hstep
    split at hstep
    · split at hstep
      · split at hstep <;> simp at hstep <;> subst hstep <;> simp at hr
      · simp at hstep
        subst hstep
        simp at hr
    · split at hstep
      · simp at hstep
      · split at hstep <;> simp at hstep <;> subst hstep <;> simp at hr
    · split at hstep
      · rename_i hc
        simp at hstep
        subst hstep
        simp at hr
        exact ⟨hc, hr.symm⟩
      · simp at hstep
    · simp at hstep
  | start i =>
    simp only [Pipe.step] at hstep
    split at hstep
    · simp at hstep
      subst hstep
      exact hinv r hr
    · simp at hstep
  | exit i err =>
    simp only [Pipe.step] at hstep
    split at hstep
    · simp at hstep
      subst hstep
      obtain ⟨hc, hres⟩ := hinv r hr
      obtain ⟨c, hc'⟩ := Option.isSome_iff_exists.1 hc
      have hend : mode.«end» err pipe.cause = pipe.cause := by
        cases mode <;> simp [PipeMode.«end», hc', Cancel]
      simp only [hend]
      have hcz : (if pipe.left - 1 = 0 then Cancel pipe.cause none else pipe.cause)
          = pipe.cause := by
        split
        · simp [hc', Cancel]
        · rfl
      rw [hcz]
      exact ⟨hc, hres⟩
    · simp at hstep
  | done i =>
    simp only [Pipe.step] at hstep
    split at hstep
    · simp at hstep
      subst hstep
      exact hinv r hr
    · simp at hstep
  | parentCancel c =>
    simp only [Pipe.step, Option.some.injEq] at hstep
    subst hstep
    obtain ⟨hc, hres⟩ := hinv r hr
    obtain ⟨c', hc'⟩ := Option.isSome_iff_exists.1 hc
    simp only [hc', Cancel]
    simp only [hc'] at hres
    exact ⟨rfl, hres⟩

theorem Pipe.returned_run (mode : PipeMode) (n : Nat) (es : List PipeEvent) :
    ∀ (pipe pipe' : pipeController),
      (∀ r, pipe.pc = LauncherPc.returned r →
        pipe.cause.isSome = true ∧ r = Pipe.result mode (Cause pipe.cause)) →
      Pipe.run mode n pipe es = some pipe' →
      ∀ r, pipe'.pc = LauncherPc.returned r →
        pipe'.cause.isSome = true ∧ r = Pipe.result mode (Cause pipe'.cause) := by
  induction es with
  | nil =>
    intro pipe pipe' hinv hrun
    simp only [Pipe.run, Option.some.injEq] at hrun
    exact hrun ▸ hinv
  | cons ev es ih =>
    intro pipe pipe' hinv hrun
    simp only [Pipe.run] at hrun
    cases hstep : Pipe.step mode n pipe ev with
    | none => simp [hstep] at hrun
    | some mid =>
      simp only [hstep] at hrun
      exact ih mid pipe' (Pipe.returned_step mode n pipe mid ev hinv hstep) hrun

theorem NonRetriable_Is (e : Option GoError) :
    (NonRetriable e).Is GoError.errNonRetriable = true := by
  unfold NonRetriable
  simp only
  unfold GoError.Is
  unfold GoError.Is
  simp

/-- C9 (amended).  Whenever a pipeline finishes, in any schedule and also when its parent
scope is cancelled, `Pipe.Launch` returns the cause of its scope as `util.Cause` reports
it, wrapped by `NonRetriable` only in parallel mode: in parallel mode every non-nil result
wraps `ErrNonRetriable`, so that `tryRetry` of an enclosing retryWorker rejects it; in
ordered, race and any mode the cause is returned as it is. -/
theorem C9_only_parallel_result_is_non_retriable (mode : PipeMode) (n : Nat)
    (es : List PipeEvent) (pipe : pipeController) (r : Option GoError)
    (hrun : Pipe.run mode n (newPipeController n) es = some pipe)
    (hret : pipe.pc = LauncherPc.returned r) :
    (mode = PipeMode.PipeParallel → r ≠ none →
      errorsIs r GoError.errNonRetriable = true ∧
      ∀ (retry : retryWorker) (now : Int) (il : Interleaving),
        retry.tryRetry r now il = some (false, retry)) ∧
    (mode ≠ PipeMode.PipeParallel → r = Cause pipe.cause) := by
  have hinit : ∀ r, (newPipeController n).pc = LauncherPc.returned r →
      (newPipeController n).cause.isSome = true ∧
        r = Pipe.result mode (Cause (newPipeController n).cause) := by
    intro r hr
    simp [newPipeController] at hr
  obtain ⟨_, hres⟩ := Pipe.returned_run mode n es _ pipe hinit hrun r hret
  constructor
  · intro hmode hne
    have hr : r = some (NonRetriable (Cause pipe.cause)) := by
      rw [hres, Pipe.result]
      rw [hres, Pipe.result] at hne
      split
      · simp [hmode]
      · rename_i h
        rw [if_neg h] at hne
        exact absurd hne h
    have his : errorsIs r GoError.errNonRetriable = true := by
      rw [hr]
      exact NonRetriable_Is _
    refine ⟨his, fun retry now il => ?_⟩
    have hnot : retry.retriable r = false := by
      rw [hr]
      simp [retryWorker.retriable, NonRetriable_Is]
    unfold retryWorker.tryRetry
    split
    · rfl
    · simp [hnot]
  · intro hmode
    rw [hres, Pipe.result]
    split
    · simp [hmode]
    · rfl

/-- C9 (witness): a parallel pipe of one subtask that fails. -/
theorem C9_only_parallel_result_is_non_retriable_witness :
    (Pipe.run PipeMode.PipeParallel 1 (newPipeController 1)
        [PipeEvent.launcher, PipeEvent.launcher, PipeEvent.start 0,
        PipeEvent.exit 0 (some (GoError.new "boom")), PipeEvent.launcher, PipeEvent.launcher]).map (fun pipe => pipe.pc)
      = some (LauncherPc.returned (some (NonRetriable (some (GoError.new "boom"))))) ∧
    errorsIs (some (NonRetriable (some (GoError.new "boom")))) GoError.errNonRetriable = true := by
  refine ⟨by decide, ?_⟩
  cases h : Pipe.run PipeMode.PipeParallel 1 (newPipeController 1)
      [PipeEvent.launcher, PipeEvent.launcher, PipeEvent.start 0,
        PipeEvent.exit 0 (some (GoError.new "boom")), PipeEvent.launcher, PipeEvent.launcher] with
  | none => exact absurd h (by decide)
  | some pipe =>
    have hpc : pipe.pc
        = LauncherPc.returned (some (NonRetriable (some (GoError.new "boom")))) := by
      have : (Pipe.run PipeMode.PipeParallel 1 (newPipeController 1)
          [PipeEvent.launcher, PipeEvent.launcher, PipeEvent.start 0,
        PipeEvent.exit 0 (some (GoError.new "boom")), PipeEvent.launcher, PipeEvent.launcher]).map (fun pipe => pipe.pc)
          = some (LauncherPc.returned (some (NonRetriable (some (GoError.new "boom"))))) := by
        decide
      rw [h] at this
      simpa using this
    exact ((C9_only_parallel_result_is_non_retriable PipeMode.PipeParallel 1 _ pipe _ h hpc).1
      rfl (by simp)).1

/-- C9 (counterexample).  A race pipe of one subtask that fails with `errors.New("boom")`
returns that error as it is: it does not wrap `ErrNonRetriable`, and `tryRetry` of a fresh
enclosing retryWorker grants the retry.  An any pipe whose parent scope is cancelled with
`Cancelled` returns `Cancelled`, which does not wrap `ErrNonRetriable` either. -/
theorem C9_counterexample :
    (Pipe.run PipeMode.PipeRace 1 (newPipeController 1)
        [PipeEvent.launcher, PipeEvent.launcher, PipeEvent.start 0,
         PipeEvent.exit 0 (some (GoError.new "boom")), PipeEvent.launcher,
         PipeEvent.launcher]).map (fun pipe => pipe.pc)
      = some (LauncherPc.returned (some (GoError.new "boom"))) ∧
    errorsIs (some (GoError.new "boom")) GoError.errNonRetriable = false ∧
    ((newRetryWorker defaultOptions).tryRetry (some (GoError.new "boom"))
        1700000000000000000 (Interleaving.waitTimer false)).map Prod.fst = some true ∧
    (Pipe.run PipeMode.PipeAny 1 (newPipeController 1)
        [PipeEvent.parentCancel (GoError.ofStatus Status.Cancelled), PipeEvent.launcher,
         PipeEvent.launcher]).map (fun pipe => pipe.pc)
      = some (LauncherPc.returned (some (GoError.ofStatus Status.Cancelled))) ∧
    errorsIs (some (GoError.ofStatus Status.Cancelled)) GoError.errNonRetriable = false := by
  decide

/-- C10.  The array form of a task: an empty array gives a noop task; an array whose first
element is no pipe without subtasks gives a parallel `Pipe` over all elements, of kind
`parallel`; an array whose first element is a pipe without subtasks that carries a mode
gives a `Pipe` of that mode over the remaining elements, of the kind named by the mode.
But a leading element that is a pipe without subtasks and without a mode, which is what
the registry builds for the bare kind `pipe`, makes the function panic (a method call on a
nil `PipeMode`), as for the JSON array `["pipe", "noop"]`. -/
theorem C10_array_desugaring_panics_on_modeless_marker :
    (∀ t : Task, unmarshalArray t (Except.ok [])
      = Outcome.ok (Task.mk (some ITask.TaskNoop) { ID := "", Kind := "noop" })) ∧
    (∀ (t first : Task) (rest : List Task),
      (∀ m, first.ITask ≠ some (ITask.Pipe m [])) →
      unmarshalArray t (Except.ok (first :: rest))
        = Outcome.ok (Task.mk (some (ITask.Pipe (some PipeMode.PipeParallel) (first :: rest)))
            { ID := "", Kind := "parallel" })) ∧
    (∀ (t : Task) (id : ID) (mode : PipeMode) (rest : List Task),
      unmarshalArray t (Except.ok (Task.mk (some (ITask.Pipe (some mode) [])) id :: rest))
        = Outcome.ok (Task.mk (some (ITask.Pipe (some mode) rest))
            { ID := "", Kind := mode.String })) ∧
    (∀ (t : Task) (id : ID) (rest : List Task),
      unmarshalArray t (Except.ok (Task.mk (some (ITask.Pipe none [])) id :: rest))
        = Outcome.panic) ∧
    unmarshalPipeKind "pipe"
      = some (Task.mk (some (ITask.Pipe none [])) { ID := "", Kind := "pipe" }) ∧
    unmarshalArray (Task.mk none { ID := "", Kind := "" })
        (Except.ok [Task.mk (some (ITask.Pipe none [])) { ID := "", Kind := "pipe" },
          Task.mk (some ITask.TaskNoop) { ID := "", Kind := "noop" }])
      = Outcome.panic := by
  refine ⟨fun _ => rfl, ?_, fun _ _ _ _ => rfl, fun _ _ _ => rfl, rfl, rfl⟩
  intro t first rest hfirst
  obtain ⟨i, id⟩ := first
  simp only [Task.ITask] at hfirst
  unfold unmarshalArray
  simp only [Task.ITask]
  cases i with
  | none => rfl
  | some it =>
    cases it with
    | TaskNoop => rfl
    | TaskWait d => rfl
    | TaskRun e a => rfl
    | Pipe m subs =>
      cases subs with
      | nil => exact absurd rfl (hfirst m)
      | cons x xs => rfl

/-! ## Load balancer -/

namespace revproxy

theorem loadSession_storeSession_self (sessions : List (String × ClientSession)) (ip : String)
    (x : ClientSession) : loadSession (storeSession sessions ip x) ip = some x := by
  induction sessions with
  | nil => simp [storeSession, loadSession]
  | cons kv rest ih =>
    by_cases h : kv.1 = ip
    · simp [storeSession, loadSession, h]
    · simp only [loadSession] at ih
      simp [storeSession, loadSession, h, ih]

theorem loadSession_storeSession_ne (sessions : List (String × ClientSession)) (ip ip' : String)
    (x : ClientSession) (hne : ip' ≠ ip) :
    loadSession (storeSession sessions ip x) ip' = loadSession sessions ip' := by
  induction sessions with
  | nil =>
    have : ¬ ip = ip' := fun h => hne h.symm
    simp [storeSession, loadSession, this]
  | cons kv rest ih =>
    by_cases h : kv.1 = ip
    · have h1 : ¬ ip = ip' := fun h => hne h.symm
      have h2 : ¬ kv.1 = ip' := fun h' => h1 (h ▸ h')
      simp [storeSession, loadSession, h, h1, h2]
    · simp only [loadSession] at ih
      by_cases h3 : kv.1 = ip'
      · subst h3
        simp [storeSession, loadSession, h]
      · simp [storeSession, loadSession, h, h3, ih]

theorem RemoveUpstream_sessions (lb : LoadBalancer) (u : Upstream) :
    (lb.RemoveUpstream u).sessions = lb.sessions := by
  simp [LoadBalancer.RemoveUpstream, GoAny.eqUpstream]

theorem RemoveUpstream_not_mem (lb : LoadBalancer) (u : Upstream) :
    u ∉ (lb.RemoveUpstream u).Upstreams := by
  simp [LoadBalancer.RemoveUpstream, Without]

end revproxy

namespace revproxy

theorem MinScan_step (conns : Upstream → Int) (retry : Option Upstream) (done : List Upstream)
    (m x : Upstream) (h : MinScan conns retry done m) :
    MinScan conns retry (done ++ [x]) (if LoadBalancer.connLess conns retry x m then x else m) := by
  rcases h with ⟨hall, hm⟩ | ⟨hm, pre, post, hdone, hpre, hpost⟩
  · by_cases hx : some x = retry
    · left
      simp only [LoadBalancer.connLess, hx, if_true]
      refine ⟨?_, hm⟩
      intro v hv
      rcases List.mem_append.1 hv with hv | hv
      · exact hall v hv
      · simp at hv
        subst hv
        exact hx
    · right
      simp only [LoadBalancer.connLess, hx, hm, if_true, if_false]
      refine ⟨hx, done, [], rfl, ?_, ?_⟩
      · intro v hv hne
        exact absurd (hall v hv) hne
      · intro v hv
        simp at hv
  · right
    by_cases hx : some x = retry
    · simp only [LoadBalancer.connLess, hx, if_true]
      refine ⟨hm, pre, post ++ [x], by simp [hdone], hpre, ?_⟩
      intro v hv hne
      rcases List.mem_append.1 hv with hv | hv
      · exact hpost v hv hne
      · simp at hv
        subst hv
        exact absurd hx hne
    · by_cases hlt : conns x < conns m
      · simp only [LoadBalancer.connLess, hx, hm, hlt, if_true, if_false, decide_True]
        refine ⟨hx, done, [], rfl, ?_, ?_⟩
        · intro v hv hne
          rw [hdone] at hv
          rcases List.mem_append.1 hv with hv | hv
          · exact lt_trans hlt (hpre v hv hne)
          · rcases List.mem_cons.1 hv with hv | hv
            · subst hv
              exact hlt
            · exact lt_of_lt_of_le hlt (hpost v hv hne)
        · intro v hv
          simp at hv
      · simp only [LoadBalancer.connLess, hx, hm, hlt, if_false, decide_False]
        refine ⟨hm, pre, post ++ [x], by simp [hdone], hpre, ?_⟩
        intro v hv hne
        rcases List.mem_append.1 hv with hv | hv
        · exact hpost v hv hne
        · simp at hv
          subst hv
          exact not_lt.1 hlt

theorem MinScan_foldl (conns : Upstream → Int) (retry : Option Upstream) (rest : List Upstream) :
    ∀ (done : List Upstream) (m : Upstream), MinScan conns retry done m →
      MinScan conns retry (done ++ rest)
        (rest.foldl (fun min item => if LoadBalancer.connLess conns retry item min then item else min) m) := by
  induction rest with
  | nil =>
    intro done m h
    simpa using h
  | cons x rest ih =>
    intro done m h
    have h1 := ih (done ++ [x]) _ (MinScan_step conns retry done m x h)
    simpa using h1

theorem MinScan_first (conns : Upstream → Int) (retry : Option Upstream) (first : Upstream) :
    MinScan conns retry [first] first := by
  by_cases h : some first = retry
  · left
    simp [h]
  · right
    exact ⟨h, [], [], rfl, by simp, by simp⟩

theorem MinBy_connLess (conns : Upstream → Int) (retry : Option Upstream) (first : Upstream)
    (rest : List Upstream) :
    ∃ m, MinBy (first :: rest) (LoadBalancer.connLess conns retry) = some m ∧
      MinScan conns retry (first :: rest) m := by
  refine ⟨_, rfl, ?_⟩
  have := MinScan_foldl conns retry rest [first] first (MinScan_first conns retry first)
  simpa using this

theorem probe_finds (ups : List Upstream) (retry : Option Upstream) (n : Nat)
    (hpos : 0 < ups.length) :
    ∀ (fuel i : Nat) (up : Option Upstream),
      (∃ j, i ≤ j ∧ j < i + fuel ∧ ups[(n + j) % ups.length]? ≠ retry) →
      ∃ w, LoadBalancer.probe ups retry n fuel i up = some w ∧ some w ≠ retry ∧ w ∈ ups := by
  intro fuel
  induction fuel with
  | zero =>
    intro i up ⟨j, h1, h2, _⟩
    omega
  | succ fuel ih =>
    intro i up ⟨j, h1, h2, h3⟩
    have hlt : (n + i) % ups.length < ups.length := Nat.mod_lt _ hpos
    by_cases hi : ups[(n + i) % ups.length]? = retry
    · have hj : i ≠ j := by
        intro h
        subst h
        exact h3 hi
      have := ih (i + 1) (ups[(n + i) % ups.length]?) ⟨j, by omega, by omega, h3⟩
      simpa [LoadBalancer.probe, hi] using this
    · rw [List.getElem?_eq_getElem hlt] at hi
      refine ⟨ups[(n + i) % ups.length], ?_, hi, List.getElem_mem _⟩
      simp [LoadBalancer.probe, hi, List.getElem?_eq_getElem hlt]

end revproxy

namespace revproxy

theorem exists_probe_index (ups : List Upstream) (retry : Option Upstream) (n : Nat)
    (hn : n < ups.length) (hret : ups[n]? = retry) (hex : ∃ u ∈ ups, some u ≠ retry) :
    ∃ j, 1 ≤ j ∧ j < 1 + (ups.length - 1) ∧ ups[(n + j) % ups.length]? ≠ retry := by
  obtain ⟨u, hu, hne⟩ := hex
  obtain ⟨k, hk, hku⟩ := List.getElem_of_mem hu
  have hkn : k ≠ n := by
    intro h
    subst h
    rw [List.getElem?_eq_getElem hk, hku] at hret
    exact hne hret
  rcases Nat.lt_or_gt_of_ne hkn with h | h
  · refine ⟨ups.length + k - n, by omega, by omega, ?_⟩
    have e : n + (ups.length + k - n) = k + ups.length := by omega
    rw [e, Nat.add_mod_right, Nat.mod_eq_of_lt hk, List.getElem?_eq_getElem hk, hku]
    exact hne
  · refine ⟨k - n, by omega, by omega, ?_⟩
    have e : n + (k - n) = k := by omega
    rw [e, Nat.mod_eq_of_lt hk, List.getElem?_eq_getElem hk, hku]
    exact hne

theorem pick_ne_retry (lb : LoadBalancer) (conns : Upstream → Int) (fastHash : String → Nat)
    (rnd : Nat) (ip : String) (retry : Option Upstream) (hlen : 2 ≤ lb.Upstreams.length)
    (hex : ∃ u ∈ lb.Upstreams, some u ≠ retry) :
    ∃ up, lb.pick conns fastHash rnd ip retry = some up ∧ some up ≠ retry ∧
      up ∈ lb.Upstreams := by
  have h0 : ¬ lb.Upstreams.length = 0 := by omega
  have h1 : ¬ lb.Upstreams.length = 1 := by omega
  have hpos : 0 < lb.Upstreams.length := by omega
  by_cases hm : lb.Method = LbConn
  · cases hups : lb.Upstreams with
    | nil => simp [hups] at hlen
    | cons first rest =>
      obtain ⟨m, hmin, hscan⟩ := MinBy_connLess conns retry first rest
      rcases hscan with ⟨hall, _⟩ | ⟨hne, pre, post, hsplit, _, _⟩
      · obtain ⟨u, hu, hune⟩ := hex
        rw [hups] at hu
        exact absurd (hall u hu) hune
      · refine ⟨m, ?_, hne, ?_⟩
        · rw [hups] at h0 h1
          simp only [LoadBalancer.pick, hups, h0, h1, hm, if_true, if_false, hmin, hne]
        · rw [hsplit]
          simp
  · have key : ∀ n, n < lb.Upstreams.length →
        ∃ up, (if lb.Upstreams[n]? = retry then
            LoadBalancer.probe lb.Upstreams retry n (lb.Upstreams.length - 1) 1 lb.Upstreams[n]?
          else lb.Upstreams[n]?) = some up ∧ some up ≠ retry ∧ up ∈ lb.Upstreams := by
      intro n hn
      by_cases hret : lb.Upstreams[n]? = retry
      · rw [if_pos hret]
        exact probe_finds lb.Upstreams retry n hpos _ _ _
          (exists_probe_index lb.Upstreams retry n hn hret hex)
      · rw [if_neg hret]
        rw [List.getElem?_eq_getElem hn] at hret ⊢
        exact ⟨_, rfl, hret, List.getElem_mem _⟩
    simp only [LoadBalancer.pick, h0, h1, hm, if_false]
    exact key _ (by split <;> exact Nat.mod_lt _ hpos)

theorem pick_single (lb : LoadBalancer) (conns : Upstream → Int) (fastHash : String → Nat)
    (rnd : Nat) (ip : String) (retry : Option Upstream) (u : Upstream)
    (h : lb.Upstreams = [u]) : lb.pick conns fastHash rnd ip retry = some u := by
  simp [LoadBalancer.pick, h]

end revproxy

namespace revproxy

theorem Next_not_sticky (lb : LoadBalancer) (conns : Upstream → Int) (fastHash : String → Nat)
    (rnd : Nat) (ip : String) (retry : Option Upstream) (hs : lb.Sticky = false) :
    lb.Next conns fastHash rnd ip retry = (lb.pick conns fastHash rnd ip retry, lb) := by
  simp [LoadBalancer.Next, hs]

theorem Next_fst_kept (lb : LoadBalancer) (conns : Upstream → Int) (fastHash : String → Nat)
    (rnd : Nat) (ip : String) (retry : Option Upstream) (u : Upstream)
    (hs : lb.Sticky = true) (hu : lb.sticky ip = some u) (hne : some u ≠ retry) :
    (lb.Next conns fastHash rnd ip retry).1 = some u ∧
      (lb.Next conns fastHash rnd ip retry).2.sticky ip = some u := by
  unfold LoadBalancer.sticky at hu
  cases hl : loadSession lb.sessions ip with
  | none => simp [hl] at hu
  | some s =>
    rw [hl] at hu
    simp only at hu
    simp [LoadBalancer.Next, hs, hl, hu, hne, LoadBalancer.sticky, loadSession_storeSession_self]

theorem Next_fst_picked (lb : LoadBalancer) (conns : Upstream → Int) (fastHash : String → Nat)
    (rnd : Nat) (ip : String) (retry : Option Upstream)
    (hs : lb.Sticky = true) (hu : lb.sticky ip = none ∨ lb.sticky ip = retry) :
    (lb.Next conns fastHash rnd ip retry).1 = lb.pick conns fastHash rnd ip retry := by
  unfold LoadBalancer.sticky at hu
  cases hl : loadSession lb.sessions ip with
  | none =>
    cases hp : lb.pick conns fastHash rnd ip retry <;>
      simp [LoadBalancer.Next, hs, hl, hp]
  | some s =>
    rw [hl] at hu
    simp only at hu
    cases hsu : s.upstream with
    | none =>
      cases hp : lb.pick conns fastHash rnd ip retry <;>
        simp [LoadBalancer.Next, hs, hl, hp, hsu]
    | some v =>
      have hv : some v = retry := by
        rcases hu with h | h
        · simp [hsu] at h
        · rw [← hsu]
          exact h
      subst hv
      cases hp : lb.pick conns fastHash rnd ip (some v) <;>
        simp [LoadBalancer.Next, hs, hl, hp, hsu]

theorem Next_fst_cases (lb : LoadBalancer) (conns : Upstream → Int) (fastHash : String → Nat)
    (rnd : Nat) (ip : String) (retry : Option Upstream) :
    (lb.Next conns fastHash rnd ip retry).1 = lb.pick conns fastHash rnd ip retry ∨
      ∃ u, (lb.Next conns fastHash rnd ip retry).1 = some u ∧ some u ≠ retry := by
  cases hs : lb.Sticky with
  | false =>
    left
    rw [Next_not_sticky lb conns fastHash rnd ip retry hs]
  | true =>
    cases hu : lb.sticky ip with
    | none => exact Or.inl (Next_fst_picked lb conns fastHash rnd ip retry hs (Or.inl hu))
    | some u =>
      by_cases hne : some u = retry
      · exact Or.inl (Next_fst_picked lb conns fastHash rnd ip retry hs (Or.inr (hu.trans hne)))
      · exact Or.inr ⟨u, (Next_fst_kept lb conns fastHash rnd ip retry u hs hu hne).1, hne⟩

theorem Next_installs (lb : LoadBalancer) (conns : Upstream → Int) (fastHash : String → Nat)
    (rnd : Nat) (ip : String) (retry : Option Upstream) (u : Upstream)
    (hs : lb.Sticky = true) (h : (lb.Next conns fastHash rnd ip retry).1 = some u) :
    (lb.Next conns fastHash rnd ip retry).2.sticky ip = some u := by
  cases hu : lb.sticky ip with
  | none =>
    have hp := Next_fst_picked lb conns fastHash rnd ip retry hs (Or.inl hu)
    rw [h] at hp
    unfold LoadBalancer.sticky at hu
    cases hl : loadSession lb.sessions ip with
    | none =>
      simp [LoadBalancer.Next, hs, hl, ← hp, LoadBalancer.sticky, loadSession_storeSession_self]
    | some s =>
      rw [hl] at hu
      simp only at hu
      simp [LoadBalancer.Next, hs, hl, ← hp, hu, LoadBalancer.sticky,
        loadSession_storeSession_self]
  | some v =>
    by_cases hne : some v = retry
    · have hp := Next_fst_picked lb conns fastHash rnd ip retry hs (Or.inr (hu.trans hne))
      rw [h] at hp
      unfold LoadBalancer.sticky at hu
      cases hl : loadSession lb.sessions ip with
      | none => simp [hl] at hu
      | some s =>
        rw [hl] at hu
        simp only at hu
        subst hne
        simp [LoadBalancer.Next, hs, hl, ← hp, hu, LoadBalancer.sticky,
          loadSession_storeSession_self]
    · have hk := Next_fst_kept lb conns fastHash rnd ip retry v hs hu hne
      rw [h] at hk
      rw [hk.2]
      exact hk.1.symm

theorem Next_other_session (lb : LoadBalancer) (conns : Upstream → Int)
    (fastHash : String → Nat) (rnd : Nat) (ip ip' : String) (retry : Option Upstream)
    (hne : ip' ≠ ip) :
    (lb.Next conns fastHash rnd ip retry).2.sticky ip' = lb.sticky ip' := by
  cases hs : lb.Sticky with
  | false => rw [Next_not_sticky lb conns fastHash rnd ip retry hs]
  | true =>
    simp [LoadBalancer.Next, hs, LoadBalancer.sticky, loadSession_storeSession_ne _ _ _ _ hne]

theorem Next_fields (lb : LoadBalancer) (conns : Upstream → Int) (fastHash : String → Nat)
    (rnd : Nat) (ip : String) (retry : Option Upstream) :
    (lb.Next conns fastHash rnd ip retry).2.Upstreams = lb.Upstreams ∧
      (lb.Next conns fastHash rnd ip retry).2.toOptions = lb.toOptions := by
  cases hs : lb.Sticky with
  | false => rw [Next_not_sticky lb conns fastHash rnd ip retry hs]; exact ⟨rfl, rfl⟩
  | true => simp [LoadBalancer.Next, hs]

end revproxy

namespace revproxy

theorem LbOp.apply_keeps (fastHash : String → Nat) (lb : LoadBalancer) (op : LbOp)
    (ip : String) (u : Upstream) (hs : lb.Sticky = true) (hu : lb.sticky ip = some u)
    (hop : ¬ op.retries u) :
    (op.apply fastHash lb).Sticky = true ∧ (op.apply fastHash lb).sticky ip = some u := by
  cases op with
  | AddUpstream v => exact ⟨hs, hu⟩
  | RemoveUpstream v =>
    refine ⟨hs, ?_⟩
    simp only [LbOp.apply, LoadBalancer.sticky, RemoveUpstream_sessions]
    exact hu
  | setMethod m => exact ⟨hs, hu⟩
  | Next conns rnd ip' retry =>
    have hf := (Next_fields lb conns fastHash rnd ip' retry).2
    refine ⟨?_, ?_⟩
    · simp only [LbOp.apply]
      rw [show (lb.Next conns fastHash rnd ip' retry).2.Sticky
        = (lb.Next conns fastHash rnd ip' retry).2.toOptions.Sticky from rfl, hf]
      exact hs
    · simp only [LbOp.apply]
      by_cases hip : ip = ip'
      · subst hip
        have hne : some u ≠ retry := fun h => hop (by simp [LbOp.retries, h])
        exact (Next_fst_kept lb conns fastHash rnd ip retry u hs hu hne).2
      · rw [Next_other_session lb conns fastHash rnd ip' ip retry hip]
        exact hu

theorem LoadBalancer.run_keeps (fastHash : String → Nat) (ip : String) (u : Upstream)
    (ops : List LbOp) :
    ∀ lb : LoadBalancer, lb.Sticky = true → lb.sticky ip = some u →
      (∀ op ∈ ops, ¬ op.retries u) →
      (lb.run fastHash ops).Sticky = true ∧ (lb.run fastHash ops).sticky ip = some u := by
  induction ops with
  | nil =>
    intro lb hs hu _
    exact ⟨hs, hu⟩
  | cons op ops ih =>
    intro lb hs hu hops
    have h1 := LbOp.apply_keeps fastHash lb op ip u hs hu (hops op (List.mem_cons_self _ _))
    exact ih (op.apply fastHash lb) h1.1 h1.2 (fun o ho => hops o (List.mem_cons_of_mem _ ho))

end revproxy

namespace revproxy

theorem NextCall.step_retry (cell picked : Option Upstream) (call : NextCall) :
    (call.step cell picked).2.retry = call.retry := by
  unfold NextCall.step
  split <;> (try split) <;> (try split) <;> rfl

theorem NextCall.step_Loaded (cell picked : Option Upstream) (call : NextCall)
    (h : call.Loaded) : (call.step cell picked).2.Loaded := by
  unfold NextCall.step
  split
  · split
    · split <;> simp [NextCall.Loaded]
    · simp [NextCall.Loaded]
  · simp [NextCall.Loaded]
  · split <;> simp [NextCall.Loaded]
  · split
    · simp [NextCall.Loaded]
    · rename_i hc
      simp only [NextCall.Loaded]
      by_cases h1 : cell = none
      · exact Or.inl h1
      · by_cases h2 : cell = call.retry
        · exact Or.inr h2
        · exact absurd ⟨h1, h2⟩ hc
  · split <;> simp [NextCall.Loaded]
  · exact h

theorem NextCall.step_keeps (u : Upstream) (picked : Option Upstream) (call : NextCall)
    (hl : call.Loaded) (hr : call.retry ≠ some u) :
    (call.step (some u) picked).1 = some u := by
  unfold NextCall.step
  split
  · split
    · split <;> rfl
    · rfl
  · have : ¬ some u = call.retry := fun h => hr h.symm
    simp [this]
  · split <;> rfl
  · split <;> rfl
  · rename_i v us hpc
    have hv : ¬ some u = v := by
      intro h
      simp only [NextCall.Loaded, hpc] at hl
      rcases hl with h1 | h1
      · rw [h1] at h
        exact absurd h (by simp)
      · rw [h1] at h
        exact hr h.symm
    simp [hv]
  · rfl

theorem NextCall.step_Follows (u : Upstream) (picked : Option Upstream) (call : NextCall)
    (hr : call.retry ≠ some u) (h : call.Follows u) :
    ((call.step (some u) picked).2).Follows u := by
  have hne : ¬ some u = call.retry := fun h => hr h.symm
  rcases h with h | h | h
  · simp [NextCall.step, h, hne, NextCall.Follows]
  · simp [NextCall.step, h, hne, NextCall.Follows]
  · simp [NextCall.step, h, NextCall.Follows]

theorem StickySession.step_Holds (u : Upstream) (n0 : Nat) (s : StickySession)
    (e : SessionEvent) (he : ∀ retry, e = SessionEvent.begin retry → retry ≠ some u)
    (h : s.Holds u n0) : (s.step e).Holds u n0 := by
  obtain ⟨hcell, hn, hcalls, hnew⟩ := h
  cases e with
  | begin retry =>
    refine ⟨hcell, ?_, ?_, ?_⟩
    · simp only [StickySession.step, List.length_append, List.length_singleton]
      omega
    · intro call hc
      simp only [StickySession.step, List.mem_append, List.mem_singleton] at hc
      rcases hc with hc | hc
      · exact hcalls call hc
      · subst hc
        exact ⟨trivial, he retry rfl⟩
    · intro i hi hge
      simp only [StickySession.step, List.length_append, List.length_singleton] at hi
      by_cases hlt : i < s.calls.length
      · have := hnew i hlt hge
        simpa [StickySession.step, List.getElem_append_left, hlt] using this
      · have hi' : i = s.calls.length := by omega
        subst hi'
        simp [StickySession.step, NextCall.Follows]
  | step i picked =>
    cases hget : s.calls[i]? with
    | none =>
      simp only [StickySession.step, hget]
      exact ⟨hcell, hn, hcalls, hnew⟩
    | some call =>
      have hi : i < s.calls.length := by
        by_contra hcon
        rw [List.getElem?_eq_none (by omega)] at hget
        exact absurd hget (by simp)
      have hcall : s.calls[i] = call := by
        rw [List.getElem?_eq_getElem hi] at hget
        exact Option.some.inj hget
      have hmem : call ∈ s.calls := hcall ▸ List.getElem_mem _
      obtain ⟨hl, hr⟩ := hcalls call hmem
      simp only [StickySession.step, hget, hcell]
      refine ⟨NextCall.step_keeps u picked call hl hr, by simpa using hn, ?_, ?_⟩
      · intro c hc
        rcases List.mem_or_eq_of_mem_set hc with hc | hc
        · exact hcalls c hc
        · subst hc
          exact ⟨NextCall.step_Loaded _ _ _ hl, by rw [NextCall.step_retry]; exact hr⟩
      · intro j hj hge
        have hj' : j < s.calls.length := by simpa using hj
        by_cases hij : i = j
        · subst hij
          have := hnew i hi hge
          simp only [List.get_eq_getElem, hcall] at this
          simp only [List.get_eq_getElem, List.getElem_set_self]
          exact NextCall.step_Follows u picked call hr this
        · have := hnew j hj' hge
          simpa [List.getElem_set_ne hij] using this

theorem StickySession.run_Holds (u : Upstream) (n0 : Nat) (events : List SessionEvent) :
    ∀ s : StickySession, s.Holds u n0 →
      (∀ retry, SessionEvent.begin retry ∈ events → retry ≠ some u) →
      (s.run events).Holds u n0 := by
  induction events with
  | nil =>
    intro s h _
    exact h
  | cons e events ih =>
    intro s h he
    exact ih (s.step e)
      (StickySession.step_Holds u n0 s e
        (fun retry hr => he retry (hr ▸ List.mem_cons_self _ _)) h)
      (fun retry hr => he retry (List.mem_cons_of_mem _ hr))

/-- Under any interleaving of the steps of concurrent calls of `Next` on one session: once
the session holds `u` and no call in progress or begun later has `u` as its `retry`, the
session keeps `u`, and every call begun later that has returned has returned `u`. -/
theorem StickySession.later_calls_return (u : Upstream) (s : StickySession)
    (events : List SessionEvent) (hcell : s.upstream = some u)
    (hcalls : ∀ call ∈ s.calls, call.Loaded ∧ call.retry ≠ some u)
    (hbegin : ∀ retry, SessionEvent.begin retry ∈ events → retry ≠ some u) :
    (s.run events).upstream = some u ∧
      ∀ i (h : i < (s.run events).calls.length) (us : Option Upstream),
        s.calls.length ≤ i →
        ((s.run events).calls.get ⟨i, h⟩).pc = NextPc.returned us → us = some u := by
  have hinv := StickySession.run_Holds u s.calls.length events s
    ⟨hcell, le_refl _, hcalls, fun i h hge => absurd h (by omega)⟩ hbegin
  refine ⟨hinv.1, ?_⟩
  intro i h us hge hret
  rcases hinv.2.2.2 i h hge with h1 | h1 | h1
  · rw [h1] at hret
    exact absurd hret (by simp)
  · rw [h1] at hret
    exact absurd hret (by simp)
  · rw [h1] at hret
    exact (NextPc.returned.inj hret).symm

/-- A step that makes a call return a non-nil upstream leaves that upstream in the
session. -/
theorem NextCall.step_returned_installed (cell picked : Option Upstream) (call : NextCall)
    (x : Upstream) (hpc : ∀ us, call.pc ≠ NextPc.returned us)
    (h : (call.step cell picked).2.pc = NextPc.returned (some x)) :
    (call.step cell picked).1 = some x := by
  unfold NextCall.step at h ⊢
  split at h
  · split at h
    · split at h <;> simp at h
    · simp at h
  · simp at h
  · split at h <;> simp at h
  · split at h
    · rename_i hc
      simp only [NextPc.returned.injEq] at h
      rw [if_pos hc]
      exact h
    · simp at h
  · split at h
    · rename_i hc
      simp only [NextPc.returned.injEq, Option.some.injEq] at h
      rw [if_pos hc, h]
    · simp at h
  · rename_i us hus
    exact absurd hus (hpc us)

/-- The method `Next` as defined on the whole state is what a call running alone does: the
result and the upstream left in the session of `ip` are those of the steps run in a row. -/
theorem Next_eq_alone (lb : LoadBalancer) (conns : Upstream → Int) (fastHash : String → Nat)
    (rnd : Nat) (ip : String) (retry : Option Upstream) (hs : lb.Sticky = true) :
    NextCall.alone (lb.sticky ip) (lb.pick conns fastHash rnd ip retry) retry
      = ((lb.Next conns fastHash rnd ip retry).2.sticky ip,
         NextPc.returned (lb.Next conns fastHash rnd ip retry).1) := by
  unfold LoadBalancer.sticky
  cases hl : loadSession lb.sessions ip with
  | none =>
    cases hp : lb.pick conns fastHash rnd ip retry <;>
      simp [NextCall.alone, NextCall.step, LoadBalancer.Next, hs, hl, hp,
        loadSession_storeSession_self]
  | some sess =>
    cases hsu : sess.upstream with
    | none =>
      cases hp : lb.pick conns fastHash rnd ip retry <;>
        simp [NextCall.alone, NextCall.step, LoadBalancer.Next, hs, hl, hp, hsu,
          loadSession_storeSession_self]
    | some v =>
      by_cases hv : some v = retry
      · subst hv
        cases hp : lb.pick conns fastHash rnd ip (some v) <;>
          simp [NextCall.alone, NextCall.step, LoadBalancer.Next, hs, hl, hp, hsu,
            loadSession_storeSession_self]
      · simp [NextCall.alone, NextCall.step, LoadBalancer.Next, hs, hl, hsu, hv,
          loadSession_storeSession_self]

/-- Under any interleaving: when the part under the read lock gives a non-nil upstream
other than `retry`, whatever a call goes on to return is a non-nil upstream other than its
`retry`. -/
theorem NextCall.step_Avoids (cell picked : Option Upstream) (call : NextCall)
    (hp : picked ≠ none ∧ picked ≠ call.retry) (h : call.Avoids) :
    (call.step cell picked).2.Avoids := by
  unfold NextCall.step
  split
  · split
    · split
      · simp [NextCall.Avoids]
      · rename_i hne
        simpa [NextCall.Avoids] using hne
    · simp [NextCall.Avoids]
  · simp [NextCall.Avoids]
  · split
    · exact absurd rfl hp.1
    · simpa [NextCall.Avoids] using hp.2
  · rename_i us hpc
    simp only [NextCall.Avoids, hpc] at h
    split
    · rename_i hc
      simpa [NextCall.Avoids] using hc
    · simpa [NextCall.Avoids] using h
  · rename_i v us hpc
    simp only [NextCall.Avoids, hpc] at h
    split
    · simpa [NextCall.Avoids] using h
    · simpa [NextCall.Avoids] using h
  · exact h

end revproxy

/-- C11: with `Sticky` set, once `Next(ip, nil)` has returned a non-nil upstream `u`, every
later `Next(ip, nil)` returns `u` again, whatever operations come in between (upstreams
added or removed, the method changed, calls of `Next` for any client under any connection
counts and random draws), as long as none of them removes `u` or passes `u` as `retry`.
The same holds when calls on the session of `ip` overlap: from the state the first call
leaves, under every interleaving of the steps of calls none of which has `u` as `retry`,
the session keeps `u` and every call begun later that returns, returns `u`. -/
theorem C11_sticky_upstream_is_kept (lb : revproxy.LoadBalancer) (fastHash : String → Nat)
    (conns : revproxy.Upstream → Int) (rnd : Nat) (ip : String) (u : revproxy.Upstream)
    (hs : lb.Sticky = true) (hfirst : (lb.Next conns fastHash rnd ip none).1 = some u)
    (ops : List revproxy.LbOp) (hops : ∀ op ∈ ops, ¬ op.removes u ∧ ¬ op.retries u)
    (conns' : revproxy.Upstream → Int) (rnd' : Nat) :
    (((lb.Next conns fastHash rnd ip none).2.run fastHash ops).Next
      conns' fastHash rnd' ip none).1 = some u ∧
    ∀ (calls : List revproxy.NextCall) (events : List revproxy.SessionEvent),
      (∀ call ∈ calls, call.Loaded ∧ call.retry ≠ some u) →
      (∀ retry, revproxy.SessionEvent.begin retry ∈ events → retry ≠ some u) →
      (revproxy.StickySession.run
        { upstream := (lb.Next conns fastHash rnd ip none).2.sticky ip, calls := calls }
        events).upstream = some u ∧
      ∀ i (h : i < (revproxy.StickySession.run
          { upstream := (lb.Next conns fastHash rnd ip none).2.sticky ip, calls := calls }
          events).calls.length) (us : Option revproxy.Upstream),
        calls.length ≤ i →
        ((revproxy.StickySession.run
          { upstream := (lb.Next conns fastHash rnd ip none).2.sticky ip, calls := calls }
          events).calls.get ⟨i, h⟩).pc = revproxy.NextPc.returned us → us = some u := by
  have h0 := revproxy.Next_installs lb conns fastHash rnd ip none u hs hfirst
  have hs0 : (lb.Next conns fastHash rnd ip none).2.Sticky = true := by
    have := (revproxy.Next_fields lb conns fastHash rnd ip none).2
    rw [show (lb.Next conns fastHash rnd ip none).2.Sticky
      = (lb.Next conns fastHash rnd ip none).2.toOptions.Sticky from rfl, this]
    exact hs
  have h1 := revproxy.LoadBalancer.run_keeps fastHash ip u ops _ hs0 h0
    (fun op hop => (hops op hop).2)
  refine ⟨(revproxy.Next_fst_kept _ conns' fastHash rnd' ip none u h1.1 h1.2 (by simp)).1, ?_⟩
  intro calls events hcalls hbegin
  exact revproxy.StickySession.later_calls_return u
    { upstream := (lb.Next conns fastHash rnd ip none).2.sticky ip, calls := calls }
    events h0 hcalls hbegin

/-- C11 (witness): two upstreams; the first request of a client is routed to upstream 1;
then upstream 3 is added, upstream 2 is removed, the method is changed and another client
is served, and the client is still routed to upstream 1 although it now has the most
connections. -/
theorem C11_sticky_upstream_is_kept_witness :
    ((((((revproxy.NewLoadBalancer revproxy.stickyConn).AddUpstream 1).AddUpstream 2).Next
        (fun _ => 0) (fun _ => 0) 0 "10.0.0.1" none).2.run (fun _ => 0)
        [revproxy.LbOp.AddUpstream 3, revproxy.LbOp.RemoveUpstream 2,
         revproxy.LbOp.setMethod revproxy.LbRandom,
         revproxy.LbOp.Next (fun _ => 0) 1 "10.0.0.2" none]).Next
      (fun v => if v = 1 then 9 else 0) (fun _ => 0) 1 "10.0.0.1" none).1 = some 1 :=
  (C11_sticky_upstream_is_kept
    (((revproxy.NewLoadBalancer revproxy.stickyConn).AddUpstream 1).AddUpstream 2)
    (fun _ => 0) (fun _ => 0) 0 "10.0.0.1" 1 rfl (by decide) _
    (by simp [revproxy.LbOp.removes, revproxy.LbOp.retries]) _ 1).1

/-- C12: `RemoveUpstream(u)` takes `u` out of `Upstreams` but never changes the session
map, because its `Range` callback compares the stored `*ClientSession` with the
`*Upstream`; a session that holds `u` keeps it, and with `Sticky` set the next
`Next(ip, retry)` of that client returns the removed upstream (for any `retry` other than
`u`).  Concretely: one upstream, one request, the upstream removed, the next request of
the same client is still routed to it. -/
theorem C12_removed_upstream_stays_in_session :
    (∀ (lb : revproxy.LoadBalancer) (u : revproxy.Upstream),
      (lb.RemoveUpstream u).sessions = lb.sessions ∧ u ∉ (lb.RemoveUpstream u).Upstreams) ∧
    (∀ (lb : revproxy.LoadBalancer) (conns : revproxy.Upstream → Int) (fastHash : String → Nat)
      (rnd : Nat) (ip : String) (retry : Option revproxy.Upstream) (u : revproxy.Upstream),
      lb.Sticky = true → lb.sticky ip = some u → some u ≠ retry →
      ((lb.RemoveUpstream u).Next conns fastHash rnd ip retry).1 = some u) ∧
    ((((revproxy.NewLoadBalancer revproxy.stickyConn).AddUpstream 1).Next
        (fun _ => 0) (fun _ => 0) 0 "10.0.0.1" none).1 = some 1 ∧
     ((((revproxy.NewLoadBalancer revproxy.stickyConn).AddUpstream 1).Next
        (fun _ => 0) (fun _ => 0) 0 "10.0.0.1" none).2.RemoveUpstream 1).Upstreams = [] ∧
     (((((revproxy.NewLoadBalancer revproxy.stickyConn).AddUpstream 1).Next
        (fun _ => 0) (fun _ => 0) 0 "10.0.0.1" none).2.RemoveUpstream 1).Next
        (fun _ => 0) (fun _ => 0) 0 "10.0.0.1" none).1 = some 1) := by
  refine ⟨fun lb u => ⟨revproxy.RemoveUpstream_sessions lb u,
    revproxy.RemoveUpstream_not_mem lb u⟩, ?_, by decide, by decide, by decide⟩
  intro lb conns fastHash rnd ip retry u hs hu hne
  refine (revproxy.Next_fst_kept (lb.RemoveUpstream u) conns fastHash rnd ip retry u hs ?_ hne).1
  simp only [revproxy.LoadBalancer.sticky, revproxy.RemoveUpstream_sessions]
  exact hu

/-- C13: in a state with at least two upstreams of which one differs from `retry`,
`Next(ip, retry)` returns a non-nil upstream different from `retry`, for every method
string (so for `conn`, `hash` and `random`), every random draw, every hash function,
all connection counts, and with `Sticky` set or not. -/
theorem C13_next_avoids_retry (lb : revproxy.LoadBalancer) (conns : revproxy.Upstream → Int)
    (fastHash : String → Nat) (rnd : Nat) (ip : String) (retry : Option revproxy.Upstream)
    (hlen : 2 ≤ lb.Upstreams.length) (hex : ∃ u ∈ lb.Upstreams, some u ≠ retry) :
    ∃ up, (lb.Next conns fastHash rnd ip retry).1 = some up ∧ some up ≠ retry := by
  obtain ⟨up, hp, hne, _⟩ := revproxy.pick_ne_retry lb conns fastHash rnd ip retry hlen hex
  rcases revproxy.Next_fst_cases lb conns fastHash rnd ip retry with h | ⟨v, hv, hvne⟩
  · exact ⟨up, h.trans hp, hne⟩
  · exact ⟨v, hv, hvne⟩

/-- C13 (witness): upstreams 1 and 2, method `random` with the draw falling on the failed
upstream 1. -/
theorem C13_next_avoids_retry_witness :
    ∃ up, ((((revproxy.NewLoadBalancer
        { revproxy.stickyConn with Method := revproxy.LbRandom }).AddUpstream 1).AddUpstream 2).Next
      (fun _ => 0) (fun _ => 0) 0 "10.0.0.1" (some 1)).1 = some up ∧ some up ≠ some 1 :=
  C13_next_avoids_retry _ (fun _ => 0) (fun _ => 0) 0 "10.0.0.1" (some 1) (by decide)
    ⟨2, by decide, by decide⟩

/-- C14: with method `conn`, `Sticky` unset and at least two upstreams, `Next(ip, retry)`
returns nil when every upstream of the list is `retry`; otherwise it returns an upstream
`up` different from `retry` that splits the list as `pre ++ up :: post` with every
non-`retry` upstream of `pre` having strictly more connections than `up` and every
non-`retry` upstream of `post` at least as many (the earliest of least count); the
state is unchanged. -/
theorem C14_conn_picks_least_connections (lb : revproxy.LoadBalancer)
    (conns : revproxy.Upstream → Int) (fastHash : String → Nat) (rnd : Nat) (ip : String)
    (retry : Option revproxy.Upstream) (hm : lb.Method = revproxy.LbConn)
    (hs : lb.Sticky = false) (hlen : 2 ≤ lb.Upstreams.length) :
    ((∀ v ∈ lb.Upstreams, some v = retry) →
      (lb.Next conns fastHash rnd ip retry).1 = none) ∧
    ((∃ v ∈ lb.Upstreams, some v ≠ retry) →
      ∃ up pre post, (lb.Next conns fastHash rnd ip retry).1 = some up ∧ some up ≠ retry ∧
        lb.Upstreams = pre ++ up :: post ∧
        (∀ v ∈ pre, some v ≠ retry → conns up < conns v) ∧
        (∀ v ∈ post, some v ≠ retry → conns up ≤ conns v)) ∧
    (lb.Next conns fastHash rnd ip retry).2 = lb := by
  rw [revproxy.Next_not_sticky lb conns fastHash rnd ip retry hs]
  have h0 : ¬ lb.Upstreams.length = 0 := by omega
  have h1 : ¬ lb.Upstreams.length = 1 := by omega
  cases hups : lb.Upstreams with
  | nil => simp [hups] at hlen
  | cons first rest =>
    rw [hups] at h0 h1
    obtain ⟨m, hmin, hscan⟩ := revproxy.MinBy_connLess conns retry first rest
    have hpick : lb.pick conns fastHash rnd ip retry = if some m = retry then none else some m := by
      simp only [revproxy.LoadBalancer.pick, hups, h0, h1, hm, if_true, if_false, hmin]
    refine ⟨?_, ?_, rfl⟩
    · intro hall
      rcases hscan with ⟨_, hmr⟩ | ⟨hne, pre, post, hsplit, _, _⟩
      · simp [hpick, hmr]
      · have : m ∈ first :: rest := by rw [hsplit]; simp
        exact absurd (hall m this) hne
    · rintro ⟨v, hv, hvne⟩
      rcases hscan with ⟨hall, _⟩ | ⟨hne, pre, post, hsplit, hpre, hpost⟩
      · exact absurd (hall v hv) hvne
      · exact ⟨m, pre, post, by simp [hpick, hne], hne, hsplit, hpre, hpost⟩

/-- C14 (witness): upstreams 1, 2, 3 with 4, 2 and 2 connections and no failed upstream:
the upstream returned has no more connections than any other and strictly fewer than those
listed before it. -/
theorem C14_conn_picks_least_connections_witness :
    ∃ up pre post,
      (((((revproxy.NewLoadBalancer { revproxy.stickyConn with Sticky := false }).AddUpstream
        1).AddUpstream 2).AddUpstream 3).Next
        (fun v => if v = 1 then 4 else 2) (fun _ => 0) 0 "10.0.0.1" none).1 = some up ∧
      some up ≠ none ∧
      ((((revproxy.NewLoadBalancer { revproxy.stickyConn with Sticky := false }).AddUpstream
        1).AddUpstream 2).AddUpstream 3).Upstreams = pre ++ up :: post ∧
      (∀ v ∈ pre, some v ≠ none → (if up = 1 then (4 : Int) else 2) < (if v = 1 then 4 else 2)) ∧
      (∀ v ∈ post, some v ≠ none → (if up = 1 then (4 : Int) else 2) ≤ (if v = 1 then 4 else 2)) :=
  (C14_conn_picks_least_connections
    ((((revproxy.NewLoadBalancer { revproxy.stickyConn with Sticky := false }).AddUpstream
        1).AddUpstream 2).AddUpstream 3)
    (fun v => if v = 1 then 4 else 2) (fun _ => 0) 0 "10.0.0.1" none rfl rfl (by decide)).2.1
    ⟨1, by decide, by decide⟩

namespace revproxy

theorem Next_ne_none (lb : LoadBalancer) (conns : Upstream → Int) (fastHash : String → Nat)
    (rnd : Nat) (ip : String) (retry : Option Upstream) (hne : lb.Upstreams ≠ [])
    (hnd : lb.Upstreams.Nodup) :
    ∃ us, (lb.Next conns fastHash rnd ip retry).1 = some us := by
  rcases Next_fst_cases lb conns fastHash rnd ip retry with h | ⟨v, hv, _⟩
  · rw [h]
    cases hups : lb.Upstreams with
    | nil => exact absurd hups hne
    | cons a rest =>
      cases rest with
      | nil => exact ⟨a, pick_single lb conns fastHash rnd ip retry a hups⟩
      | cons b rest =>
        have hab : a ≠ b := by
          rw [hups] at hnd
          simp at hnd
          exact hnd.1.1
        have hex : ∃ u ∈ lb.Upstreams, some u ≠ retry := by
          rw [hups]
          by_cases ha : some a = retry
          · refine ⟨b, by simp, ?_⟩
            intro hb
            exact hab (Option.some.inj (ha.trans hb.symm))
          · exact ⟨a, by simp, ha⟩
        obtain ⟨up, hp, _, _⟩ := pick_ne_retry lb conns fastHash rnd ip retry
          (by rw [hups]; simp) hex
        exact ⟨up, hp⟩
  · exact ⟨v, hv⟩

theorem ServeHTTP_all_fail (fastHash : String → Nat) (clientIp : String) (script : List Round) :
    ∀ (lb : LoadBalancer) (c : requestContext) (sent : List Upstream),
      lb.Upstreams ≠ [] → lb.Upstreams.Nodup →
      (∀ round ∈ script, round.outcome = Dispatch.failed) →
      (lb.RetryMax - c.RetryCount).toNat ≤ script.length →
      ∃ s, LoadBalancer.ServeHTTP fastHash clientIp script lb (some c) sent = some s ∧
        s.response = Response.badGateway ∧
        s.dispatches.length = sent.length + (lb.RetryMax - c.RetryCount).toNat := by
  induction script with
  | nil =>
    intro lb c sent _ _ _ hlen
    have h : c.RetryCount ≥ lb.RetryMax := by
      simp at hlen
      omega
    refine ⟨{ dispatches := sent, response := Response.badGateway, lb := lb },
      by simp [LoadBalancer.ServeHTTP, retryCountExceeded, h], rfl, ?_⟩
    have : (lb.RetryMax - c.RetryCount).toNat = 0 := by omega
    simp [this]
  | cons round rest ih =>
    intro lb c sent hne hnd hfail hlen
    by_cases h : c.RetryCount ≥ lb.RetryMax
    · refine ⟨{ dispatches := sent, response := Response.badGateway, lb := lb },
        by simp [LoadBalancer.ServeHTTP, retryCountExceeded, h], rfl, ?_⟩
      have : (lb.RetryMax - c.RetryCount).toNat = 0 := by omega
      simp [this]
    · obtain ⟨us, hus⟩ := Next_ne_none lb round.conns fastHash round.rnd c.Ip c.Previous hne hnd
      have hf := Next_fields lb round.conns fastHash round.rnd c.Ip c.Previous
      have hout : round.outcome = Dispatch.failed := hfail round (List.mem_cons_self _ _)
      cases hn : lb.Next round.conns fastHash round.rnd c.Ip c.Previous with
      | mk r lb' =>
        rw [hn] at hus hf
        simp only at hus hf
        subst hus
        have hmax : lb'.RetryMax = lb.RetryMax := by
          rw [show lb'.RetryMax = lb'.toOptions.RetryMax from rfl, hf.2]
        obtain ⟨s, hs, hresp, hcount⟩ := ih lb'
          { Ip := c.Ip, RetryCount := c.RetryCount + 1, Previous := some us } (sent ++ [us])
          (by rw [hf.1]; exact hne) (by rw [hf.1]; exact hnd)
          (fun r hr => hfail r (List.mem_cons_of_mem _ hr))
          (by simp only [List.length_cons] at hlen; rw [hmax]; dsimp only; omega)
        refine ⟨s, ?_, hresp, ?_⟩
        · simp [LoadBalancer.ServeHTTP, retryCountExceeded, h, hn, hout, hs]
        · rw [hcount, hmax]
          simp only [List.length_append, List.length_singleton]
          omega

theorem ServeHTTP_first_all_fail (fastHash : String → Nat) (clientIp : String)
    (script : List Round) (lb : LoadBalancer) (hne : lb.Upstreams ≠ [])
    (hnd : lb.Upstreams.Nodup) (hfail : ∀ round ∈ script, round.outcome = Dispatch.failed)
    (hlen : max 1 lb.RetryMax.toNat ≤ script.length) :
    ∃ s, LoadBalancer.ServeHTTP fastHash clientIp script lb none [] = some s ∧
      s.response = Response.badGateway ∧
      s.dispatches.length = max 1 lb.RetryMax.toNat := by
  cases script with
  | nil => simp at hlen
  | cons round rest =>
    obtain ⟨us, hus⟩ := Next_ne_none lb round.conns fastHash round.rnd clientIp none hne hnd
    have hf := Next_fields lb round.conns fastHash round.rnd clientIp none
    have hout : round.outcome = Dispatch.failed := hfail round (List.mem_cons_self _ _)
    cases hn : lb.Next round.conns fastHash round.rnd clientIp none with
    | mk r lb' =>
      rw [hn] at hus hf
      simp only at hus hf
      subst hus
      have hmax : lb'.RetryMax = lb.RetryMax := by
        rw [show lb'.RetryMax = lb'.toOptions.RetryMax from rfl, hf.2]
      obtain ⟨s, hs, hresp, hcount⟩ := ServeHTTP_all_fail fastHash clientIp rest lb'
        { Ip := clientIp, RetryCount := 1, Previous := some us } [us]
        (by rw [hf.1]; exact hne) (by rw [hf.1]; exact hnd)
        (fun r hr => hfail r (List.mem_cons_of_mem _ hr))
        (by simp only [List.length_cons] at hlen; rw [hmax]; dsimp only; omega)
      refine ⟨s, ?_, hresp, ?_⟩
      · simp [LoadBalancer.ServeHTTP, retryCountExceeded, hn, hout, hs]
      · rw [hcount, hmax]
        simp only [List.length_singleton]
        omega

end revproxy

/-- C15: a request all of whose dispatches fail is dispatched `max(1, retry_max)` times
and then answered 502, for every load balancer with at least one upstream (none listed
twice): `ServeHTTP` refuses the retry at which `RetryCount` reaches `RetryMax`, so there
are `retry_max - 1` retries, not `retry_max`.  With `retry_max = 1` the request is
dispatched once and not retried; with `retry_max = 3` it is dispatched three times. -/
theorem C15_retry_max_dispatches_not_retries :
    (∀ (fastHash : String → Nat) (clientIp : String) (script : List revproxy.Round)
      (lb : revproxy.LoadBalancer), lb.Upstreams ≠ [] → lb.Upstreams.Nodup →
      (∀ round ∈ script, round.outcome = revproxy.Dispatch.failed) →
      max 1 lb.RetryMax.toNat ≤ script.length →
      ∃ s, revproxy.LoadBalancer.ServeHTTP fastHash clientIp script lb none [] = some s ∧
        s.response = revproxy.Response.badGateway ∧
        s.dispatches.length = max 1 lb.RetryMax.toNat) ∧
    (∃ s, revproxy.LoadBalancer.ServeHTTP (fun _ => 0) "10.0.0.1" (revproxy.allFail 5)
        ((revproxy.NewLoadBalancer { revproxy.stickyConn with RetryMax := 1 }).AddUpstream 1)
        none [] = some s ∧
      s.response = revproxy.Response.badGateway ∧ s.dispatches = [1]) ∧
    (∃ s, revproxy.LoadBalancer.ServeHTTP (fun _ => 0) "10.0.0.1" (revproxy.allFail 5)
        (((revproxy.NewLoadBalancer revproxy.stickyConn).AddUpstream 1).AddUpstream 2)
        none [] = some s ∧
      s.response = revproxy.Response.badGateway ∧ s.dispatches = [1, 2, 1]) := by
  refine ⟨fun fastHash clientIp script lb hne hnd hfail hlen =>
    revproxy.ServeHTTP_first_all_fail fastHash clientIp script lb hne hnd hfail hlen, ?_, ?_⟩
  · exact ⟨_, rfl, rfl, rfl⟩
  · exact ⟨_, rfl, rfl, rfl⟩

/-! ## Whiteboard -/

/-- C16: for a whiteboard `w` with a backing map, a non-empty fork name `a`, a key `k` and
a value `v` that `json.Marshal` turns into `msg`: `w.Fork(a).Set(k, v)` returns, and
afterwards both `w.Get(a + "." + k, out)` and `w.Fork(a).Get(k, out)` find the entry and
hand exactly `msg`, the JSON stored for `v`, to `json.Unmarshal` (so a `json.RawMessage`
target receives `msg`, and any target for which decoding `msg` gives `v` receives `v`);
`Fork("")` is `w` itself. -/
theorem C16_fork_set_is_visible_in_parent {α β : Type} (w : Whiteboard) (heap : MapHeap)
    (d : Nat) (a k : String) (v : α) (marshal : α → Except String RawMessage)
    (unmarshal : RawMessage → Except String β) (msg : RawMessage)
    (hdata : w.data = some d) (ha : a ≠ "") (hm : marshal v = Except.ok msg) :
    ∃ heap', (w.Fork a).Set heap k (marshal v) = some heap' ∧
      w.Get heap' (a ++ "." ++ k) unmarshal = unmarshal msg ∧
      (w.Fork a).Get heap' k unmarshal = unmarshal msg ∧
      w.Get heap' (a ++ "." ++ k) Except.ok = Except.ok msg ∧
      (∀ v' : β, unmarshal msg = Except.ok v' →
        w.Get heap' (a ++ "." ++ k) unmarshal = Except.ok v' ∧
        (w.Fork a).Get heap' k unmarshal = Except.ok v') ∧
      w.Fork "" = w := by
  have hfork : w.Fork a = { data := some d, pfx := w.pfx ++ a ++ "." } := by
    simp [Whiteboard.Fork, ha, hdata]
  have hkey : w.pfx ++ (a ++ "." ++ k) = w.pfx ++ a ++ "." ++ k := by
    simp [String.append_assoc]
  refine ⟨Function.update heap d
    (Function.update (heap d) (w.pfx ++ a ++ "." ++ k) (some msg)), ?_, ?_, ?_, ?_, ?_, ?_⟩
  · simp [hfork, Whiteboard.Set, hm]
  · simp [Whiteboard.Get, hdata, hkey]
  · simp [hfork, Whiteboard.Get]
  · simp [Whiteboard.Get, hdata, hkey]
  · intro v' hv'
    constructor
    · simp [Whiteboard.Get, hdata, hkey, hv']
    · simp [hfork, Whiteboard.Get, hv']
  · simp [Whiteboard.Fork]

/-- C16 (witness): a fresh whiteboard, fork `a`, key `k`, the JSON text `1` stored as is. -/
theorem C16_fork_set_is_visible_in_parent_witness :
    ∃ heap', ((NewWhiteboard 0).Fork "a").Set emptyHeap "k" (Except.ok [49]) = some heap' ∧
      (NewWhiteboard 0).Get heap' ("a" ++ "." ++ "k") Except.ok = Except.ok [49] ∧
      ((NewWhiteboard 0).Fork "a").Get heap' "k" Except.ok = Except.ok [49] ∧
      (NewWhiteboard 0).Get heap' ("a" ++ "." ++ "k") Except.ok = Except.ok [49] ∧
      (∀ v' : RawMessage, (Except.ok [49] : Except String RawMessage) = Except.ok v' →
        (NewWhiteboard 0).Get heap' ("a" ++ "." ++ "k") Except.ok = Except.ok v' ∧
        ((NewWhiteboard 0).Fork "a").Get heap' "k" Except.ok = Except.ok v') ∧
      (NewWhiteboard 0).Fork "" = NewWhiteboard 0 :=
  C16_fork_set_is_visible_in_parent (NewWhiteboard 0) emptyHeap 0 "a" "k" ([49] : RawMessage)
    Except.ok Except.ok [49] rfl (by decide) rfl

/-! ## `StatusFromErr` -/

theorem GoError.Is_iff_mem_unwrapChain (err target : GoError) :
    err.Is target = true ↔ target ∈ err.unwrapChain := by
  induction err with
  | wrap msg inner ih =>
    unfold GoError.Is GoError.unwrapChain
    simp only [Bool.or_eq_true, beq_iff_eq, List.mem_cons, ih]
    exact ⟨fun h => h.imp Eq.symm id, fun h => h.imp Eq.symm id⟩
  | join a b iha ihb =>
    unfold GoError.Is GoError.unwrapChain
    simp only [Bool.or_eq_true, beq_iff_eq, List.mem_cons, List.mem_append, iha, ihb]
    exact ⟨fun h => h.imp Eq.symm id, fun h => h.imp Eq.symm id⟩
  | ofStatus s =>
    unfold GoError.Is GoError.unwrapChain
    simp only [Bool.or_eq_true, beq_iff_eq, List.mem_singleton, Bool.false_eq_true, or_false]
    exact eq_comm
  | errOk =>
    unfold GoError.Is GoError.unwrapChain
    simp only [Bool.or_eq_true, beq_iff_eq, List.mem_singleton, Bool.false_eq_true, or_false]
    exact eq_comm
  | errNonRetriable =>
    unfold GoError.Is GoError.unwrapChain
    simp only [Bool.or_eq_true, beq_iff_eq, List.mem_singleton, Bool.false_eq_true, or_false]
    exact eq_comm
  | new text =>
    unfold GoError.Is GoError.unwrapChain
    simp only [Bool.or_eq_true, beq_iff_eq, List.mem_singleton, Bool.false_eq_true, or_false]
    exact eq_comm

theorem StatusFromErr_of_unique (keys : List Status) (e : GoError) (s : Status)
    (hs : s ∈ keys) (h : ∀ t, e.Is (GoError.ofStatus t) = true ↔ t = s) :
    StatusFromErr keys (some e) = s := by
  simp only [StatusFromErr]
  cases hf : keys.find? (fun t => e.Is (GoError.ofStatus t)) with
  | none =>
    have := List.find?_eq_none.1 hf s hs
    simp [(h s).2 rfl] at this
  | some t =>
    have := List.find?_some hf
    exact (h t).1 this

theorem StatusFromErr_of_none (keys : List Status) (e : GoError)
    (h : ∀ t, e.Is (GoError.ofStatus t) = false) :
    StatusFromErr keys (some e) = Status.Errored := by
  simp only [StatusFromErr]
  cases hf : keys.find? (fun t => e.Is (GoError.ofStatus t)) with
  | none => rfl
  | some t =>
    have := List.find?_some hf
    simp [h t] at this

/-- C20: when the loop of `StatusFromErr` ranges over all keys of `statusDetails` (in any
order): `StatusFromErr(nil)` is `Complete`; for each of the eleven statuses `s`,
`StatusFromErr(s)` is `s`, and `StatusFromErr(e)` is `s` for every error `e` whose unwrap
chain contains `s` and no other status; and `StatusFromErr(e)` is `Errored` for every
non-nil `e` whose unwrap chain contains no status. -/
theorem C20_StatusFromErr_classifies (keys : List Status) (hkeys : ∀ s : Status, s ∈ keys) :
    StatusFromErr keys none = Status.Complete ∧
    Status.all.length = 11 ∧ (∀ s : Status, s ∈ Status.all) ∧
    (∀ s : Status, StatusFromErr keys (some (GoError.ofStatus s)) = s) ∧
    (∀ (e : GoError) (s : Status), GoError.ofStatus s ∈ e.unwrapChain →
      (∀ t : Status, GoError.ofStatus t ∈ e.unwrapChain → t = s) →
      StatusFromErr keys (some e) = s) ∧
    (∀ e : GoError, (∀ t : Status, GoError.ofStatus t ∉ e.unwrapChain) →
      StatusFromErr keys (some e) = Status.Errored) := by
  refine ⟨rfl, rfl, ?_, ?_, ?_, ?_⟩
  · intro s
    cases s <;> decide
  · intro s
    apply StatusFromErr_of_unique keys _ s (hkeys s)
    intro t
    rw [ofStatus_Is_iff, decide_eq_true_iff]
    exact eq_comm
  · intro e s hmem honly
    apply StatusFromErr_of_unique keys e s (hkeys s)
    intro t
    rw [GoError.Is_iff_mem_unwrapChain]
    exact ⟨honly t, fun h => h ▸ hmem⟩
  · intro e hnone
    apply StatusFromErr_of_none
    intro t
    have := hnone t
    rw [← GoError.Is_iff_mem_unwrapChain] at this
    simpa using this

/-- C20 (witness): the keys in declaration order. -/
theorem C20_StatusFromErr_classifies_witness :
    StatusFromErr Status.all none = Status.Complete ∧
    Status.all.length = 11 ∧ (∀ s : Status, s ∈ Status.all) ∧
    (∀ s : Status, StatusFromErr Status.all (some (GoError.ofStatus s)) = s) ∧
    (∀ (e : GoError) (s : Status), GoError.ofStatus s ∈ e.unwrapChain →
      (∀ t : Status, GoError.ofStatus t ∈ e.unwrapChain → t = s) →
      StatusFromErr Status.all (some e) = s) ∧
    (∀ e : GoError, (∀ t : Status, GoError.ofStatus t ∉ e.unwrapChain) →
      StatusFromErr Status.all (some e) = Status.Errored) :=
  C20_StatusFromErr_classifies Status.all (fun s => by cases s <;> decide)

/-! ## Named events -/

namespace job

/-- The state in which the subscription of `once name` with callback `cb` is the only
one and `calls` holds `k` runs of `cb`. -/
def onceInstalled (name : String) (cb k : Nat) : Events :=
  { subs := [{ fn := EventFn.removeThenCallback 0 cb, event := none }]
    namedEvents := [(name, [0])]
    goroutines := []
    calls := List.replicate k cb
    panicked := false }

theorem TriggerOnce_Listen_noEvents (name : String) (cb : Nat) :
    TriggerOnce.Listen noEvents name cb = (0, onceInstalled name cb 0) := by
  simp [TriggerOnce.Listen, Listen, getNamedEvent, noEvents, storeSubscriber, onceInstalled]

theorem Signal_onceInstalled (name : String) (cb k : Nat) :
    signalAndWait (onceInstalled name cb k) name = onceInstalled name cb (k + 1) := by
  simp [signalAndWait, Signal, getNamedEvent, onceInstalled, quiesce, Goroutine.run,
    EventFn.run, Remove, List.replicate_succ']

theorem signalTimes_onceInstalled (name : String) (cb : Nat) (n : Nat) :
    ∀ k, signalTimes name n (onceInstalled name cb k) = onceInstalled name cb (k + n) := by
  induction n with
  | zero => intro k; rfl
  | succ n ih =>
    intro k
    rw [signalTimes, Signal_onceInstalled, ih]
    congr 1
    omega

end job

/-- C17: a `once name` trigger installed with callback `cb` is never detached: the
`remove` it calls before `cb` finds the field `event` of its subscription nil and
returns, so after `n` calls of `Signal(name)` (each left to finish) `cb` has run `n`
times and the subscription is still among the subscribers; two signals run `cb` twice. -/
theorem C17_once_subscription_is_not_detached :
    (∀ (name : String) (cb n : Nat),
      (job.signalTimes name n (job.TriggerOnce.Listen job.noEvents name cb).2).calls
          = List.replicate n cb ∧
      (job.signalTimes name n (job.TriggerOnce.Listen job.noEvents name cb).2).namedEvents
          = [(name, [0])] ∧
      (job.signalTimes name n (job.TriggerOnce.Listen job.noEvents name cb).2).panicked
          = false) ∧
    (job.signalTimes "deploy" 2 (job.TriggerOnce.Listen job.noEvents "deploy" 7).2).calls
      = [7, 7] := by
  refine ⟨?_, by decide⟩
  intro name cb n
  rw [job.TriggerOnce_Listen_noEvents, job.signalTimes_onceInstalled]
  simp [job.onceInstalled]

/-! ## Triggers -/

/-- C18: the function registered for `[` at Trigger position stores the elements in a
`TriggerAny` but names the kind `many`, a kind that no `Define` registers (the `any`
trigger is registered as `any`); so a trigger read from an array and marshalled (as the
object with the single member `many`) cannot be unmarshalled again, whatever the
encoding of the body and the registered functions are. -/
theorem C18_array_trigger_has_kind_many :
    (∀ (w : job.Trigger) (list : List job.Trigger),
      ∃ t, job.unmarshalTriggerArray w (Except.ok list) = Except.ok t ∧
        t.ITrigger = some (job.ITrigger.TriggerAny list) ∧
        t.ID.Kind = "many" ∧ t.ID.Kind ≠ "any" ∧
        (job.triggerDefaults.find? (fun kd => kd.1 == t.ID.Kind)) = none ∧
        (w.ID.ID = "" →
          ∀ (encode : Option job.ITrigger → RawMessage)
            (factory : job.ITrigger → ID → Option String → RawMessage →
              Except String job.ITrigger),
            job.unmarshalTriggerObject factory (job.marshalTrigger encode t)
              = Except.error "no unmarshaler found")) ∧
    (∃ t, job.unmarshalTriggerArray (job.Trigger.mk none { ID := "", Kind := "" })
        (Except.ok [job.Trigger.mk (some (job.ITrigger.TriggerOn "deploy"))
          { ID := "deploy", Kind := "on" }]) = Except.ok t ∧
      job.marshalTrigger (fun _ => []) t = [("many", [])] ∧
      job.unmarshalTriggerObject (fun d _ _ _ => Except.ok d) (job.marshalTrigger (fun _ => []) t)
        = Except.error "no unmarshaler found") := by
  constructor
  · intro w list
    refine ⟨_, rfl, rfl, rfl, ?_, ?_, ?_⟩
    · show "many" ≠ "any"
      decide
    · show job.triggerDefaults.find? (fun kd => kd.1 == "many") = none
      rfl
    · intro hid encode factory
      cases w with
      | mk i id =>
        cases id with
        | mk idText kind =>
          simp only [job.Trigger.ID] at hid
          subst hid
          rfl
  · exact ⟨_, rfl, rfl, rfl⟩

/-! ## `ParsableSize` -/

theorem fmtSkipSpace_quote (rest : List Char) :
    fmtSkipSpace ('"' :: rest) = Except.ok ('"' :: rest) := by
  have h1 : ¬ ('"' = '\r' ∧ rest.head? = some '\n') := fun h => absurd h.1 (by decide)
  have h2 : ¬ ('"' = '\n') := by decide
  have h3 : fmtIsSpace '"' = false := by decide
  simp only [fmtSkipSpace, h1, h2, h3, if_false, Bool.false_eq_true]

theorem fmtFloatToken_quote (rest : List Char) :
    fmtFloatToken ('"' :: rest) = ([], '"' :: rest) := by
  have a1 : fmtAccept ['n', 'N'] ([], '"' :: rest) = (false, ([], '"' :: rest)) := by
    simp [fmtAccept]
  have a2 : fmtAccept ['+', '-'] ([], '"' :: rest) = (false, ([], '"' :: rest)) := by
    simp [fmtAccept]
  have a3 : fmtAccept ['i', 'I'] ([], '"' :: rest) = (false, ([], '"' :: rest)) := by
    simp [fmtAccept]
  have a4 : fmtAccept ['0'] ([], '"' :: rest) = (false, ([], '"' :: rest)) := by
    simp [fmtAccept]
  have a5 : fmtAccept ['.'] ([], '"' :: rest) = (false, ([], '"' :: rest)) := by
    simp [fmtAccept]
  have a6 : fmtAccept ['e', 'E', 'p', 'P'] ([], '"' :: rest) = (false, ([], '"' :: rest)) := by
    simp [fmtAccept]
  have a7 : fmtAcceptAll "0123456789_".data [] ('"' :: rest) = ([], '"' :: rest) := by
    have : '"' ∉ "0123456789_".data := by decide
    simp only [fmtAcceptAll, this, if_false]
  simp [fmtFloatToken, a1, a2, a3, a4, a5, a6, a7]

theorem sscanfFloatString_quote (rest : List Char) :
    sscanfFloatString ('"' :: rest)
      = Except.error "strconv.ParseFloat: parsing \"\": invalid syntax" := by
  have hp : parseFloat [] = none := by decide!
  simp only [sscanfFloatString, fmtSkipSpace_quote, fmtFloatToken_quote, hp]
  rfl

theorem UnmarshalJSON_quoted (d : ParsableSize)
    (jsonString : List Char → Except String String) (jsonNumber : List Char → Except String ℚ)
    (totalMemory : Int) (rest : List Char) :
    ∃ msg, d.UnmarshalJSON jsonString jsonNumber totalMemory ('"' :: rest)
      = Except.error msg := by
  have h1 : ¬ ('"' = 'n') := by decide
  simp only [ParsableSize.UnmarshalJSON, h1, if_false, if_true]
  cases h : jsonString ('"' :: rest) with
  | error msg => exact ⟨msg, rfl⟩
  | ok str =>
    refine ⟨"strconv.ParseFloat: parsing \"\": invalid syntax", ?_⟩
    simp only [ParsableSize.UnmarshalText, sscanfFloatString_quote]

/-- C19: the JSON that `MarshalJSON` produces for a non-zero `ParsableSize` is never
unmarshalled: `UnmarshalJSON` hands the JSON text with its quotes to `UnmarshalText`,
whose `Sscanf` finds no number at the opening quote, so the call returns an error for
every non-zero value (whatever `json.Unmarshal` does); only the zero value, written as
`null`, comes back.  For 512 the JSON is `"512b"` and the error is that of
`strconv.ParseFloat`; and the text form alone does not round-trip either: 2048 is
written `2kb`, which `UnmarshalText` reads as 2000. -/
theorem C19_size_json_does_not_round_trip :
    (∀ (s : ParsableSize) (jsonString : List Char → Except String String)
      (jsonNumber : List Char → Except String ℚ) (totalMemory : Int), s.Value ≠ 0 →
      ∃ msg, ParsableSize.UnmarshalJSON { Value := 0 } jsonString jsonNumber totalMemory
        s.MarshalJSON = Except.error msg) ∧
    (∀ (jsonString : List Char → Except String String)
      (jsonNumber : List Char → Except String ℚ) (totalMemory : Int),
      ParsableSize.UnmarshalJSON { Value := 0 } jsonString jsonNumber totalMemory
        (ParsableSize.MarshalJSON { Value := 0 }) = Except.ok { Value := 0 }) ∧
    (ParsableSize.MarshalJSON { Value := 512 } = "\"512b\"".data ∧
      ParsableSize.UnmarshalJSON { Value := 0 } (fun text => Except.ok (String.mk text))
        (fun _ => Except.error "not a number") 0 (ParsableSize.MarshalJSON { Value := 512 })
        = Except.error "strconv.ParseFloat: parsing \"\": invalid syntax") ∧
    (ParsableSize.String { Value := 2048 } = "2kb" ∧
      ParsableSize.UnmarshalText { Value := 0 } 0 "2kb".data = Except.ok { Value := 2000 }) := by
  refine ⟨?_, ?_, ⟨by decide, by decide!⟩, ⟨by decide, by decide!⟩⟩
  · intro s jsonString jsonNumber totalMemory hs
    simp only [ParsableSize.MarshalJSON, hs, if_false, jsonQuote]
    exact UnmarshalJSON_quoted _ jsonString jsonNumber totalMemory _
  · intro jsonString jsonNumber totalMemory
    rfl

/-! ## `Options.WithDefaults` -/

theorem WithDefaults_eq (o : Options) :
    o.WithDefaults =
      { RetryDisabled := o.RetryDisabled
        RetryBackoff := max o.RetryBackoff (500 * Millisecond)
        RetryBackoffScale := if o.RetryBackoffScale ≤ 0 then 2 else o.RetryBackoffScale
        RetrySuccess := o.RetrySuccess
        RetryLimit := retryLimitWithDefaults o.RetryLimit
        MaxMemory := o.MaxMemory
        MinUptime := if 0 < o.MinUptime then o.MinUptime else 0
        ExecTimeout := o.ExecTimeout
        StartTimeout := o.StartTimeout
        StopTimeout :=
          if 0 < o.StopTimeout then max (min o.StopTimeout (30 * Second)) (250 * Millisecond)
          else 5 * Second } := by
  unfold Options.WithDefaults retryLimitWithDefaults
  simp only [IsPositive, ParsableDuration.Max, ParsableDuration.Clamp]
  split_ifs <;> simp_all

theorem WithDefaults_zeroOptions : zeroOptions.WithDefaults = defaultOptions := by
  decide!

theorem retryLimitWithDefaults_zero (r : TimerRate) (h : r.IsZero = true) :
    retryLimitWithDefaults r = { Count := 10, Period := 30000000000 } := by
  simp only [retryLimitWithDefaults, h, if_true]
  decide

theorem retryLimitWithDefaults_nonzero (r : TimerRate) (h : r.IsZero = false) :
    retryLimitWithDefaults r =
      { Count := min r.Count
          (300000 / Milliseconds (max (min r.Period Hour) (30 * Second))).toNat
        Period := max (min r.Period Hour) (30 * Second) } ∧
    30 * Second ≤ max (min r.Period Hour) (30 * Second) ∧
    max (min r.Period Hour) (30 * Second) ≤ Hour ∧
    (300000 / Milliseconds (max (min r.Period Hour) (30 * Second))).toNat ≤ 10 := by
  have hlo : 30000000000 ≤ max (min r.Period 3600000000000) 30000000000 := le_max_right _ _
  have hhi : max (min r.Period 3600000000000) 30000000000 ≤ 3600000000000 := by omega
  generalize hP : max (min r.Period 3600000000000) 30000000000 = P at hlo hhi
  have hm : Milliseconds P = P / 1000000 := by
    unfold Milliseconds
    exact Int.tdiv_eq_ediv (by omega) (by omega)
  have hm1 : 30000 ≤ P / 1000000 := by omega
  have hq0 : (0 : Int) ≤ 300000 / (P / 1000000) := Int.ediv_nonneg (by omega) (by omega)
  have hq1 : 300000 / (P / 1000000) ≤ 10 :=
    Int.ediv_le_of_le_mul (by omega) (by omega)
  have hcmax : ((Rate 10 30000000000).Rescale P).Count = (300000 / (P / 1000000)).toNat := by
    have e1 : ((10 : Int) % 4294967296).toNat = 10 := by decide
    have e2 : Milliseconds 30000000000 = 30000 := by decide
    simp only [TimerRate.Rescale, Rate, e1, e2, hm]
    rw [Int.tdiv_eq_ediv (by omega) (by omega)]
    have e3 : ((10 : Nat) : Int) * 30000 = 300000 := by norm_num
    rw [e3, Int.emod_eq_of_lt hq0 (by omega)]
  have hcmin : ((RatePerSecond 0).Rescale P).Count = 0 := by
    have e1 : (RatePerSecond 0).Count = 0 := by decide!
    simp [TimerRate.Rescale, e1]
  refine ⟨?_, ?_, ?_, ?_⟩
  · simp only [retryLimitWithDefaults, h, Bool.false_eq_true, if_false, TimerRate.Clamp,
      TimerRate.ClampPeriod, Second, Hour]
    norm_num only
    rw [hP, hcmin, hcmax, hm]
    simp
  · simp only [Second, Hour]
    norm_num only
    rw [hP]
    exact hlo
  · simp only [Second, Hour]
    norm_num only
    rw [hP]
    exact hhi
  · simp only [Second, Hour]
    norm_num only
    rw [hP, hm]
    omega

theorem retryLimitWithDefaults_idem (r : TimerRate) :
    retryLimitWithDefaults (retryLimitWithDefaults r) = retryLimitWithDefaults r := by
  cases h : r.IsZero with
  | true =>
    rw [retryLimitWithDefaults_zero r h]
    decide
  | false =>
    obtain ⟨heq, hlo, hhi, _⟩ := retryLimitWithDefaults_nonzero r h
    have hnz : (retryLimitWithDefaults r).IsZero = false := by
      rw [heq]
      simp only [TimerRate.IsZero, Second] at hlo ⊢
      simp only [beq_eq_false_iff_ne, ne_eq]
      omega
    obtain ⟨heq2, _, _, _⟩ := retryLimitWithDefaults_nonzero _ hnz
    rw [heq2, heq]
    have hP : max (min (max (min r.Period Hour) (30 * Second)) Hour) (30 * Second)
        = max (min r.Period Hour) (30 * Second) := by
      simp only [Second, Hour] at hlo hhi ⊢
      omega
    simp only [hP]
    congr 1
    simp

/-- C21 (counterexample).  An execution timeout of one hour and a start timeout of one
millisecond are positive, and `WithDefaults` leaves them as they are, outside
`[250 ms, 30 s]`. -/
theorem C21_counterexample :
    IsPositive Hour = true ∧ IsPositive Millisecond = true ∧
    ({ zeroOptions with ExecTimeout := Hour, StartTimeout := Millisecond } :
      Options).WithDefaults.ExecTimeout = Hour ∧
    ¬ (Hour ≤ 30 * Second) ∧
    ({ zeroOptions with ExecTimeout := Hour, StartTimeout := Millisecond } :
      Options).WithDefaults.StartTimeout = Millisecond ∧
    ¬ (250 * Millisecond ≤ Millisecond) := by
  refine ⟨by decide, by decide, by decide!, by decide, by decide!, by decide⟩

/-- C21 (amended): after `WithDefaults`, for every input: a stop timeout that was positive
is the input clamped to `[250 ms, 30 s]` and lies in that range, a non-positive stop
timeout has become 5 s, and the execution and start timeouts are what they were. -/
theorem C21_only_stop_timeout_is_clamped (o : Options) :
    (0 < o.StopTimeout →
      o.WithDefaults.StopTimeout = ParsableDuration.Clamp o.StopTimeout (250 * Millisecond)
        (30 * Second) ∧
      250 * Millisecond ≤ o.WithDefaults.StopTimeout ∧
      o.WithDefaults.StopTimeout ≤ 30 * Second ∧
      (250 * Millisecond ≤ o.StopTimeout → o.StopTimeout ≤ 30 * Second →
        o.WithDefaults.StopTimeout = o.StopTimeout)) ∧
    (o.StopTimeout ≤ 0 → o.WithDefaults.StopTimeout = 5 * Second) ∧
    o.WithDefaults.ExecTimeout = o.ExecTimeout ∧
    o.WithDefaults.StartTimeout = o.StartTimeout := by
  rw [WithDefaults_eq]
  refine ⟨?_, ?_, rfl, rfl⟩
  · intro h
    simp only [h, if_true, ParsableDuration.Clamp, Second, Millisecond]
    refine ⟨trivial, ?_, ?_, ?_⟩ <;> omega
  · intro h
    have : ¬ 0 < o.StopTimeout := by omega
    simp only [this, if_false]

/-- C22: `WithDefaults` maps a zero retry limit to `10/30s`; of a non-zero one it brings
the period into `[30 s, 1 h]` and the count down to `300000 / period in ms` (what
`Rescale` makes of `10/30s`: the count times the old period over the new one), which
keeps the rate at or under 10 per 30 s but changes limits that are within the bounds:
`20/60s` (period within range, same rate as `10/30s`) becomes `5/60s`, and `10/1h`
becomes `0/1h`. -/
theorem C22_retry_limit_clamp_rescales_inversely :
    (∀ o : Options, o.RetryLimit.IsZero = true →
      o.WithDefaults.RetryLimit = { Count := 10, Period := 30 * Second }) ∧
    (∀ o : Options, o.RetryLimit.IsZero = false →
      30 * Second ≤ o.WithDefaults.RetryLimit.Period ∧
      o.WithDefaults.RetryLimit.Period ≤ Hour ∧
      (o.WithDefaults.RetryLimit.Count : Int) * (30 * Second)
        ≤ 10 * o.WithDefaults.RetryLimit.Period ∧
      o.WithDefaults.RetryLimit.Count
        = min o.RetryLimit.Count
            (300000 / Milliseconds o.WithDefaults.RetryLimit.Period).toNat) ∧
    (30 * Second ≤ 60 * Second ∧ 60 * Second ≤ Hour ∧
      (20 : Int) * (30 * Second) ≤ 10 * (60 * Second) ∧
      ({ zeroOptions with RetryLimit := { Count := 20, Period := 60 * Second } } :
        Options).WithDefaults.RetryLimit = { Count := 5, Period := 60 * Second }) ∧
    ({ zeroOptions with RetryLimit := { Count := 10, Period := Hour } } :
      Options).WithDefaults.RetryLimit = { Count := 0, Period := Hour } := by
  refine ⟨?_, ?_, ⟨by decide, by decide, by decide, by decide!⟩, by decide!⟩
  · intro o h
    rw [WithDefaults_eq]
    exact retryLimitWithDefaults_zero _ h
  · intro o h
    obtain ⟨heq, hlo, hhi, hc⟩ := retryLimitWithDefaults_nonzero o.RetryLimit h
    rw [WithDefaults_eq]
    simp only [heq]
    refine ⟨hlo, hhi, ?_, trivial⟩
    have h1 : min o.RetryLimit.Count
        (300000 / Milliseconds (max (min o.RetryLimit.Period Hour) (30 * Second))).toNat
        ≤ 10 := le_trans (min_le_right _ _) hc
    simp only [Second, Hour] at hlo h1 ⊢
    omega

/-- C27: `WithDefaults` is idempotent: applied to its own result it changes nothing. -/
theorem C27_WithDefaults_idempotent (o : Options) :
    o.WithDefaults.WithDefaults = o.WithDefaults := by
  rw [WithDefaults_eq o.WithDefaults, WithDefaults_eq o]
  simp only [retryLimitWithDefaults_idem]
  have h1 : max (max o.RetryBackoff (500 * Millisecond)) (500 * Millisecond)
      = max o.RetryBackoff (500 * Millisecond) := by simp
  have h2 : (if (if o.RetryBackoffScale ≤ 0 then (2 : ℚ) else o.RetryBackoffScale) ≤ 0 then 2
      else (if o.RetryBackoffScale ≤ 0 then (2 : ℚ) else o.RetryBackoffScale))
      = if o.RetryBackoffScale ≤ 0 then 2 else o.RetryBackoffScale := by
    split_ifs <;> norm_num at *
  have h3 : (if 0 < (if 0 < o.MinUptime then o.MinUptime else 0)
      then (if 0 < o.MinUptime then o.MinUptime else 0) else 0)
      = if 0 < o.MinUptime then o.MinUptime else 0 := by
    split_ifs <;> simp_all
  have h4 : (if 0 < (if 0 < o.StopTimeout
        then max (min o.StopTimeout (30 * Second)) (250 * Millisecond) else 5 * Second)
      then max (min (if 0 < o.StopTimeout
        then max (min o.StopTimeout (30 * Second)) (250 * Millisecond) else 5 * Second)
        (30 * Second)) (250 * Millisecond) else 5 * Second)
      = if 0 < o.StopTimeout then max (min o.StopTimeout (30 * Second)) (250 * Millisecond)
        else 5 * Second := by
    simp only [Second, Millisecond]
    split_ifs <;> omega
  rw [h1, h2, h3, h4]

/-! ## Terminal status of a `mustWorker` -/

theorem mustWorker.Status_of_cause (work : mustWorker) (c : GoError)
    (hc : work.cause = some c) :
    work.Status = if c = GoError.errOk then GoError.ofStatus Status.Complete else c := by
  by_cases h : c = GoError.errOk
  · simp [mustWorker.Status, hc, Cause, NotOk, h]
  · simp [mustWorker.Status, hc, Cause, NotOk, h]

/-- C24: once the context of a `mustWorker` is cancelled (its cause is recorded),
`Status()` keeps its value through every further schedule of events (calls of `Kill` and
`Stop`, expiries of the stop, start and execution timers, the memory watchdog, the exit of
the task, a cancellation of the parent): it is the recorded cause, or `Complete` when that
cause is the ok sentinel.  The first `cancel(err)` on a live worker records `err` (the ok
sentinel for nil), so the terminal status is `err`, or `Complete` for nil; and `Kill` on
a live worker makes the status `Cancelled` for good. -/
theorem C24_terminal_status_is_final (work : mustWorker) (c : GoError)
    (hc : work.cause = some c) (es : List mustWorker.Event) (work' : mustWorker)
    (hrun : work.run es = some work') :
    work'.Status = work.Status ∧
    work.Status = (if c = GoError.errOk then GoError.ofStatus Status.Complete else c) ∧
    (∀ (live : mustWorker) (err : Option GoError), live.cause = none →
      (live.cancel err).cause = some (err.getD GoError.errOk) ∧
      (live.cancel err).Status
        = (if err.getD GoError.errOk = GoError.errOk then GoError.ofStatus Status.Complete
            else err.getD GoError.errOk)) ∧
    (∀ live : mustWorker, live.cause = none →
      live.Kill.Status = GoError.ofStatus Status.Cancelled ∧
      ∀ (es' : List mustWorker.Event) (w : mustWorker), live.Kill.run es' = some w →
        w.Status = GoError.ofStatus Status.Cancelled) := by
  have hc' := mustWorker.run_cause_some es hc hrun
  have hcancel : ∀ (live : mustWorker) (err : Option GoError), live.cause = none →
      (live.cancel err).cause = some (err.getD GoError.errOk) := by
    intro live err hl
    cases err <;> simp [mustWorker.cancel, Cancel, OrOk, hl]
  refine ⟨?_, mustWorker.Status_of_cause work c hc, ?_, ?_⟩
  · rw [mustWorker.Status_of_cause work c hc, mustWorker.Status_of_cause work' c hc']
  · intro live err hl
    exact ⟨hcancel live err hl, mustWorker.Status_of_cause _ _ (hcancel live err hl)⟩
  · intro live hl
    have hk : live.Kill.cause = some (GoError.ofStatus Status.Cancelled) :=
      hcancel live (some (GoError.ofStatus Status.Cancelled)) hl
    have hs : ∀ w : mustWorker, w.cause = some (GoError.ofStatus Status.Cancelled) →
        w.Status = GoError.ofStatus Status.Cancelled := by
      intro w hw
      rw [mustWorker.Status_of_cause w _ hw]
      simp
    exact ⟨hs _ hk, fun es' w hr => hs w (mustWorker.run_cause_some es' hk hr)⟩

/-- C24 (witness): a worker in its Running phase is killed; then `Stop` is called, the
stop timer expires, the task exits with an error and `Kill` is called again: `Status()`
is still `Cancelled`. -/
theorem C24_terminal_status_is_final_witness :
    ∃ work', ((newMustWorker defaultOptions).Kill).run
        [mustWorker.Event.runBegin, mustWorker.Event.minUptime, mustWorker.Event.stop,
         mustWorker.Event.afterFunc, mustWorker.Event.stopTimeout,
         mustWorker.Event.exit Status.all (some (GoError.new "boom")),
         mustWorker.Event.kill] = some work' ∧
      work'.Status = ((newMustWorker defaultOptions).Kill).Status ∧
      ((newMustWorker defaultOptions).Kill).Status = GoError.ofStatus Status.Cancelled :=
  ⟨(((newMustWorker defaultOptions).Kill).run
        [mustWorker.Event.runBegin, mustWorker.Event.minUptime, mustWorker.Event.stop,
         mustWorker.Event.afterFunc, mustWorker.Event.stopTimeout,
         mustWorker.Event.exit Status.all (some (GoError.new "boom")),
         mustWorker.Event.kill]).get (by decide),
    (Option.some_get _).symm,
    (C24_terminal_status_is_final ((newMustWorker defaultOptions).Kill)
      (GoError.ofStatus Status.Cancelled) rfl _ _ (Option.some_get _).symm).1, by decide⟩

/-! ## Pipe modes -/

theorem PipeMode.end_eq_endCancel (mode : PipeMode) (err cause : Option GoError) :
    mode.«end» err cause =
      match mode.endCancel err with
      | some c => Cancel cause c
      | none => cause := by
  cases mode <;> simp only [PipeMode.«end», PipeMode.endCancel] <;> split_ifs <;> simp_all

/-- C26: what `end(err, cancel)` does in each mode: ordered and parallel call
`cancel(err)` exactly when `err` is non-nil; race calls `cancel(err)` always (on a live
scope the cause becomes `err`, or the ok sentinel, read back as nil, for a nil `err`);
any calls `cancel(nil)` exactly when `err` is nil and makes no call on an error; and
`serialize(i, n)` is true for ordered and false for parallel, race and any. -/
theorem C26_pipe_mode_end_and_serialize :
    (∀ err : Option GoError,
      PipeMode.PipeOrdered.endCancel err = (if err ≠ none then some err else none) ∧
      PipeMode.PipeParallel.endCancel err = (if err ≠ none then some err else none) ∧
      PipeMode.PipeRace.endCancel err = some err ∧
      PipeMode.PipeAny.endCancel err = (if err = none then some none else none)) ∧
    (∀ (mode : PipeMode) (err cause : Option GoError),
      mode.«end» err cause =
        match mode.endCancel err with
        | some c => Cancel cause c
        | none => cause) ∧
    (∀ e : GoError,
      PipeMode.PipeOrdered.«end» (some e) none = some e ∧
      PipeMode.PipeParallel.«end» (some e) none = some e ∧
      PipeMode.PipeRace.«end» (some e) none = some e ∧
      PipeMode.PipeAny.«end» (some e) none = none) ∧
    (PipeMode.PipeOrdered.«end» none none = none ∧
      PipeMode.PipeParallel.«end» none none = none ∧
      PipeMode.PipeRace.«end» none none = some GoError.errOk ∧
      PipeMode.PipeAny.«end» none none = some GoError.errOk ∧
      Cause (some GoError.errOk) = none) ∧
    (∀ i n : Nat,
      PipeMode.PipeOrdered.serialize i n = true ∧
      PipeMode.PipeParallel.serialize i n = false ∧
      PipeMode.PipeRace.serialize i n = false ∧
      PipeMode.PipeAny.serialize i n = false) := by
  refine ⟨fun err => ⟨rfl, rfl, rfl, rfl⟩, PipeMode.end_eq_endCancel, ?_, ?_,
    fun i n => ⟨rfl, rfl, rfl, rfl⟩⟩
  · intro e
    simp [PipeMode.«end», Cancel, OrOk]
  · simp [PipeMode.«end», Cancel, OrOk, Cause, NotOk]

theorem Pipe.any_cause_step (n : Nat) (pipe pipe' : pipeController) (ev : PipeEvent)
    (hev : ev.isParentCancel = false) (h : Pipe.AnyScope pipe.cause)
    (hstep : Pipe.step PipeMode.PipeAny n pipe ev = some pipe') :
    Pipe.AnyScope pipe'.cause := by
  have hc : ∀ c, Pipe.AnyScope c → Pipe.AnyScope (Cancel c none) := by
    intro c hc
    rcases hc with hc | hc <;> simp [hc, Cancel, OrOk, Pipe.AnyScope]
  cases ev with
  | parentCancel c => simp [PipeEvent.isParentCancel] at hev
  | launcher =>
    simp only [Pipe.step] at hstep
    split at hstep
    · split at hstep
      · split at hstep <;> simp at hstep <;> subst hstep <;> exact h
      · simp at hstep
        subst hstep
        exact h
    · split at hstep
      · simp at hstep
      · split at hstep <;> simp at hstep <;> subst hstep <;> exact h
    · split at hstep
      · simp at hstep
        subst hstep
        exact h
      · simp at hstep
    · simp at hstep
  | start i =>
    simp only [Pipe.step] at hstep
    split at hstep
    · simp at hstep
      subst hstep
      exact h
    · simp at hstep
  | exit i err =>
    simp only [Pipe.step] at hstep
    split at hstep
    · simp only [Option.some.injEq] at hstep
      subst hstep
      have h1 : Pipe.AnyScope (PipeMode.PipeAny.«end» err pipe.cause) := by
        simp only [PipeMode.«end»]
        split
        · exact hc _ h
        · exact h
      simp only
      split
      · exact hc _ h1
      · exact h1
    · simp at hstep
  | done i =>
    simp only [Pipe.step] at hstep
    split at hstep
    · simp at hstep
      subst hstep
      exact h
    · simp at hstep

theorem Pipe.any_cause_run (n : Nat) (es : List PipeEvent) :
    ∀ (pipe pipe' : pipeController), (∀ ev ∈ es, ev.isParentCancel = false) →
      Pipe.AnyScope pipe.cause → Pipe.run PipeMode.PipeAny n pipe es = some pipe' →
      Pipe.AnyScope pipe'.cause := by
  induction es with
  | nil =>
    intro pipe pipe' _ h hrun
    simp only [Pipe.run, Option.some.injEq] at hrun
    exact hrun ▸ h
  | cons ev es ih =>
    intro pipe pipe' hev h hrun
    simp only [Pipe.run] at hrun
    cases hs : Pipe.step PipeMode.PipeAny n pipe ev with
    | none => simp [hs] at hrun
    | some p =>
      rw [hs] at hrun
      exact ih p pipe' (fun e he => hev e (List.mem_cons_of_mem _ he))
        (Pipe.any_cause_step n pipe p ev (hev ev (List.mem_cons_self _ _)) h hs) hrun

theorem Pipe.anySchedule_noParentCancel (results : List (Option GoError)) :
    ∀ i, ∀ ev ∈ Pipe.anySchedule i results, ev.isParentCancel = false := by
  induction results with
  | nil =>
    intro i ev hev
    simp only [Pipe.anySchedule, List.mem_cons, List.mem_singleton, List.not_mem_nil,
      or_false] at hev
    rcases hev with rfl | rfl <;> rfl
  | cons r rest ih =>
    intro i ev hev
    cases r with
    | some e =>
      simp only [Pipe.anySchedule, List.cons_append, List.nil_append, List.mem_cons] at hev
      rcases hev with rfl | rfl | rfl | rfl | hev
      · rfl
      · rfl
      · rfl
      · rfl
      · exact ih (i + 1) ev hev
    | none =>
      simp only [Pipe.anySchedule, List.mem_cons, List.mem_singleton, List.not_mem_nil,
        or_false] at hev
      rcases hev with rfl | rfl | rfl | rfl | rfl | rfl <;> rfl

theorem Pipe.anySchedule_returns (n : Nat) (results : List (Option GoError)) :
    ∀ (i : Nat) (launched : List Nat) (ended : List (Nat × Option GoError)),
      i + results.length = n →
      ∃ pipe, Pipe.run PipeMode.PipeAny n
          { cause := if i = n then some GoError.errOk else none, left := (n : Int) - i,
            pc := LauncherPc.top i, spawned := [], waiting := [], launched := launched,
            ended := ended }
          (Pipe.anySchedule i results) = some pipe ∧
        pipe.pc = LauncherPc.returned none := by
  induction results with
  | nil =>
    intro i launched ended hi
    simp only [List.length_nil, Nat.add_zero] at hi
    subst hi
    refine ⟨{ cause := some GoError.errOk, left := (i : Int) - i,
              pc := LauncherPc.returned none, spawned := [], waiting := [],
              launched := launched, ended := ended }, ?_, rfl⟩
    simp [Pipe.anySchedule, Pipe.run, Pipe.step, Pipe.result, Cause, NotOk]
  | cons r rest ih =>
    intro i launched ended hi
    simp only [List.length_cons] at hi
    have hlt : i < n := by omega
    have hne : ¬ i = n := by omega
    cases r with
    | some e =>
      obtain ⟨pipe, hrun, hpc⟩ := ih (i + 1) (launched ++ [i]) (ended ++ [(i, some e)])
        (by omega)
      refine ⟨pipe, ?_, hpc⟩
      have hz : ((n : Int) - i - 1 = 0) ↔ i + 1 = n := by omega
      simp only [Pipe.anySchedule, List.cons_append, List.nil_append, Pipe.run, Pipe.step,
        hlt, hne, if_true, if_false, Option.isSome_none, Bool.false_eq_true,
        PipeMode.serialize, Bool.false_and, Option.isNone_none, List.mem_singleton,
        List.erase_cons_head, PipeMode.«end», hz]
      rw [← hrun]
      congr 2
      by_cases h : i + 1 = n <;> simp [h, Cancel, OrOk] <;> omega
    | none =>
      refine ⟨{ cause := some GoError.errOk, left := (n : Int) - i - 1,
                pc := LauncherPc.returned none, spawned := [], waiting := [],
                launched := launched ++ [i], ended := ended ++ [(i, none)] }, ?_, rfl⟩
      simp only [Pipe.anySchedule, Pipe.run, Pipe.step,
        hlt, hne, if_true, if_false, Option.isSome_none, Bool.false_eq_true,
        PipeMode.serialize, Bool.false_and, Option.isNone_none, List.nil_append,
        List.mem_singleton, List.erase_cons_head, PipeMode.«end»]
      by_cases h1 : i + 1 < n <;>
        simp [h1, Cancel, OrOk, Pipe.result, Cause, NotOk]

/-- C28: an any-mode pipe with `n ≥ 1` subtasks whose parent scope is not cancelled returns
nil whenever it returns: in every schedule of its goroutines, whatever the results of the
subtasks are, the value returned by `Launch` is nil; and it does return: for every list of
`n` subtask results (all errors, or some success) the schedule `anySchedule` runs to the
return of nil. -/
theorem C28_any_pipe_returns_nil (n : Nat) (hn : 1 ≤ n) :
    (∀ (es : List PipeEvent) (pipe : pipeController),
      (∀ ev ∈ es, ev.isParentCancel = false) →
      Pipe.run PipeMode.PipeAny n (newPipeController n) es = some pipe →
      ∀ res, pipe.pc = LauncherPc.returned res → res = none) ∧
    (∀ results : List (Option GoError), results.length = n →
      (∀ ev ∈ Pipe.anySchedule 0 results, ev.isParentCancel = false) ∧
      ∃ pipe, Pipe.run PipeMode.PipeAny n (newPipeController n)
          (Pipe.anySchedule 0 results) = some pipe ∧
        pipe.pc = LauncherPc.returned none) := by
  constructor
  · intro es pipe hes hrun res hres
    have hscope := Pipe.any_cause_run n es (newPipeController n) pipe hes (Or.inl rfl) hrun
    obtain ⟨hsome, hr⟩ := Pipe.returned_run PipeMode.PipeAny n es (newPipeController n) pipe
      (by intro r h; simp [newPipeController] at h) hrun res hres
    rcases hscope with hc | hc
    · rw [hc] at hsome
      simp at hsome
    · rw [hr, hc]
      simp [Pipe.result, Cause, NotOk]
  · intro results hlen
    refine ⟨Pipe.anySchedule_noParentCancel results 0, ?_⟩
    have h := Pipe.anySchedule_returns n results 0 [] [] (by omega)
    have hne : ¬ 0 = n := by omega
    simpa [newPipeController, hne] using h

/-- C28 (witness): three subtasks that all fail. -/
theorem C28_any_pipe_returns_nil_witness :
    ∃ pipe, Pipe.run PipeMode.PipeAny 3 (newPipeController 3)
        (Pipe.anySchedule 0 [some (GoError.new "a"), some (GoError.new "b"),
          some (GoError.new "c")]) = some pipe ∧
      pipe.pc = LauncherPc.returned none :=
  ((C28_any_pipe_returns_nil 3 (by decide)).2
    [some (GoError.new "a"), some (GoError.new "b"), some (GoError.new "c")] rfl).2

/-- C29: the registry's defaults for the kind `pipe` are `Pipe{}`, whose `Mode` is nil
(the kinds `ordered`, `parallel`, `race` and `any` carry their mode).  A task of kind
`pipe` with subtasks therefore reaches `p.Mode.serialize(0, n)` on a nil interface value
in `Launch` as soon as its scope is live, which panics, and the array form with the
marker `"pipe"` panics at `mode.String()`; for the four named kinds neither call
panics. -/
theorem C29_pipe_kind_has_nil_mode :
    pipeDefaults "pipe" = some (ITask.Pipe none []) ∧
    (∀ mode ∈ PipeModes, pipeDefaults mode.String = some (ITask.Pipe (some mode) [])) ∧
    (∀ (sub : List Task), sub ≠ [] →
      unmarshalPipeObject "pipe" sub
        = some (Task.mk (some (ITask.Pipe none sub)) { ID := "", Kind := "pipe" }) ∧
      Pipe.firstModeCall none sub.length none = some Outcome.panic) ∧
    (∀ (t : Task) (rest : List Task),
      unmarshalArray t (Except.ok (Task.mk (some (ITask.Pipe none [])) { ID := "", Kind := "pipe" }
        :: rest)) = Outcome.panic) ∧
    (∀ (mode : PipeMode) (n : Nat), 1 ≤ n →
      Pipe.firstModeCall (some mode) n none = some (Outcome.ok (mode.serialize 0 n)) ∧
      modeString (some mode) = Outcome.ok mode.String) ∧
    (unmarshalPipeObject "pipe" [Task.mk (some ITask.TaskNoop) { ID := "", Kind := "noop" }]
        = some (Task.mk (some (ITask.Pipe none
            [Task.mk (some ITask.TaskNoop) { ID := "", Kind := "noop" }]))
            { ID := "", Kind := "pipe" }) ∧
      Pipe.firstModeCall none 1 none = some Outcome.panic) := by
  refine ⟨rfl, ?_, ?_, ?_, ?_, ⟨rfl, rfl⟩⟩
  · intro mode hmode
    cases mode <;> rfl
  · intro sub hsub
    refine ⟨rfl, ?_⟩
    have : sub.length ≠ 0 := by
      intro h
      exact hsub (List.length_eq_zero.1 h)
    simp [Pipe.firstModeCall, this, modeSerialize]
  · intro t rest
    rfl
  · intro mode n hn
    have : n ≠ 0 := by omega
    simp [Pipe.firstModeCall, this, modeSerialize, modeString]

/-! ## Jobs -/

/-- C25: `Start` on a job that holds a worker returns that worker with `started = false`
and leaves the job as it is (no worker is created, whether the held worker's context is
done or not); on a job that holds none it creates exactly one worker, stores it as the
job's worker, starts its `Run` and returns it with `started = true`; and a `Start` right
after any `Start` returns the same worker with `started = false`. -/
theorem C25_Start_is_idempotent (s : job.Job) :
    (∀ w, s.worker = some w → s.Start = ((w, false), s)) ∧
    (s.worker = none →
      s.Start.1 = (s.created, true) ∧ s.Start.2.worker = some s.created ∧
      s.Start.2.created = s.created + 1 ∧ s.Start.2.running = s.running ++ [s.created]) ∧
    (s.Start.2.Start = ((s.Start.1.1, false), s.Start.2)) ∧
    (∀ w, s.worker = some w → (s.workerDone w).Start = ((w, false), s.workerDone w)) := by
  refine ⟨?_, ?_, ?_, ?_⟩
  · intro w h
    simp [job.Job.Start, job.Job.startLocked, h]
  · intro h
    simp [job.Job.Start, job.Job.startLocked, h]
  · cases h : s.worker with
    | none => simp [job.Job.Start, job.Job.startLocked, h]
    | some w => simp [job.Job.Start, job.Job.startLocked, h]
  · intro w h
    simp [job.Job.Start, job.Job.startLocked, job.Job.workerDone, h]

/-! ## `forEachLine` and `Writer.Write` -/

namespace clog

theorem IndexByte_eq_none (p : List UInt8) (c : UInt8) :
    IndexByte p c = none ↔ c ∉ p := by
  induction p with
  | nil => simp [IndexByte]
  | cons x rest ih =>
    by_cases h : x = c
    · simp [IndexByte, h]
    · have h' : ¬ c = x := fun e => h e.symm
      simp [IndexByte, h, h', ih]

theorem IndexByte_eq_some (p : List UInt8) (c : UInt8) :
    ∀ nl, IndexByte p c = some nl →
      ∃ line rest, p = line ++ c :: rest ∧ c ∉ line ∧ line.length = nl := by
  induction p with
  | nil => intro nl h; simp [IndexByte] at h
  | cons x rest ih =>
    intro nl h
    by_cases hx : x = c
    · simp only [IndexByte, hx, if_true, Option.some.injEq] at h
      exact ⟨[], rest, by simp [hx], by simp, by simpa using h⟩
    · simp only [IndexByte, hx, if_false, Option.map_eq_some'] at h
      obtain ⟨m, hm, hnl⟩ := h
      obtain ⟨line, rest', hp, hline, hlen⟩ := ih m hm
      refine ⟨x :: line, rest', by simp [hp], ?_, by simp [hlen, hnl]⟩
      intro hmem
      rcases List.mem_cons.1 hmem with h1 | h1
      · exact hx h1.symm
      · exact hline h1

theorem first_split_unique (c : UInt8) :
    ∀ (l1 l2 r1 r2 : List UInt8), l1 ++ c :: r1 = l2 ++ c :: r2 → c ∉ l1 → c ∉ l2 →
      l1 = l2 ∧ r1 = r2 := by
  intro l1
  induction l1 with
  | nil =>
    intro l2 r1 r2 h _ h2
    cases l2 with
    | nil => simpa using h
    | cons y l2 =>
      simp only [List.nil_append, List.cons_append, List.cons.injEq] at h
      exact absurd (by simp [h.1]) h2
  | cons x l1 ih =>
    intro l2 r1 r2 h h1 h2
    cases l2 with
    | nil =>
      simp only [List.nil_append, List.cons_append, List.cons.injEq] at h
      exact absurd (by simp [h.1]) h1
    | cons y l2 =>
      simp only [List.cons_append, List.cons.injEq] at h
      obtain ⟨hl, hr⟩ := ih l2 r1 r2 h.2 (fun hm => h1 (List.mem_cons_of_mem _ hm))
        (fun hm => h2 (List.mem_cons_of_mem _ hm))
      exact ⟨by rw [h.1, hl], hr⟩

theorem forEachLineLoop_spec :
    ∀ (fuel : Nat) (p : List UInt8) (n : Nat) (calls : List (List UInt8 × Bool))
      (a b : List UInt8), p.length ≤ fuel → p = a ++ b → CompleteLines a → 10 ∉ b →
      (forEachLineLoop fuel p n calls).2 = n + a.length ∧
      ((forEachLineLoop fuel p n calls).1.map Prod.fst).flatten
        = (calls.map Prod.fst).flatten ++ p := by
  intro fuel
  induction fuel with
  | zero =>
    intro p n calls a b hlen hp _ _
    have hp0 : p = [] := List.length_eq_zero.1 (by omega)
    have ha : a = [] := by
      rw [hp0] at hp
      exact (List.append_eq_nil.1 hp.symm).1
    simp [forEachLineLoop, hp0, ha]
  | succ fuel ih =>
    intro p n calls a b hlen hp ha hb
    by_cases hpos : p.length > 0
    · cases hidx : IndexByte p 10 with
      | none =>
        have hnot : (10 : UInt8) ∉ p := (IndexByte_eq_none p 10).1 hidx
        have ha0 : a = [] := by
          rcases ha with h | h
          · exact h
          · exfalso
            apply hnot
            rw [hp]
            exact List.mem_append_left _ (List.mem_of_getLast?_eq_some h)
        simp [forEachLineLoop, hpos, hidx, ha0]
      | some nl =>
        obtain ⟨line, rest, hsplit, hline, hnl⟩ := IndexByte_eq_some p 10 nl hidx
        have hmem : (10 : UInt8) ∈ a := by
          have : (10 : UInt8) ∈ a ++ b := by
            rw [← hp, hsplit]
            simp
          rcases List.mem_append.1 this with h | h
          · exact h
          · exact absurd h hb
        obtain ⟨line', a', ha', hline'⟩ : ∃ line' a', a = line' ++ 10 :: a' ∧ (10 : UInt8) ∉ line' := by
          obtain ⟨k, hk⟩ := Option.isSome_iff_exists.1
            (by
              cases h : IndexByte a 10 with
              | none => exact absurd hmem ((IndexByte_eq_none a 10).1 h)
              | some k => rfl : (IndexByte a 10).isSome = true)
          obtain ⟨l, r, h1, h2, _⟩ := IndexByte_eq_some a 10 k hk
          exact ⟨l, r, h1, h2⟩
        have huniq := first_split_unique 10 line line' rest (a' ++ b)
          (by rw [← hsplit, hp, ha']; simp) hline hline'
        obtain ⟨hl, hr⟩ := huniq
        subst hl
        have htake : p.take (nl + 1) = line ++ [10] := by
          rw [hsplit, ← hnl]
          simp [List.take_append_eq_append_take]
        have hdrop : p.drop (nl + 1) = rest := by
          rw [hsplit, ← hnl]
          simp [List.drop_append_eq_append_drop]
        have ha'c : CompleteLines a' := by
          rcases ha with h | h
          · rw [h] at ha'
            simp at ha'
          · by_cases hnil : a' = []
            · exact Or.inl hnil
            · right
              rw [ha'] at h
              rw [List.getLast?_append_of_ne_nil _ (by simp)] at h
              cases a' with
              | nil => exact absurd rfl hnil
              | cons y ys =>
                rw [List.getLast?_cons_cons] at h
                exact h
        have hlen' : rest.length ≤ fuel := by
          have : p.length = line.length + 1 + rest.length := by
            rw [hsplit]
            simp
            omega
          omega
        obtain ⟨h1, h2⟩ := ih rest (n + (nl + 1)) (calls ++ [(line ++ [10], true)]) a' b
          hlen' hr ha'c hb
        simp only [forEachLineLoop, hpos, if_true, hidx, htake, hdrop]
        refine ⟨?_, ?_⟩
        · rw [h1, ha']
          simp
          omega
        · rw [h2, hsplit]
          simp
    · have hp0 : p = [] := List.length_eq_zero.1 (by omega)
      have ha0 : a = [] := by
        rw [hp0] at hp
        exact (List.append_eq_nil.1 hp.symm).1
      simp [forEachLineLoop, hp0, ha0]

end clog

namespace clog

theorem exists_complete_split (p : List UInt8) :
    ∃ a b, p = a ++ b ∧ CompleteLines a ∧ (10 : UInt8) ∉ b := by
  induction p using List.reverseRecOn with
  | nil => exact ⟨[], [], rfl, Or.inl rfl, by simp⟩
  | append_singleton q x ih =>
    by_cases hx : x = 10
    · subst hx
      exact ⟨q ++ [10], [], by simp, Or.inr (List.getLast?_concat q), by simp⟩
    · obtain ⟨a, b, hq, ha, hb⟩ := ih
      refine ⟨a, b ++ [x], by rw [hq, List.append_assoc], ha, ?_⟩
      intro hmem
      rcases List.mem_append.1 hmem with h | h
      · exact hb h
      · simp at h
        exact hx h.symm

theorem forEachLine_count (p : List UInt8) :
    (forEachLine p).2 ≤ p.length ∧ ((forEachLine p).2 = p.length ↔ CompleteLines p) := by
  obtain ⟨a, b, hp, ha, hb⟩ := exists_complete_split p
  have h := (forEachLineLoop_spec p.length p 0 [] a b (le_refl _) hp ha hb).1
  have hn : (forEachLine p).2 = a.length := by
    simpa [forEachLine] using h
  have hlen : p.length = a.length + b.length := by
    rw [hp]
    simp
  refine ⟨by omega, ?_⟩
  constructor
  · intro heq
    have hb0 : b = [] := List.length_eq_zero.1 (by omega)
    rw [hp, hb0, List.append_nil]
    exact ha
  · intro hc
    have hb0 : b = [] := by
      rcases hc with h | h
      · rw [h] at hp
        exact (List.append_eq_nil.1 hp.symm).2
      · by_contra hne
        rw [hp, List.getLast?_append_of_ne_nil _ hne] at h
        exact hb (List.mem_of_getLast?_eq_some h)
    rw [hb0] at hlen
    simp at hlen
    omega

end clog

/-- C30: `forEachLine` hands every byte of `p` to its callback, in order, but the count it
returns stops after the last newline: for `p = a ++ b` with `a` a run of complete lines
and `b` without newline the count is `len(a)`, so it is `len(p)` exactly when `p` is
empty or ends with a newline and less otherwise.  `Writer.Write` returns that count: for
the input `abc` it buffers the three bytes (after the line prefix) and reports `n = 0`
with a nil error. -/
theorem C30_write_count_stops_at_last_newline :
    (∀ a b : List UInt8, clog.CompleteLines a → (10 : UInt8) ∉ b →
      (clog.forEachLine (a ++ b)).2 = a.length ∧
      ((clog.forEachLine (a ++ b)).1.map Prod.fst).flatten = a ++ b ∧
      ∀ (f : clog.Writer) (linePrefix : List UInt8) (streamErr : List UInt8 → Option String),
        (f.Write linePrefix streamErr (a ++ b)).1.1 = a.length) ∧
    (∀ p : List UInt8, (clog.forEachLine p).2 ≤ p.length ∧
      ((clog.forEachLine p).2 = p.length ↔ clog.CompleteLines p)) ∧
    clog.forEachLine [97, 98, 99] = ([([97, 98, 99], false)], 0) ∧
    clog.Writer.Write { buffer := [], flushed := [] } [62, 32] (fun _ => none) [97, 98, 99]
      = ((0, none), { buffer := [62, 32, 97, 98, 99], flushed := [] }) ∧
    clog.Writer.Write { buffer := [], flushed := [] } [62, 32] (fun _ => none)
        [97, 10, 98, 99]
      = ((2, none), { buffer := [62, 32, 98, 99], flushed := [[62, 32, 97, 10]] }) := by
  refine ⟨?_, clog.forEachLine_count, by decide, by decide, by decide⟩
  intro a b ha hb
  have h := clog.forEachLineLoop_spec (a ++ b).length (a ++ b) 0 [] a b (le_refl _) rfl ha hb
  have h1 : (clog.forEachLine (a ++ b)).2 = a.length := by
    simpa [clog.forEachLine] using h.1
  refine ⟨h1, by simpa [clog.forEachLine] using h.2, ?_⟩
  intro f linePrefix streamErr
  simp only [clog.Writer.Write]
  exact h1

namespace automarshal

namespace ArgReader

theorem Read_split_cons (pre : List Char) (c : Char) (post : List Char) :
    (split pre (c :: post)).Read = (Except.ok c, split (pre ++ [c]) post) := by
  simp only [Read, split, List.length_append, List.length_cons, ge_iff_le, List.get_eq_getElem,
    List.append_assoc, List.singleton_append, List.length_nil]
  rw [dif_neg (by omega), List.getElem_append_right (le_refl _)]
  simp

theorem Read_split_nil (pre : List Char) :
    (split pre []).Read = (Except.error ArgError.EOF, split pre []) := by
  simp [Read, split]

theorem Unread_split (pre : List Char) (c : Char) (post : List Char) :
    (split (pre ++ [c]) post).Unread = split pre (c :: post) := by
  simp [Unread, split]

theorem SkipspaceLoop_split : ∀ (post pre : List Char) (fuel : Nat), post.length < fuel →
    SkipspaceLoop fuel (split pre post)
      = some (split (pre ++ post.takeWhile isSpace) (post.dropWhile isSpace))
  | [], pre, fuel, h => by
    obtain ⟨fuel, rfl⟩ : ∃ k, fuel = k + 1 := ⟨fuel - 1, by simp at h; omega⟩
    simp [SkipspaceLoop, Read_split_nil]
  | c :: post, pre, fuel, h => by
    obtain ⟨fuel, rfl⟩ : ∃ k, fuel = k + 1 := ⟨fuel - 1, by simp at h; omega⟩
    have ih := SkipspaceLoop_split post (pre ++ [c]) fuel (by simp at h; omega)
    simp only [SkipspaceLoop, Read_split_cons]
    by_cases hc : isSpace c = true
    · have hc2 : ¬ (c ≠ ' ' ∧ c ≠ '\t' ∧ c ≠ '\n' ∧ c ≠ '\r') := by
        simp only [isSpace, decide_eq_true_eq] at hc
        tauto
      rw [if_neg hc2, ih]
      simp [List.takeWhile_cons, List.dropWhile_cons, hc]
    · have hc2 : c ≠ ' ' ∧ c ≠ '\t' ∧ c ≠ '\n' ∧ c ≠ '\r' := by
        simp only [isSpace, decide_eq_true_eq] at hc
        tauto
      rw [if_pos hc2, Unread_split]
      simp [List.takeWhile_cons, List.dropWhile_cons, hc]

theorem Skipspace_split (pre post : List Char) :
    (split pre post).Skipspace
      = some (split (pre ++ post.takeWhile isSpace) (post.dropWhile isSpace)) := by
  unfold Skipspace
  apply SkipspaceLoop_split
  simp [split]
  omega

theorem TakeIf_split (pre post : List Char) (c : Char) (hc : c ≠ ' ') :
    (split pre post).TakeIf c =
      match post.dropWhile isSpace with
      | [] => some (false, split (pre ++ post.takeWhile isSpace) [])
      | d :: tail =>
        if d ≠ c then some (false, split (pre ++ post.takeWhile isSpace) (d :: tail))
        else some (true, split (pre ++ post.takeWhile isSpace ++ [d]) tail) := by
  unfold TakeIf
  rw [if_pos hc, Skipspace_split]
  cases post.dropWhile isSpace with
  | nil => simp [Read_split_nil]
  | cons d tail =>
    simp only [Read_split_cons, Unread_split]

theorem takeWhile_isSpace_cons (d : Char) (tail : List Char) (hd : isSpace d = false) :
    (d :: tail).takeWhile isSpace = [] ∧ (d :: tail).dropWhile isSpace = d :: tail := by
  simp [List.takeWhile_cons, List.dropWhile_cons, hd]

theorem identifierOk_not_quote (c : Char) (h : identifierOk.TestRune c = true) :
    c ≠ '"' ∧ c ≠ '\'' := by
  constructor <;> (rintro rfl; revert h; decide)

theorem identifierOkFirst_facts (c : Char) (h : identifierOkFirst.TestRune c = true) :
    c ≠ '"' ∧ c ≠ '\'' ∧ isSpace c = false ∧ c ≠ '-' ∧ c ≠ '@' ∧ c ≠ '{' ∧ c ≠ '=' := by
  refine ⟨?_, ?_, ?_, ?_, ?_, ?_, ?_⟩
  · rintro rfl; revert h; decide
  · rintro rfl; revert h; decide
  · by_contra hs
    simp only [isSpace, Bool.not_eq_false, decide_eq_true_eq] at hs
    rcases hs with rfl | rfl | rfl | rfl <;> (revert h; decide)
  · rintro rfl; revert h; decide
  · rintro rfl; revert h; decide
  · rintro rfl; revert h; decide
  · rintro rfl; revert h; decide

theorem tileRune_not_quote (tile : Bool) (c : Char) (h : identifierOk.TestRune c = true) :
    ¬ (tileRune tile c = '"' ∨ tileRune tile c = '\'') := by
  have hq := identifierOk_not_quote c h
  unfold tileRune
  split_ifs
  · decide
  · tauto
  · tauto

theorem IDLoop_began (tile : Bool) : ∀ (name pre acc : List Char) (fuel : Nat) (rest : List Char),
    (∀ x ∈ name, identifierOk.TestRune x = true) →
    (∀ x, rest.head? = some x → identifierOk.TestRune x = false) →
    name.length < fuel →
    IDLoop tile fuel (split pre (name ++ rest)) true acc
      = some (Except.ok (String.mk (acc ++ name.map (tileRune tile))),
          split (pre ++ name) rest)
  | [], pre, acc, fuel, rest, _, hrest, h => by
    obtain ⟨fuel, rfl⟩ : ∃ k, fuel = k + 1 := ⟨fuel - 1, by simp at h; omega⟩
    cases rest with
    | nil => simp [IDLoop, Read_split_nil]
    | cons d tail =>
      have hd := hrest d rfl
      simp [IDLoop, Read_split_cons, hd, Unread_split]
  | c :: name, pre, acc, fuel, rest, hname, hrest, h => by
    obtain ⟨fuel, rfl⟩ : ∃ k, fuel = k + 1 := ⟨fuel - 1, by simp at h; omega⟩
    have hc : identifierOk.TestRune c = true := hname c (List.mem_cons_self _ _)
    have ih := IDLoop_began tile name (pre ++ [c]) (acc ++ [tileRune tile c]) fuel rest
      (fun x hx => hname x (List.mem_cons_of_mem _ hx)) hrest (by simp at h; omega)
    have hq := tileRune_not_quote tile c hc
    simp only [tileRune] at hq ih
    simp only [IDLoop, List.cons_append, Read_split_cons, if_true, hc, Bool.not_true,
      Bool.false_eq_true, if_false, hq]
    rw [ih]
    simp [tileRune]

theorem identifierOkFirst_not_value_start (c : Char)
    (h : identifierOkFirst.TestRune c = true) :
    c ≠ '[' ∧ c ∉ ['-', '+', '.', '0', '1', '2', '3', '4', '5', '6', '7', '8', '9'] := by
  constructor
  · rintro rfl; revert h; decide
  · intro hm
    simp only [List.mem_cons, List.mem_singleton, List.not_mem_nil, or_false] at hm
    rcases hm with rfl | rfl | rfl | rfl | rfl | rfl | rfl | rfl | rfl | rfl | rfl | rfl | rfl <;>
      (revert h; decide)

theorem map_tileRune_false (name : List Char) : name.map (tileRune false) = name := by
  induction name with
  | nil => rfl
  | cons c name ih => simp [tileRune, ih]

theorem ID_split (tile : Bool) (pre : List Char) (c : Char) (name rest : List Char)
    (hc : identifierOkFirst.TestRune c = true)
    (hname : ∀ x ∈ name, identifierOk.TestRune x = true)
    (hrest : ∀ x, rest.head? = some x → identifierOk.TestRune x = false) :
    (split pre (c :: (name ++ rest))).ID tile
      = some (Except.ok (String.mk (c :: name.map (tileRune tile))),
          split (pre ++ c :: name) rest) := by
  obtain ⟨hq1, hq2, hsp, -⟩ := identifierOkFirst_facts c hc
  obtain ⟨htw, hdw⟩ := takeWhile_isSpace_cons c (name ++ rest) hsp
  have hq : ¬ (c = '"' ∨ c = '\'') := by tauto
  have ih := IDLoop_began tile name (pre ++ [c]) [c] (split pre (c :: (name ++ rest))).buf.length
    rest hname hrest (by simp [split]; omega)
  unfold ID
  simp only [IDLoop, Significant, Skipspace_split, htw, hdw, List.append_nil, Read_split_cons,
    Bool.false_eq_true, if_false, hc, Bool.not_true, hq, List.nil_append]
  rw [ih]
  simp

theorem ID_eof (tile : Bool) (pre post : List Char) (hpost : ∀ x ∈ post, isSpace x = true) :
    (split pre post).ID tile = some (Except.error ArgError.EOF, split (pre ++ post) []) := by
  have htw : post.takeWhile isSpace = post := List.takeWhile_eq_self_iff.2 hpost
  have hdw : post.dropWhile isSpace = [] := List.dropWhile_eq_nil_iff.2 hpost
  unfold ID
  simp [IDLoop, Significant, Skipspace_split, htw, hdw, Read_split_nil]

theorem TakeIf_eof (pre post : List Char) (c : Char) (hc : c ≠ ' ')
    (hpost : ∀ x ∈ post, isSpace x = true) :
    (split pre post).TakeIf c = some (false, split (pre ++ post) []) := by
  have htw : post.takeWhile isSpace = post := List.takeWhile_eq_self_iff.2 hpost
  have hdw : post.dropWhile isSpace = [] := List.dropWhile_eq_nil_iff.2 hpost
  rw [TakeIf_split pre post c hc, hdw, htw]

theorem TakeIf_hit (pre post : List Char) (c : Char) (hc : c ≠ ' ') (hs : isSpace c = false) :
    (split pre (c :: post)).TakeIf c = some (true, split (pre ++ [c]) post) := by
  obtain ⟨htw, hdw⟩ := takeWhile_isSpace_cons c post hs
  rw [TakeIf_split pre _ c hc, hdw, htw]
  simp

theorem TakeIf_miss (pre post : List Char) (c d : Char) (hc : c ≠ ' ')
    (hs : isSpace d = false) (hd : d ≠ c) :
    (split pre (d :: post)).TakeIf c = some (false, split pre (d :: post)) := by
  obtain ⟨htw, hdw⟩ := takeWhile_isSpace_cons d post hs
  rw [TakeIf_split pre _ c hc, hdw, htw]
  simp [hd]

theorem dropWhile_isSpace_idem (post : List Char) :
    ((post.dropWhile isSpace).takeWhile isSpace = []) ∧
    ((post.dropWhile isSpace).dropWhile isSpace = post.dropWhile isSpace) := by
  induction post with
  | nil => simp
  | cons c post ih =>
    by_cases hc : isSpace c = true
    · simpa [List.dropWhile_cons, hc] using ih
    · simp [List.dropWhile_cons, List.takeWhile_cons, hc]

theorem Assign_missing (unmarshalFile : String → Except ArgError ArgMap) (k : Char)
    (hk : k ≠ ' ') (fuel : Nat) (pre post : List Char)
    (hpost : (post.dropWhile isSpace).head? ≠ some k) :
    Assign unmarshalFile k (fuel + 1) (split pre post)
      = some (Except.error (ArgError.other ("expected " ++ String.singleton k)),
          split (pre ++ post.takeWhile isSpace) (post.dropWhile isSpace)) := by
  obtain ⟨h1, h2⟩ := dropWhile_isSpace_idem post
  simp only [Assign, Skipspace_split, Take, TakeIf_split _ _ k hk, h1, h2, List.append_nil]
  cases hdw : post.dropWhile isSpace with
  | nil => simp
  | cons d tail =>
    have hd : d ≠ k := by
      intro hdk
      apply hpost
      rw [hdw, hdk]
      rfl
    simp [hd]

theorem Assign_identifier (unmarshalFile : String → Except ArgError ArgMap) (k : Char)
    (hk : k ≠ ' ') (hks : isSpace k = false) (fuel : Nat) (pre : List Char) (v : Char)
    (value rest : List Char)
    (hv : identifierOkFirst.TestRune v = true)
    (hvalue : ∀ x ∈ value, identifierOk.TestRune x = true)
    (hrest : ∀ x, rest.head? = some x → identifierOk.TestRune x = false) :
    Assign unmarshalFile k (fuel + 2) (split pre (k :: v :: (value ++ rest)))
      = some (Except.ok (ArgValue.string (String.mk (v :: value))),
          split (pre ++ k :: v :: value) rest) := by
  obtain ⟨hq1, hq2, hsp, -, -, hbrace, -⟩ := identifierOkFirst_facts v hv
  obtain ⟨hbr, hnum⟩ := identifierOkFirst_not_value_start v hv
  obtain ⟨htw, hdw⟩ := takeWhile_isSpace_cons k (v :: (value ++ rest)) hks
  obtain ⟨htw2, hdw2⟩ := takeWhile_isSpace_cons v (value ++ rest) hsp
  have hq : ¬ (v = '"' ∨ v = '\'') := by tauto
  have hid := ID_split false (pre ++ [k]) v value rest hv hvalue hrest
  simp only [Assign, Skipspace_split, htw, hdw, List.append_nil, Take, TakeIf_hit _ _ k hk hks,
    Any, Significant, htw2, hdw2, Read_split_cons, hbrace, hbr, hq, hnum, hv, if_false, if_true,
    Unread_split, hid, map_tileRune_false]
  simp

theorem isSpace_not_identifierOk (x : Char) (hx : isSpace x = true) :
    identifierOk.TestRune x = false := by
  simp only [isSpace, decide_eq_true_eq] at hx
  rcases hx with rfl | rfl | rfl | rfl <;> decide

theorem Set_bare_flag (unmarshalFile : String → Except ArgError ArgMap) (c : Char)
    (name rest : List Char)
    (hc : identifierOkFirst.TestRune c = true)
    (hname : ∀ x ∈ name, identifierOk.TestRune x = true)
    (hrest : ∀ x, rest.head? = some x → identifierOk.TestRune x = false)
    (heq : (rest.dropWhile isSpace).head? ≠ some '=') :
    (split [] ('-' :: '-' :: c :: (name ++ rest))).Set unmarshalFile
      = some (Except.error (ArgError.other "expected ="),
          split ('-' :: '-' :: c :: name ++ rest.takeWhile isSpace)
            (rest.dropWhile isSpace)) := by
  have h1 := TakeIf_miss [] ('-' :: c :: (name ++ rest)) '@' '-' (by decide) (by decide)
    (by decide)
  have h2 := TakeIf_miss [] ('-' :: c :: (name ++ rest)) '{' '-' (by decide) (by decide)
    (by decide)
  have h3 := TakeIf_hit [] ('-' :: c :: (name ++ rest)) '-' (by decide) (by decide)
  have h4 := TakeIf_hit ([] ++ ['-']) (c :: (name ++ rest)) '-' (by decide) (by decide)
  have h5 := ID_split true ([] ++ ['-'] ++ ['-']) c name rest hc hname hrest
  have h6 := fun fuel => Assign_missing unmarshalFile '=' (by decide) fuel
    ([] ++ ['-'] ++ ['-'] ++ c :: name) rest heq
  unfold Set
  simp only [h1, h2]
  rw [show 4 * (split [] ('-' :: '-' :: c :: (name ++ rest))).buf.length + 4
    = (4 * (split [] ('-' :: '-' :: c :: (name ++ rest))).buf.length + 2) + 1 + 1 from rfl]
  unfold SetLoop
  simp only [h3, h4, if_true, Option.map_some', h5, h6]
  simp
  rfl

theorem Set_flag_with_identifier (unmarshalFile : String → Except ArgError ArgMap) (c : Char)
    (name : List Char) (v : Char) (value tail : List Char)
    (hc : identifierOkFirst.TestRune c = true)
    (hname : ∀ x ∈ name, identifierOk.TestRune x = true)
    (hv : identifierOkFirst.TestRune v = true)
    (hvalue : ∀ x ∈ value, identifierOk.TestRune x = true)
    (htail : ∀ x ∈ tail, isSpace x = true) :
    (split [] ('-' :: '-' :: c :: (name ++ '=' :: v :: (value ++ tail)))).Set unmarshalFile
      = some (Except.ok [(String.mk (c :: name.map (tileRune true)),
            ArgValue.string (String.mk (v :: value)))],
          split ('-' :: '-' :: c :: (name ++ '=' :: v :: (value ++ tail))) []) := by
  have h1 := TakeIf_miss [] ('-' :: c :: (name ++ '=' :: v :: (value ++ tail))) '@' '-'
    (by decide) (by decide) (by decide)
  have h2 := TakeIf_miss [] ('-' :: c :: (name ++ '=' :: v :: (value ++ tail))) '{' '-'
    (by decide) (by decide) (by decide)
  have h3 := TakeIf_hit [] ('-' :: c :: (name ++ '=' :: v :: (value ++ tail))) '-'
    (by decide) (by decide)
  have h4 := TakeIf_hit ([] ++ ['-']) (c :: (name ++ '=' :: v :: (value ++ tail))) '-'
    (by decide) (by decide)
  have h5 := ID_split true ([] ++ ['-'] ++ ['-']) c name ('=' :: v :: (value ++ tail)) hc hname
    (by
      intro x hx
      simp only [List.head?_cons, Option.some.injEq] at hx
      subst hx
      decide)
  have htail2 : ∀ x, tail.head? = some x → identifierOk.TestRune x = false := by
    intro x hx
    exact isSpace_not_identifierOk x (htail x (List.mem_of_mem_head? hx))
  have h6 := fun fuel => Assign_identifier unmarshalFile '=' (by decide) (by decide) fuel
    ([] ++ ['-'] ++ ['-'] ++ c :: name) v value tail hv hvalue htail2
  have h7 := TakeIf_eof ([] ++ ['-'] ++ ['-'] ++ c :: name ++ '=' :: v :: value) tail '-'
    (by decide) htail
  have h8 := ID_eof true ([] ++ ['-'] ++ ['-'] ++ c :: name ++ '=' :: v :: value ++ tail) []
    (by simp)
  unfold Set
  simp only [h1, h2]
  rw [show 4 * (split [] ('-' :: '-' :: c :: (name ++ '=' :: v :: (value ++ tail)))).buf.length + 4
    = (4 * (split [] ('-' :: '-' :: c :: (name ++ '=' :: v :: (value ++ tail)))).buf.length + 1)
        + 2 + 1 from rfl]
  unfold SetLoop
  simp only [h3, h4, if_true, Option.map_some', h5, h6]
  rw [show 4 * (split [] ('-' :: '-' :: c :: (name ++ '=' :: v :: (value ++ tail)))).buf.length
      + 1 + 2 = (4 * (split [] ('-' :: '-' :: c :: (name ++ '=' :: v :: (value ++ tail)))).buf.length
      + 2) + 1 from rfl]
  unfold SetLoop
  simp only [h7, Bool.false_eq_true, if_false, h8]
  simp [mapAssign]

end ArgReader

end automarshal

/-- C23: `Set` rejects a bare flag.  For every identifier `name` (a letter `c`, then
runes of `identifierOk`): on `--name` followed by a `rest` that does not continue the
identifier and does not start, after white space, with `=` (nothing, or further flags),
`Set` returns the error `expected =` and no option set, because `Take` reports a missing
`=` with that error and never with `io.EOF`, the only error for which `Assign` answers
`true`; on `--name=value` with an identifier `value`, followed by white space only, it
returns the set that maps `name` (each `-` after the first rune written `_`) to the
string `value`.  So do the argument strings that the client builds for `--force` and for
`--force --name=x`; for `--force=` the set maps `force` to `true`. -/
theorem C23_bare_flag_is_rejected (unmarshalFile : String → Except automarshal.ArgError
    automarshal.ArgMap) (c : Char) (name : List Char)
    (hc : automarshal.identifierOkFirst.TestRune c = true)
    (hname : ∀ x ∈ name, automarshal.identifierOk.TestRune x = true) :
    (∀ rest : List Char,
      (∀ x, rest.head? = some x → automarshal.identifierOk.TestRune x = false) →
      (rest.dropWhile automarshal.ArgReader.isSpace).head? ≠ some '=' →
      ((automarshal.NewArgReader (String.mk ('-' :: '-' :: c :: (name ++ rest)))).Set
          unmarshalFile).map Prod.fst
        = some (Except.error (automarshal.ArgError.other "expected ="))) ∧
    (∀ (v : Char) (value tail : List Char),
      automarshal.identifierOkFirst.TestRune v = true →
      (∀ x ∈ value, automarshal.identifierOk.TestRune x = true) →
      (∀ x ∈ tail, automarshal.ArgReader.isSpace x = true) →
      ((automarshal.NewArgReader
          (String.mk ('-' :: '-' :: c :: (name ++ '=' :: v :: (value ++ tail))))).Set
          unmarshalFile).map Prod.fst
        = some (Except.ok [(String.mk (c :: name.map (automarshal.ArgReader.tileRune true)),
            automarshal.ArgValue.string (String.mk (v :: value)))])) ∧
    (client.runArgs ["--force"]).1 = "--force " ∧
    ((automarshal.NewArgReader (client.runArgs ["--force"]).1).Set unmarshalFile).map Prod.fst
      = some (Except.error (automarshal.ArgError.other "expected =")) ∧
    ((automarshal.NewArgReader (client.runArgs ["--force", "--name=x"]).1).Set
        unmarshalFile).map Prod.fst
      = some (Except.error (automarshal.ArgError.other "expected =")) ∧
    ((automarshal.NewArgReader (client.runArgs ["--name=x"]).1).Set unmarshalFile).map Prod.fst
      = some (Except.ok [("name", automarshal.ArgValue.string "x")]) ∧
    ((automarshal.NewArgReader (client.runArgs ["--force="]).1).Set unmarshalFile).map Prod.fst
      = some (Except.ok [("force", automarshal.ArgValue.bool true),
          ("args", automarshal.ArgValue.strings ["force"])]) := by
  refine ⟨?_, ?_, by decide, rfl, rfl, rfl, rfl⟩
  · intro rest hrest heq
    have h := automarshal.ArgReader.Set_bare_flag unmarshalFile c name rest hc hname hrest heq
    have hr : automarshal.NewArgReader (String.mk ('-' :: '-' :: c :: (name ++ rest)))
        = automarshal.ArgReader.split [] ('-' :: '-' :: c :: (name ++ rest)) := rfl
    rw [hr, h]
    rfl
  · intro v value tail hv hvalue htail
    have h := automarshal.ArgReader.Set_flag_with_identifier unmarshalFile c name v value tail
      hc hname hv hvalue htail
    have hr : automarshal.NewArgReader
        (String.mk ('-' :: '-' :: c :: (name ++ '=' :: v :: (value ++ tail))))
        = automarshal.ArgReader.split [] ('-' :: '-' :: c :: (name ++ '=' :: v :: (value ++ tail))) :=
      rfl
    rw [hr, h]
    rfl

/-- C23 (witness): the flag `--force`. -/
theorem C23_bare_flag_is_rejected_witness :
    automarshal.identifierOkFirst.TestRune 'f' = true ∧
    (∀ x ∈ ['o', 'r', 'c', 'e'], automarshal.identifierOk.TestRune x = true) ∧
    ((automarshal.NewArgReader "--force").Set (fun _ => Except.ok [])).map Prod.fst
      = some (Except.error (automarshal.ArgError.other "expected =")) :=
  ⟨by decide, by decide,
    (C23_bare_flag_is_rejected (fun _ => Except.ok []) 'f' ['o', 'r', 'c', 'e'] (by decide)
      (by decide)).1 [] (by simp) (by simp)⟩

end Gosu
